import Mathlib

/-!
# ExoBrowser frame registry: a shallow embedding of `src/browser/exo_browser.cc`

The window (`ExoBrowser`) keeps three containers of frame pointers
(`controls_`, `pages_`, `floating_`), mutates the frames it is handed, calls
the platform layer (`Platform*`) and posts tasks to the node thread.

* pointers to `ExoFrame` are natural numbers indexing a heap `frames`;
* `std::map` is an association list kept in increasing key order;
* calls to the platform layer, tasks posted to the node thread and calls made
  on surfaces outside the registry are appended, in program order, to one
  event trace;
* the engine state the callbacks read (navigation history) is a parameter;
* the process (`s_instances` and the members of every window) is a `World`,
  of which a member function sees one window as a `State`;
* the two `while` loops of `Kill` take fuel.
-/

namespace ExoBrowser

/-! ## Data model -/

/-- Address of an `ExoFrame` object. -/
abbrev FramePtr := Nat

/-- Address of an `ExoBrowser` object (`this`). -/
abbrev BrowserPtr := Nat

/-- Address of a `content::WebContents` object. -/
abbrev WebContentsPtr := Nat

/-- Modelled from the spec: the enumeration `CONTROL_TYPE` is declared in
`exo_browser.h`, which is not part of the sources; roles are "pre-enumerated",
so a role is its enumerator value and `std::map` orders roles by it. -/
abbrev CONTROL_TYPE := Nat

/-- The role tags `ExoFrame::NOTYPE_FRAME`, `CONTROL_FRAME`, `PAGE_FRAME` and
`FLOATING_FRAME` used by `exo_browser.cc`. -/
inductive FRAME_TYPE where
  | NOTYPE_FRAME
  | CONTROL_FRAME
  | PAGE_FRAME
  | FLOATING_FRAME
deriving DecidableEq, Repr, Inhabited

/-- Modelled from the spec: `content::WebContents` is an engine class outside
the sources. Only its address (compared by `FrameForWebContents`) and whether
the last of `WasShown()` / `WasHidden()` called on it was `WasShown()` are
kept. -/
structure WebContents where
  addr : WebContentsPtr
  shown : Bool
deriving DecidableEq, Repr, Inhabited

/-- Modelled from the spec: `ExoFrame` is declared in `exo_frame.h`, which is
not part of the sources. A frame has a name, a role tag (`SetType`), an
owning-window back-reference (`SetParent`, null when detached) and "an owned
rendering-engine surface instance" (`web_contents_`), which is therefore
stored inside the frame. -/
structure ExoFrame where
  name : String
  type_ : FRAME_TYPE
  parent_ : Option BrowserPtr
  web_contents_ : WebContents
deriving DecidableEq, Repr, Inhabited

/-- The class `gfx::Rect`, as used for `initial_pos`. -/
structure Rect where
  x : Int
  y : Int
  width : Int
  height : Int
deriving DecidableEq, Repr, Inhabited

/-- Calls made to the platform layer (`ExoBrowser::Platform*`). -/
inductive PlatformCall where
  | SetControl (type : CONTROL_TYPE) (frame : FramePtr)
  | UnsetControl (type : CONTROL_TYPE) (frame : FramePtr)
  | SetControlDimension (type : CONTROL_TYPE) (size : Int)
  | ShowFloating (frame : FramePtr) (x y width height : Int)
  | HideFloating
  | AddPage (frame : FramePtr)
  | RemovePage (frame : FramePtr)
  | ShowPage (frame : FramePtr)
  | Kill
deriving DecidableEq, Repr

/-- Modelled from the spec: the enumeration `content::PageType` of the engine,
outside the sources. `NavigationStateChanged` names `PAGE_TYPE_ERROR` and
`PAGE_TYPE_INTERSTITIAL`; every other value, the normal page type included,
takes the `default` branch. -/
inductive PageType where
  | PAGE_TYPE_NORMAL
  | PAGE_TYPE_ERROR
  | PAGE_TYPE_INTERSTITIAL
  | unrecognized (value : Int)
deriving DecidableEq, Repr, Inhabited

/-- Modelled from the spec: the enumeration `content::SecurityStyle` of the
engine, outside the sources. -/
inductive SecurityStyle where
  | SECURITY_STYLE_UNKNOWN
  | SECURITY_STYLE_UNAUTHENTICATED
  | SECURITY_STYLE_AUTHENTICATION_BROKEN
  | SECURITY_STYLE_AUTHENTICATED
  | unrecognized (value : Int)
deriving DecidableEq, Repr, Inhabited

/-- Modelled from the spec: the fields of `content::SSLStatus` read by
`NavigationStateChanged`. -/
structure SSLStatus where
  security_style : SecurityStyle
  cert_status : Int
  content_status : Int
deriving DecidableEq, Repr, Inhabited

/-- Modelled from the spec: a `content::NavigationEntry` of the engine,
outside the sources: its address and what the getters called by
`NavigationStateChanged` return (`GetURL().spec()`, `GetVirtualURL().spec()`,
`GetTitle()` as UTF-8, `GetTimestamp().ToInternalValue()`, `GetUniqueID()`,
`GetPageType()`, `GetSSL()`). -/
structure NavigationEntry where
  addr : Nat
  url : String
  virtual_url : String
  title : String
  timestamp : Int
  unique_id : Int
  page_type : PageType
  ssl : SSLStatus
deriving DecidableEq, Repr, Inhabited

/-- Modelled from the spec: the `content::NavigationController` of a surface,
outside the sources: the history (`GetEntryCount`, `GetEntryAtIndex`), the
address `GetVisibleEntry()` returns (null when there is none), `CanGoBack()`
and `CanGoForward()`. -/
structure NavigationController where
  entries : List NavigationEntry
  visible_entry : Option Nat
  can_go_back : Bool
  can_go_forward : Bool
deriving DecidableEq, Repr, Inhabited

/-- The record `ExoBrowserWrap::NavigationEntry` filled by
`NavigationStateChanged` (lines 366-402). -/
structure WrapNavigationEntry where
  url_ : String
  virtual_url_ : String
  title_ : String
  visible_ : Bool
  timestamp_ : Int
  id_ : Int
  type_ : String
  ssl_security_type_ : String
  ssl_cert_status_ : Int
  ssl_content_status_ : Int
deriving DecidableEq, Repr, Inhabited

/-- The class `content::Referrer`, as passed through by `OpenURLFromTab`. -/
structure Referrer where
  url : String
  policy : Int
deriving DecidableEq, Repr, Inhabited

/-- The fields of `content::OpenURLParams` read by `OpenURLFromTab`. -/
structure OpenURLParams where
  url : String
  referrer : Referrer
  disposition : Int
  transition : Int
deriving DecidableEq, Repr, Inhabited

/-- Tasks posted to the node thread (`NodeThread::Get()->PostTask`), named
after the `ExoBrowserWrap::Dispatch*` method they are bound to. The wrapper
the task is bound to is identified with its window. -/
inductive Message where
  | Kill (wrapper : BrowserPtr)
  | FrameCreated (wrapper : BrowserPtr) (src_name : String) (disposition : Int)
      (initial_pos : Rect) (new_frame : FramePtr)
  | OpenURL (wrapper : BrowserPtr) (url : String) (disposition : Int) (from_frame : String)
  | FrameClose (wrapper : BrowserPtr) (frame : String)
  | NavigationState (wrapper : BrowserPtr) (frame : String)
      (entries : List WrapNavigationEntry) (can_go_back can_go_forward : Bool)
  | FindReply (wrapper : BrowserPtr) (frame : String) (request_id number_of_matches : Int)
      (selection_rect : Rect) (active_match_ordinal : Int) (final_update : Bool)
deriving DecidableEq, Repr

/-- Calls made on a surface that belongs to no frame of the registry. -/
inductive EngineCall where
  | LoadURL (source : WebContentsPtr) (url : String) (referrer : Referrer)
      (transition : Int) (extra_headers : String)
deriving DecidableEq, Repr

/-- One entry of the event trace. -/
inductive Event where
  | platform (c : PlatformCall)
  | post (m : Message)
  | engine (c : EngineCall)
deriving DecidableEq, Repr

/-- The task an event posts, if it is a post. -/
def Event.message? : Event → Option Message
  | Event.post m => some m
  | Event.platform _ => none
  | Event.engine _ => none

/-- The platform call an event makes, if it is one. -/
def Event.call? : Event → Option PlatformCall
  | Event.platform c => some c
  | Event.post _ => none
  | Event.engine _ => none

/-- The engine call an event makes, if it is one. -/
def Event.engineCall? : Event → Option EngineCall
  | Event.engine c => some c
  | Event.platform _ => none
  | Event.post _ => none

/-! ## `std::map` as a key-ordered association list -/

/-- The comparison `std::less<K>` a `std::map<K, V>` orders its keys by. -/
class Less (K : Type) where
  less : K → K → Bool

/-- The laws of a strict total order, which `std::map` requires of its
comparison. -/
class LawfulLess (K : Type) [Less K] : Prop where
  irrefl : ∀ a : K, Less.less a a = false
  trans : ∀ a b c : K, Less.less a b = true → Less.less b c = true → Less.less a c = true
  total : ∀ a b : K, Less.less a b = false → Less.less b a = false → a = b

/-- Enumerators compare by value. -/
instance : Less CONTROL_TYPE := ⟨fun a b => decide (a < b)⟩

/-- Lexicographic comparison of two character sequences, as done by
`std::string::compare`. -/
def lexLess : List Char → List Char → Bool
  | [], [] => false
  | [], _ :: _ => true
  | _ :: _, [] => false
  | a :: as, b :: bs =>
    if a.toNat < b.toNat then true
    else if b.toNat < a.toNat then false
    else lexLess as bs

/-- The comparison `std::less<std::string>`. -/
instance : Less String := ⟨fun a b => lexLess a.data b.data⟩

/-- A `std::map<K, V>`: its entries in iteration order. -/
abbrev StdMap (K V : Type) := List (K × V)

namespace StdMap

variable {K V : Type}

/-- The member `find`: the value of the entry with key `k`, if any. -/
def find [DecidableEq K] (k : K) : StdMap K V → Option V
  | [] => none
  | (k', v) :: m => if k' = k then some v else find k m

/-- The statement `m[k] = v`: the entry with key `k` is created at its place
in key order, or its value is overwritten. -/
def assign [Less K] (k : K) (v : V) : StdMap K V → StdMap K V
  | [] => [(k, v)]
  | (k', v') :: m =>
    if Less.less k k' then (k, v) :: (k', v') :: m
    else if Less.less k' k then (k', v') :: assign k v m
    else (k', v) :: m

/-- The member `erase` on the iterator returned by `find k`. -/
def erase [DecidableEq K] (k : K) : StdMap K V → StdMap K V
  | [] => []
  | (k', v) :: m => if k' = k then m else (k', v) :: erase k m

/-- The values held by the map, in iteration order. -/
def values (m : StdMap K V) : List V := m.map Prod.snd

/-- The keys of the map, in iteration order. -/
def keys (m : StdMap K V) : List K := m.map Prod.fst

/-- The representation invariant of `std::map`: keys strictly increasing. -/
def Ordered [Less K] (m : StdMap K V) : Prop :=
  (keys m).Pairwise fun a b => Less.less a b = true

end StdMap

/-! ## State -/

/-- The members of one `ExoBrowser` together with the objects it reaches:
the heap of frames, the function-local `static int pop_cnt` of
`AddNewContents`, the next address handed out by `new ExoFrame`, and the
trace of platform calls and posted tasks. -/
structure State where
  this_ : BrowserPtr
  controls_ : StdMap CONTROL_TYPE FramePtr
  pages_ : StdMap String FramePtr
  floating_ : Option FramePtr
  is_killed_ : Bool
  frames : FramePtr → ExoFrame
  pop_cnt : Int
  next_frame : FramePtr
  trace : List Event

namespace State

/-- Apply `g` to the frame object at address `f`. -/
def updFrame (s : State) (f : FramePtr) (g : ExoFrame → ExoFrame) : State :=
  { s with frames := Function.update s.frames f (g (s.frames f)) }

/-- The call `frame->SetType(t)`. -/
def SetType (s : State) (f : FramePtr) (t : FRAME_TYPE) : State :=
  s.updFrame f fun fr => { fr with type_ := t }

/-- The call `frame->SetParent(p)`. -/
def SetParent (s : State) (f : FramePtr) (p : Option BrowserPtr) : State :=
  s.updFrame f fun fr => { fr with parent_ := p }

/-- The call `frame->web_contents_->WasShown()`. -/
def WasShown (s : State) (f : FramePtr) : State :=
  s.updFrame f fun fr => { fr with web_contents_ := { fr.web_contents_ with shown := true } }

/-- The call `frame->web_contents_->WasHidden()`. -/
def WasHidden (s : State) (f : FramePtr) : State :=
  s.updFrame f fun fr => { fr with web_contents_ := { fr.web_contents_ with shown := false } }

/-- A call into the platform layer. -/
def platform (s : State) (c : PlatformCall) : State :=
  { s with trace := s.trace ++ [Event.platform c] }

/-- The call `NodeThread::Get()->PostTask(...)`. -/
def post (s : State) (m : Message) : State :=
  { s with trace := s.trace ++ [Event.post m] }

/-- The tasks posted to the node thread so far, oldest first. -/
def queue (s : State) : List Message := s.trace.filterMap Event.message?

/-- The platform calls made so far, oldest first. -/
def platformCalls (s : State) : List PlatformCall := s.trace.filterMap Event.call?

end State

open State

/-! ## The registry operations -/

/-- `ExoBrowser::UnsetControl` (lines 135-147). -/
def UnsetControl (s : State) (type : CONTROL_TYPE) : State :=
  match StdMap.find type s.controls_ with
  | some frame =>
    let s := s.platform (PlatformCall.UnsetControl type frame)
    let s := s.SetType frame FRAME_TYPE.NOTYPE_FRAME
    let s := s.SetParent frame none
    let s := s.WasHidden frame
    { s with controls_ := StdMap.erase type s.controls_ }
  | none => s

/-- `ExoBrowser::SetControl` (lines 119-133). `UnsetControl(type)` is called
when `controls_.find(type)` is `controls_.end()`, as in the source. -/
def SetControl (s : State) (type : CONTROL_TYPE) (frame : FramePtr) : State :=
  let s := if StdMap.find type s.controls_ = none then UnsetControl s type else s
  let s := { s with controls_ := StdMap.assign type frame s.controls_ }
  let s := s.SetType frame FRAME_TYPE.CONTROL_FRAME
  let s := s.SetParent frame (some s.this_)
  let s := s.WasShown frame
  s.platform (PlatformCall.SetControl type frame)

/-- `ExoBrowser::SetControlDimension` (lines 149-155). -/
def SetControlDimension (s : State) (type : CONTROL_TYPE) (size : Int) : State :=
  s.platform (PlatformCall.SetControlDimension type size)

/-- `ExoBrowser::HideFloating` (lines 175-185). -/
def HideFloating (s : State) : State :=
  let s := match s.floating_ with
    | some frame =>
      let s := s.SetType frame FRAME_TYPE.NOTYPE_FRAME
      let s := s.SetParent frame none
      let s := s.platform PlatformCall.HideFloating
      s.WasHidden frame
    | none => s
  { s with floating_ := none }

/-- `ExoBrowser::ShowFloating` (lines 157-173). -/
def ShowFloating (s : State) (frame : FramePtr) (x y width height : Int) : State :=
  let s := if s.floating_ ≠ none then HideFloating s else s
  let s := { s with floating_ := some frame }
  let s := s.SetType frame FRAME_TYPE.FLOATING_FRAME
  let s := s.SetParent frame (some s.this_)
  let s := s.platform (PlatformCall.ShowFloating frame x y width height)
  s.WasShown frame

/-- `ExoBrowser::AddPage` (lines 188-196). -/
def AddPage (s : State) (frame : FramePtr) : State :=
  let s := s.SetType frame FRAME_TYPE.PAGE_FRAME
  let s := s.SetParent frame (some s.this_)
  let s := { s with pages_ := StdMap.assign (s.frames frame).name frame s.pages_ }
  s.platform (PlatformCall.AddPage frame)

/-- `ExoBrowser::RemovePage` (lines 199-212). -/
def RemovePage (s : State) (name : String) : State :=
  match StdMap.find name s.pages_ with
  | some frame =>
    let s := s.platform (PlatformCall.RemovePage frame)
    let s := s.SetType frame FRAME_TYPE.NOTYPE_FRAME
    let s := s.SetParent frame none
    let s := s.WasHidden frame
    { s with pages_ := StdMap.erase name s.pages_ }
  | none => s

/-- The `for` loop of `ShowPage` (lines 227-232) over the entries `m` that
remain to be visited; `pages_` is not modified by the loop. -/
def ShowPage.hideOthers (page : Option FramePtr) : StdMap String FramePtr → State → State
  | [], s => s
  | (_, f) :: m, s =>
    let s := if page ≠ none ∧ some f ≠ page then s.WasHidden f else s
    hideOthers page m s

/-- `ExoBrowser::ShowPage` (lines 214-233). -/
def ShowPage (s : State) (name : String) : State :=
  let page := StdMap.find name s.pages_
  let s := match page with
    | some p => (s.platform (PlatformCall.ShowPage p)).WasShown p
    | none => s
  ShowPage.hideOthers page s.pages_ s

/-- `ExoBrowser::RemoveFrame` (lines 236-253): the first page, in map order,
whose frame is named `name` is removed through `RemovePage`; failing that the
first control, in role order, whose frame is named `name` is unset. -/
def RemoveFrame (s : State) (name : String) : State :=
  match s.pages_.find? fun e => (s.frames e.2).name = name with
  | some e => RemovePage s (s.frames e.2).name
  | none =>
    match s.controls_.find? fun e => (s.frames e.2).name = name with
    | some e => UnsetControl s e.1
    | none => s

/-- The loop `while(pages_.begin() != pages_.end())` of `Kill`
(lines 260-262); `none` when the fuel does not suffice. -/
def Kill.drainPages : Nat → State → Option State
  | fuel, s =>
    match s.pages_ with
    | [] => some s
    | (_, f) :: _ =>
      match fuel with
      | 0 => none
      | fuel + 1 => drainPages fuel (RemovePage s (s.frames f).name)

/-- The loop `while(controls_.begin() != controls_.end())` of `Kill`
(lines 263-265); `none` when the fuel does not suffice. -/
def Kill.drainControls : Nat → State → Option State
  | fuel, s =>
    match s.controls_ with
    | [] => some s
    | (t, _) :: _ =>
      match fuel with
      | 0 => none
      | fuel + 1 => drainControls fuel (UnsetControl s t)

/-- `ExoBrowser::Kill` (lines 256-271); each loop may run `fuel` iterations. -/
def Kill (fuel : Nat) (s : State) : Option State :=
  let s := { s with is_killed_ := true }
  match Kill.drainPages fuel s with
  | none => none
  | some s =>
    match Kill.drainControls fuel s with
    | none => none
    | some s =>
      let s := s.platform PlatformCall.Kill
      some (s.post (Message.Kill s.this_))

/-- `ExoBrowser::FrameForWebContents` (lines 98-115). -/
def FrameForWebContents (s : State) (web_contents : WebContentsPtr) : Option FramePtr :=
  match s.pages_.find? fun e => (s.frames e.2).web_contents_.addr = web_contents with
  | some e => some e.2
  | none =>
    match s.controls_.find? fun e => (s.frames e.2).web_contents_.addr = web_contents with
    | some e => some e.2
    | none => none

/-- The value of a 32-bit `int` after an arithmetic result `x`
(two's-complement wrap-around). -/
def wrapInt32 (x : Int) : Int := (x + 2 ^ 31) % 2 ^ 32 - 2 ^ 31

/-- The characters `oss << n` writes for an `int` `n`: a minus sign for a
negative value, then the decimal digits of the magnitude. -/
def decimal (n : Int) : String :=
  if n < 0 then "-" ++ Nat.repr n.natAbs else Nat.repr n.natAbs

/-- Modelled from the spec: the constructor `ExoFrame(name, web_contents)` is
defined in `exo_frame.cc`, which is not part of the sources. The new frame
wraps the surface with its "role not yet assigned — it is NONE/detached". -/
def ExoFrame.new (name : String) (web_contents : WebContents) : ExoFrame :=
  { name := name, type_ := FRAME_TYPE.NOTYPE_FRAME, parent_ := none,
    web_contents_ := web_contents }

/-- `ExoBrowser::AddNewContents` (lines 442-480). The argument `was_blocked`
is only logged and is left out; `DCHECK` is compiled out. `new ExoFrame`
returns the address `next_frame`. -/
def AddNewContents (s : State) (source : WebContentsPtr) (new_contents : WebContents)
    (disposition : Int) (initial_pos : Rect) (user_gesture : Bool) : State :=
  match FrameForWebContents s source with
  | some src_frame =>
    let _ := user_gesture
    let src_name := (s.frames src_frame).name
    let s := { s with pop_cnt := wrapInt32 (s.pop_cnt + 1) }
    let oss := src_name ++ "-" ++ decimal s.pop_cnt
    let new_frame := s.next_frame
    let s := { s with
      frames := Function.update s.frames new_frame (ExoFrame.new oss new_contents)
      next_frame := new_frame + 1 }
    s.post (Message.FrameCreated s.this_ src_name disposition initial_pos new_frame)
  | none => s

/-- The arguments of one `AddNewContents` call. -/
structure NewContentsCall where
  source : WebContentsPtr
  new_contents : WebContents
  disposition : Int
  initial_pos : Rect
  user_gesture : Bool
deriving DecidableEq, Repr

/-- One `AddNewContents` call with the arguments `c`. -/
def AddNewContents.call (s : State) (c : NewContentsCall) : State :=
  AddNewContents s c.source c.new_contents c.disposition c.initial_pos c.user_gesture

/-- What one `AddNewContents` call does when its source resolves to the frame
`f`: the counter is incremented, a detached frame named after `f` and the new
counter value is created around `new_contents` at the next address, and one
`FrameCreated` task is posted last. -/
def AddNewContents.Effect (s : State) (c : NewContentsCall) (f : FramePtr) : Prop :=
  (call s c).pop_cnt = s.pop_cnt + 1 ∧
  (call s c).frames s.next_frame =
    { name := (s.frames f).name ++ "-" ++ decimal (s.pop_cnt + 1),
      type_ := FRAME_TYPE.NOTYPE_FRAME, parent_ := none, web_contents_ := c.new_contents } ∧
  (call s c).trace = s.trace ++ [Event.post
    (Message.FrameCreated s.this_ (s.frames f).name c.disposition c.initial_pos s.next_frame)]

/-- The value of a sequence of decimal digits. -/
def digitsValue (a : Nat) (l : List Char) : Nat :=
  l.foldl (fun a c => 10 * a + (c.toNat - 48)) a

/-! ## The engine callbacks -/

/-- Modelled from the spec: the rendering engine, outside the sources, as far
as the callbacks read it: the navigation controller of each surface
(`web_contents->GetController()`). -/
structure Engine where
  controller : WebContentsPtr → NavigationController

/-- The first `switch` of `NavigationStateChanged` (lines 377-387). -/
def NavigationStateChanged.pageType : PageType → String
  | PageType.PAGE_TYPE_ERROR => "error"
  | PageType.PAGE_TYPE_INTERSTITIAL => "interstitial"
  | _ => "normal"

/-- The second `switch` of `NavigationStateChanged` (lines 388-400). -/
def NavigationStateChanged.securityType : SecurityStyle → String
  | SecurityStyle.SECURITY_STYLE_UNAUTHENTICATED => "unauthenticated"
  | SecurityStyle.SECURITY_STYLE_AUTHENTICATION_BROKEN => "broken"
  | SecurityStyle.SECURITY_STYLE_AUTHENTICATED => "authenticated"
  | _ => "unknown"

/-- The body of the `for` loop of `NavigationStateChanged` (lines 363-404):
the record pushed for the history entry `entry`. `visible_` compares the
address of the entry with `GetVisibleEntry()`; the timestamp is divided as
64-bit integers, rounding towards zero. -/
def NavigationStateChanged.record (controller : NavigationController)
    (entry : NavigationEntry) : WrapNavigationEntry :=
  { url_ := entry.url
    virtual_url_ := entry.virtual_url
    title_ := entry.title
    visible_ := decide (some entry.addr = controller.visible_entry)
    timestamp_ := Int.tdiv entry.timestamp 1000
    id_ := entry.unique_id
    type_ := NavigationStateChanged.pageType entry.page_type
    ssl_security_type_ := NavigationStateChanged.securityType entry.ssl.security_style
    ssl_cert_status_ := entry.ssl.cert_status
    ssl_content_status_ := entry.ssl.content_status }

/-- `ExoBrowser::NavigationStateChanged` (lines 350-415). The loop over
`i = 0 .. GetEntryCount() - 1` pushes one record per `GetEntryAtIndex(i)`,
which is the map over the history in order. -/
def NavigationStateChanged (engine : Engine) (s : State) (source : WebContentsPtr)
    (changed_flags : Nat) : State :=
  match FrameForWebContents s source with
  | none => s
  | some frame =>
    let _ := changed_flags
    let controller := engine.controller (s.frames frame).web_contents_.addr
    let entries := controller.entries.map (NavigationStateChanged.record controller)
    let can_go_back := controller.can_go_back
    let can_go_forward := controller.can_go_forward
    s.post (Message.NavigationState s.this_ (s.frames frame).name entries
      can_go_back can_go_forward)

/-- Calls made on a surface through the engine, recorded in the trace. -/
def State.engine (s : State) (c : EngineCall) : State :=
  { s with trace := s.trace ++ [Event.engine c] }

/-- `ExoBrowser::OpenURLFromTab` (lines 274-301); it always returns `NULL`. -/
def OpenURLFromTab (s : State) (source : WebContentsPtr) (params : OpenURLParams) : State :=
  match FrameForWebContents s source with
  | some frame =>
    s.post (Message.OpenURL s.this_ params.url params.disposition (s.frames frame).name)
  | none =>
    s.engine (EngineCall.LoadURL source params.url params.referrer params.transition "")

/-- `ExoBrowser::CloseContents` (lines 313-324). -/
def CloseContents (s : State) (source : WebContentsPtr) : State :=
  match FrameForWebContents s source with
  | some frame => s.post (Message.FrameClose s.this_ (s.frames frame).name)
  | none => s

/-- `ExoBrowser::FindReply` (lines 527-544). -/
def FindReply (s : State) (web_contents : WebContentsPtr)
    (request_id number_of_matches : Int) (selection_rect : Rect)
    (active_match_ordinal : Int) (final_update : Bool) : State :=
  match FrameForWebContents s web_contents with
  | none => s
  | some frame =>
    s.post (Message.FindReply s.this_ (s.frames frame).name request_id number_of_matches
      selection_rect active_match_ordinal final_update)

/-- The engine calls made so far on surfaces outside the registry, oldest
first. -/
def State.engineCalls (s : State) : List EngineCall := s.trace.filterMap Event.engineCall?

/-! ## The process: every live window -/

/-- The data members of one `ExoBrowser` that the registry operations use. -/
structure Members where
  controls_ : StdMap CONTROL_TYPE FramePtr
  pages_ : StdMap String FramePtr
  floating_ : Option FramePtr
  is_killed_ : Bool

/-- The process: the static vector `s_instances` of live windows, the members
of the window at each address, and what the windows share (the heap of
frames, the popup counter, the allocator, the trace). -/
structure World where
  s_instances : List BrowserPtr
  browsers : BrowserPtr → Members
  frames : FramePtr → ExoFrame
  pop_cnt : Int
  next_frame : FramePtr
  trace : List Event

/-- The state seen by a member function called on the window at `b`. -/
def World.window (w : World) (b : BrowserPtr) : State :=
  { this_ := b
    controls_ := (w.browsers b).controls_
    pages_ := (w.browsers b).pages_
    floating_ := (w.browsers b).floating_
    is_killed_ := (w.browsers b).is_killed_
    frames := w.frames
    pop_cnt := w.pop_cnt
    next_frame := w.next_frame
    trace := w.trace }

/-- The process after a member function called on a window returned in
state `s`. -/
def World.store (w : World) (s : State) : World :=
  { w with
    browsers := Function.update w.browsers s.this_
      { controls_ := s.controls_, pages_ := s.pages_, floating_ := s.floating_,
        is_killed_ := s.is_killed_ }
    frames := s.frames
    pop_cnt := s.pop_cnt
    next_frame := s.next_frame
    trace := s.trace }

/-- The tasks posted to the node thread so far, oldest first. -/
def World.queue (w : World) : List Message := w.trace.filterMap Event.message?

/-- The platform calls made so far, oldest first. -/
def World.platformCalls (w : World) : List PlatformCall := w.trace.filterMap Event.call?

/-- The `for` loop of `KillAll` (lines 91-93) over the windows of the copy
`open` that remain to be visited. -/
def KillAll.loop (fuel : Nat) : List BrowserPtr → World → Option World
  | [], w => some w
  | b :: rest, w =>
    match Kill fuel (w.window b) with
    | some s => loop fuel rest (w.store s)
    | none => none

/-- `ExoBrowser::KillAll` (lines 87-95): the loop runs over a copy of
`s_instances`. The closing `RunUntilIdle()` runs the tasks pending on the
message loop of the calling thread; those tasks are not part of the sources
and the model ends before it. -/
def KillAll (fuel : Nat) (w : World) : Option World :=
  let open_ := w.s_instances
  KillAll.loop fuel open_ w

/-- `Kill()` called `k` times in a row on one window. -/
def KillTimes (fuel : Nat) : Nat → State → Option State
  | 0, s => some s
  | k + 1, s =>
    match Kill fuel s with
    | some s' => KillTimes fuel k s'
    | none => none

/-! ## Runs of registry operations -/

/-- The public operations on the registry of a window. -/
inductive Op where
  | SetControl (type : CONTROL_TYPE) (frame : FramePtr)
  | UnsetControl (type : CONTROL_TYPE)
  | SetControlDimension (type : CONTROL_TYPE) (size : Int)
  | ShowFloating (frame : FramePtr) (x y width height : Int)
  | HideFloating
  | AddPage (frame : FramePtr)
  | RemovePage (name : String)
  | ShowPage (name : String)
  | RemoveFrame (name : String)
  | Kill
deriving DecidableEq, Repr

/-- Run one operation; only `Kill` uses the fuel. -/
def Op.run (fuel : Nat) : Op → State → Option State
  | Op.SetControl type frame, s => some (ExoBrowser.SetControl s type frame)
  | Op.UnsetControl type, s => some (ExoBrowser.UnsetControl s type)
  | Op.SetControlDimension type size, s => some (ExoBrowser.SetControlDimension s type size)
  | Op.ShowFloating frame x y width height, s => some (ExoBrowser.ShowFloating s frame x y width height)
  | Op.HideFloating, s => some (ExoBrowser.HideFloating s)
  | Op.AddPage frame, s => some (ExoBrowser.AddPage s frame)
  | Op.RemovePage name, s => some (ExoBrowser.RemovePage s name)
  | Op.ShowPage name, s => some (ExoBrowser.ShowPage s name)
  | Op.RemoveFrame name, s => some (ExoBrowser.RemoveFrame s name)
  | Op.Kill, s => ExoBrowser.Kill fuel s

/-- The states a window passes through, starting in `s0`, when every
operation `op` issued in a state `s` satisfies `P s op`. -/
inductive ReachableBy (P : State → Op → Prop) (s0 : State) : State → Prop where
  | init : ReachableBy P s0 s0
  | step {s s' : State} (op : Op) (fuel : Nat) :
      ReachableBy P s0 s → P s op → op.run fuel s = some s' → ReachableBy P s0 s'

/-- Modelled from the spec: a window as `CreateNew` returns it, "No Frames are
attached at creation". The constructor (lines 41-51) sets `is_killed_` and
leaves the containers empty; `floating_` is not in its initialiser list and
its declaration is in `exo_browser.h`, not part of the sources. -/
def Fresh (s : State) : Prop :=
  s.controls_ = [] ∧ s.pages_ = [] ∧ s.floating_ = none ∧ s.is_killed_ = false

/-- Every operation is allowed. -/
def anyOp : State → Op → Prop := fun _ _ => True

/-! ## Runs mixing registry operations and popups -/

/-- One step of a run: a registry operation, or an `AddNewContents` call made
by the engine. -/
inductive Action where
  | registry (op : Op)
  | popup (c : NewContentsCall)
deriving DecidableEq, Repr

/-- Run one action; only `Kill` uses the fuel. -/
def Action.run (fuel : Nat) : Action → State → Option State
  | Action.registry op, s => op.run fuel s
  | Action.popup c, s => some (AddNewContents.call s c)

/-- Run the actions in order; `none` when a `Kill` runs out of fuel. -/
def runActions (fuel : Nat) : List Action → State → Option State
  | [], s => some s
  | a :: as, s =>
    match a.run fuel s with
    | some s' => runActions fuel as s'
    | none => none

/-- The number of `AddNewContents` calls in a run. -/
def popupCount : List Action → Nat
  | [] => 0
  | Action.popup _ :: as => popupCount as + 1
  | Action.registry _ :: as => popupCount as

/-- The name of the frame an action creates, read from the heap `s'` right
after the action: the frame at the address `new ExoFrame` returned, when the
action is an `AddNewContents` call whose source resolves in `s`. -/
def Action.createdName (s s' : State) : Action → Option String
  | Action.popup c =>
    match FrameForWebContents s c.source with
    | some _ => some (s'.frames s.next_frame).name
    | none => none
  | Action.registry _ => none

/-- The `FrameCreated` task of an `AddNewContents` call whose source resolves
in `s`. -/
def Action.createdMessage (s : State) : Action → Option Message
  | Action.popup c =>
    match FrameForWebContents s c.source with
    | some f => some (Message.FrameCreated s.this_ (s.frames f).name c.disposition
        c.initial_pos s.next_frame)
    | none => none
  | Action.registry _ => none

/-- The names of the frames created during a run, in call order. -/
def createdNames (fuel : Nat) : List Action → State → List String
  | [], _ => []
  | a :: as, s =>
    match a.run fuel s with
    | some s' => (a.createdName s s').toList ++ createdNames fuel as s'
    | none => []

/-- The `FrameCreated` tasks of the resolving `AddNewContents` calls of a
run, in call order. -/
def createdMessages (fuel : Nat) : List Action → State → List Message
  | [], _ => []
  | a :: as, s =>
    match a.run fuel s with
    | some s' => (a.createdMessage s).toList ++ createdMessages fuel as s'
    | none => []

/-- Every `AddNewContents` call of the run whose source resolves has the
effect `AddNewContents.Effect`. -/
def EachCall (fuel : Nat) : List Action → State → Prop
  | [], _ => True
  | a :: as, s =>
    (match a with
      | Action.popup c => ∀ f, FrameForWebContents s c.source = some f →
          AddNewContents.Effect s c f
      | Action.registry _ => True) ∧
    (match a.run fuel s with
      | some s' => EachCall fuel as s'
      | none => True)

/-- Whether a task is a `FrameCreated` task. -/
def Message.isFrameCreated : Message → Bool
  | Message.FrameCreated _ _ _ _ _ => true
  | _ => false

/-- The `FrameCreated` tasks in the queue, oldest first. -/
def State.frameCreated (s : State) : List Message :=
  s.queue.filter Message.isFrameCreated

/-- A step that leaves the popup counter and the `FrameCreated` tasks of the
queue as they are. -/
def Quiet (s s' : State) : Prop :=
  s'.pop_cnt = s.pop_cnt ∧ s'.frameCreated = s.frameCreated

/-! ## Predicates on states -/

/-- The frame at `f` is bound to some role in `controls_`. -/
def IsControl (s : State) (f : FramePtr) : Prop := f ∈ StdMap.values s.controls_

/-- The frame at `f` is registered in `pages_`. -/
def IsPage (s : State) (f : FramePtr) : Prop := f ∈ StdMap.values s.pages_

/-- The frame at `f` is the floating frame. -/
def IsFloating (s : State) (f : FramePtr) : Prop := s.floating_ = some f

instance (s : State) (f : FramePtr) : Decidable (IsControl s f) := by
  unfold IsControl; infer_instance

instance (s : State) (f : FramePtr) : Decidable (IsPage s f) := by
  unfold IsPage; infer_instance

instance (s : State) (f : FramePtr) : Decidable (IsFloating s f) := by
  unfold IsFloating; infer_instance

/-- The number of containers among `controls_`, `pages_`, `floating_` the
frame at `f` appears in. -/
def containerCount (s : State) (f : FramePtr) : Nat :=
  (if IsControl s f then 1 else 0) + (if IsPage s f then 1 else 0)
    + (if IsFloating s f then 1 else 0)

/-- Role `NONE` and no parent. -/
def Detached (fr : ExoFrame) : Prop :=
  fr.type_ = FRAME_TYPE.NOTYPE_FRAME ∧ fr.parent_ = none

/-- What `UnsetControl`, `RemovePage` and `HideFloating` do to a frame:
`SetType(NOTYPE_FRAME)`, `SetParent(NULL)`, `WasHidden()`. -/
def ExoFrame.detach (fr : ExoFrame) : ExoFrame :=
  { fr with type_ := FRAME_TYPE.NOTYPE_FRAME, parent_ := none,
            web_contents_ := { fr.web_contents_ with shown := false } }

/-- What `SetControl` and `ShowFloating` do to the frame they install:
`SetType(t)`, `SetParent(this)`, `WasShown()`. -/
def ExoFrame.attach (t : FRAME_TYPE) (p : BrowserPtr) (fr : ExoFrame) : ExoFrame :=
  { fr with type_ := t, parent_ := some p,
            web_contents_ := { fr.web_contents_ with shown := true } }

/-- What `WasHidden()` does to the frame owning the surface. -/
def ExoFrame.hide (fr : ExoFrame) : ExoFrame :=
  { fr with web_contents_ := { fr.web_contents_ with shown := false } }

/-- The fields of the frames agree with membership in `controls_`: no role
occurs twice in the map, a frame has role `CONTROL_FRAME` and this window as
parent exactly when it is bound to a role, and every other frame is detached. -/
def ControlsConsistent (s : State) : Prop :=
  (StdMap.keys s.controls_).Nodup ∧
  ∀ f, (((s.frames f).type_ = FRAME_TYPE.CONTROL_FRAME ∧ (s.frames f).parent_ = some s.this_)
          ↔ IsControl s f) ∧
       (¬ IsControl s f → Detached (s.frames f))

/-- Only `SetControl` and `UnsetControl` are issued, and `SetControl(type, f)`
only while `type` is unoccupied and `f` is bound to no role. -/
def ctlAdmissible : State → Op → Prop
  | s, Op.SetControl type f => StdMap.find type s.controls_ = none ∧ ¬ IsControl s f
  | _, Op.UnsetControl _ => True
  | _, _ => False

/-- The operations that install a frame (`SetControl`, `ShowFloating`,
`AddPage`) are issued only for a frame that is in none of the containers. -/
def exclAdmissible : State → Op → Prop
  | s, Op.SetControl _ f => containerCount s f = 0
  | s, Op.ShowFloating f _ _ _ _ => containerCount s f = 0
  | s, Op.AddPage f => containerCount s f = 0
  | _, _ => True

/-- Only `AddPage` and `SetControl` are issued. -/
def buildOp : State → Op → Prop
  | _, Op.SetControl _ _ => True
  | _, Op.AddPage _ => True
  | _, _ => False

instance (s : State) : Decidable (Fresh s) := by
  unfold Fresh; infer_instance

instance (s : State) (op : Op) : Decidable (ctlAdmissible s op) := by
  cases op <;> simp only [ctlAdmissible] <;> infer_instance

instance (s : State) (op : Op) : Decidable (exclAdmissible s op) := by
  cases op <;> simp only [exclAdmissible] <;> infer_instance

instance (s : State) (op : Op) : Decidable (buildOp s op) := by
  cases op <;> simp only [buildOp] <;> infer_instance

/-- The invariant of the runs admitted by `ctlAdmissible`. -/
def CtlInv (s : State) : Prop :=
  StdMap.Ordered s.controls_ ∧ (StdMap.values s.controls_).Nodup ∧
  ∀ f, (IsControl s f →
          (s.frames f).type_ = FRAME_TYPE.CONTROL_FRAME ∧ (s.frames f).parent_ = some s.this_) ∧
       (¬ IsControl s f → Detached (s.frames f))

/-- No container of `s'` holds a frame the same container of `s` does not. -/
def Shrinks (s s' : State) : Prop :=
  ∀ g, (IsControl s' g → IsControl s g) ∧ (IsPage s' g → IsPage s g) ∧
    (IsFloating s' g → IsFloating s g)

/-- Every entry of `pages_` is keyed by the name of the frame it holds. -/
def PagesKeyed (s : State) : Prop :=
  ∀ e ∈ s.pages_, (s.frames e.2).name = e.1

/-- The representation invariant of the registry: both maps are ordered by
key and every page is keyed by the name of its frame. -/
def RegistryInv (s : State) : Prop :=
  StdMap.Ordered s.pages_ ∧ StdMap.Ordered s.controls_ ∧ PagesKeyed s

/-- The platform calls `Kill` makes while draining `pages_` and then
`controls_`, in order. -/
def drainEvents (s : State) : List Event :=
  (s.pages_.map fun e => Event.platform (PlatformCall.RemovePage e.2)) ++
  (s.controls_.map fun e => Event.platform (PlatformCall.UnsetControl e.1 e.2))

/-! ## Sample inputs -/

/-- A heap of detached, hidden frames: frame 1 is named "a", frame 2 "b",
frame 3 "p", every other frame "c"; the surface of frame `f` is at `f + 10`. -/
def sampleFrames : FramePtr → ExoFrame := fun f =>
  { name := if f = 1 then "a" else if f = 2 then "b" else if f = 3 then "p" else "c"
    type_ := FRAME_TYPE.NOTYPE_FRAME
    parent_ := none
    web_contents_ := { addr := f + 10, shown := false } }

/-- A window at address 7, as created, in a process that has opened no popup. -/
def sampleWindow : State :=
  { this_ := 7, controls_ := [], pages_ := [], floating_ := none, is_killed_ := false,
    frames := sampleFrames, pop_cnt := 0, next_frame := 100, trace := [] }

/-- Frame 3 (named "p", surface at address 13) is added as a page; a popup is
opened from its surface around a new surface at address 50; frame 1 is set as
control 0; a second popup is opened from the same surface around a new
surface at address 51. -/
def samplePopups : List Action :=
  [ Action.registry (Op.AddPage 3),
    Action.popup
      { source := 13, new_contents := { addr := 50, shown := false }, disposition := 3,
        initial_pos := { x := 0, y := 0, width := 640, height := 480 },
        user_gesture := true },
    Action.registry (Op.SetControl 0 1),
    Action.popup
      { source := 13, new_contents := { addr := 51, shown := false }, disposition := 4,
        initial_pos := { x := 10, y := 10, width := 320, height := 240 },
        user_gesture := false } ]

/-- A history of three entries at addresses 201, 202, 203: an error page, an
interstitial and a normal page. -/
def sampleHistory : List NavigationEntry :=
  [ { addr := 201, url := "chrome-error://x/", virtual_url := "http://x/", title := "failed",
      timestamp := 1000000, unique_id := 1, page_type := PageType.PAGE_TYPE_ERROR,
      ssl := { security_style := SecurityStyle.SECURITY_STYLE_UNKNOWN, cert_status := 0,
               content_status := 0 } },
    { addr := 202, url := "https://y/", virtual_url := "https://y/", title := "warning",
      timestamp := 2000999, unique_id := 2, page_type := PageType.PAGE_TYPE_INTERSTITIAL,
      ssl := { security_style := SecurityStyle.SECURITY_STYLE_AUTHENTICATION_BROKEN,
               cert_status := 4, content_status := 0 } },
    { addr := 203, url := "https://z/", virtual_url := "https://z/", title := "home",
      timestamp := 3000000, unique_id := 3, page_type := PageType.PAGE_TYPE_NORMAL,
      ssl := { security_style := SecurityStyle.SECURITY_STYLE_AUTHENTICATED,
               cert_status := 0, content_status := 0 } } ]

/-- An engine in which every surface has the history `sampleHistory`, with the
third entry as visible entry. -/
def sampleEngine : Engine :=
  { controller := fun _ =>
      { entries := sampleHistory, visible_entry := some 203, can_go_back := true,
        can_go_forward := false } }

/-- Parameters of a navigation request. -/
def sampleParams : OpenURLParams :=
  { url := "https://z/next", referrer := { url := "https://z/", policy := 0 },
    disposition := 3, transition := 0 }

/-- A process with two live windows, at addresses 7 and 8: window 7 holds the
pages "a" (frame 1) and "b" (frame 2), window 8 holds frame 3 as control 0. -/
def sampleWorld : World :=
  { s_instances := [7, 8]
    browsers := fun b =>
      if b = 7 then
        { controls_ := [], pages_ := [("a", 1), ("b", 2)], floating_ := none,
          is_killed_ := false }
      else if b = 8 then
        { controls_ := [(0, 3)], pages_ := [], floating_ := none, is_killed_ := false }
      else { controls_ := [], pages_ := [], floating_ := none, is_killed_ := false }
    frames := sampleFrames
    pop_cnt := 0
    next_frame := 100
    trace := [] }

/-! ## Laws of the key comparisons -/

instance : LawfulLess CONTROL_TYPE where
  irrefl a := by simp [Less.less]
  trans a b c := by
    simp only [Less.less, decide_eq_true_eq]
    intro h1 h2
    exact Nat.lt_trans h1 h2
  total a b := by
    simp only [Less.less, decide_eq_false_iff_not]
    intro h1 h2
    exact Nat.le_antisymm (Nat.le_of_not_lt h2) (Nat.le_of_not_lt h1)

theorem lexLess_irrefl (a : List Char) : lexLess a a = false := by
  induction a with
  | nil => rfl
  | cons c cs ih => simp [lexLess, ih]

theorem lexLess_trans (a b c : List Char) :
    lexLess a b = true → lexLess b c = true → lexLess a c = true := by
  induction a generalizing b c with
  | nil =>
    cases b <;> cases c <;> simp [lexLess]
  | cons x xs ih =>
    cases b with
    | nil => simp [lexLess]
    | cons y ys =>
      cases c with
      | nil => simp [lexLess]
      | cons z zs =>
        simp only [lexLess]
        intro h1 h2
        split_ifs at h1 h2 ⊢ <;> first | rfl | omega | exact ih _ _ h1 h2

theorem lexLess_total (a b : List Char) :
    lexLess a b = false → lexLess b a = false → a = b := by
  induction a generalizing b with
  | nil => cases b <;> simp [lexLess]
  | cons x xs ih =>
    cases b with
    | nil => simp [lexLess]
    | cons y ys =>
      simp only [lexLess]
      intro h1 h2
      split_ifs at h1 h2
      have hxy : x.toNat = y.toNat := by omega
      have : x = y := by
        apply Char.ext
        apply UInt32.ext
        exact hxy
      rw [this, ih _ h1 h2]

instance : LawfulLess String where
  irrefl a := lexLess_irrefl a.data
  trans a b c := lexLess_trans a.data b.data c.data
  total a b h1 h2 := String.ext (lexLess_total a.data b.data h1 h2)

/-! ## Facts about `StdMap` -/

namespace StdMap

variable {K V : Type}

@[simp] theorem find_nil [DecidableEq K] (k : K) : find k ([] : StdMap K V) = none := rfl

@[simp] theorem find_cons_self [DecidableEq K] (k : K) (v : V) (m : StdMap K V) :
    find k ((k, v) :: m) = some v := by
  simp [find]

theorem mem_of_find [DecidableEq K] {k : K} {v : V} {m : StdMap K V}
    (h : find k m = some v) : (k, v) ∈ m := by
  induction m with
  | nil => simp [find] at h
  | cons e m ih =>
    obtain ⟨k', v'⟩ := e
    simp only [find] at h
    split_ifs at h with hk
    · simp only [Option.some.injEq] at h
      subst hk; subst h
      exact List.mem_cons_self _ _
    · exact List.mem_cons_of_mem _ (ih h)

theorem find_eq_none_iff [DecidableEq K] {k : K} {m : StdMap K V} :
    find k m = none ↔ k ∉ keys m := by
  induction m with
  | nil => simp [find, keys]
  | cons e m ih =>
    obtain ⟨k', v'⟩ := e
    simp only [find, keys, List.map_cons, List.mem_cons, not_or]
    split_ifs with hk
    · subst hk; simp
    · simp only [keys] at ih
      rw [ih]
      constructor
      · intro h; exact ⟨fun h' => hk h'.symm, h⟩
      · intro h; exact h.2

theorem find_isSome_of_mem_keys [DecidableEq K] {k : K} {m : StdMap K V}
    (h : k ∈ keys m) : ∃ v, find k m = some v := by
  cases hf : find k m with
  | none => exact absurd h (find_eq_none_iff.mp hf)
  | some v => exact ⟨v, rfl⟩

theorem mem_keys_of_mem {e : K × V} {m : StdMap K V} (h : e ∈ m) : e.1 ∈ keys m :=
  List.mem_map_of_mem _ h

theorem mem_values_of_mem {e : K × V} {m : StdMap K V} (h : e ∈ m) : e.2 ∈ values m :=
  List.mem_map_of_mem _ h

theorem mem_values_of_find [DecidableEq K] {k : K} {v : V} {m : StdMap K V}
    (h : find k m = some v) : v ∈ values m :=
  mem_values_of_mem (mem_of_find h)

theorem mem_assign [Less K] [LawfulLess K] {k : K} {v : V} {m : StdMap K V} {e : K × V}
    (h : e ∈ assign k v m) : e = (k, v) ∨ e ∈ m := by
  induction m with
  | nil => simpa [assign] using h
  | cons e' m ih =>
    obtain ⟨k', v'⟩ := e'
    simp only [assign] at h
    split_ifs at h with h1 h2
    · simpa using h
    · rcases List.mem_cons.mp h with h | h
      · exact Or.inr (h ▸ List.mem_cons_self _ _)
      · rcases ih h with h | h
        · exact Or.inl h
        · exact Or.inr (List.mem_cons_of_mem _ h)
    · have hk : k = k' := LawfulLess.total k k' (by simpa using h1) (by simpa using h2)
      subst hk
      rcases List.mem_cons.mp h with h | h
      · exact Or.inl h
      · exact Or.inr (List.mem_cons_of_mem _ h)

theorem mem_values_assign [Less K] [LawfulLess K] {k : K} {v w : V} {m : StdMap K V}
    (h : w ∈ values (assign k v m)) : w = v ∨ w ∈ values m := by
  obtain ⟨e, he, rfl⟩ := List.mem_map.mp h
  rcases mem_assign he with h | h
  · exact Or.inl (by rw [h])
  · exact Or.inr (mem_values_of_mem h)

theorem mem_keys_assign [Less K] [LawfulLess K] {k j : K} {v : V} {m : StdMap K V}
    (h : j ∈ keys (assign k v m)) : j = k ∨ j ∈ keys m := by
  obtain ⟨e, he, rfl⟩ := List.mem_map.mp h
  rcases mem_assign he with h | h
  · exact Or.inl (by rw [h])
  · exact Or.inr (mem_keys_of_mem h)

theorem find_assign [DecidableEq K] [Less K] [LawfulLess K] (k j : K) (v : V)
    (m : StdMap K V) :
    find j (assign k v m) = if j = k then some v else find j m := by
  induction m with
  | nil =>
    by_cases h : j = k
    · simp [assign, find, h]
    · simp [assign, find, h, Ne.symm h]
  | cons e m ih =>
    obtain ⟨k', v'⟩ := e
    simp only [assign]
    by_cases h1 : Less.less k k' = true
    · rw [if_pos h1]
      by_cases hj : j = k
      · simp [find, hj]
      · simp [find, hj, Ne.symm hj]
    · rw [if_neg h1]
      by_cases h2 : Less.less k' k = true
      · rw [if_pos h2]
        by_cases hj : j = k
        · have hne : k' ≠ j := by
            intro h
            rw [hj] at h
            rw [h, LawfulLess.irrefl] at h2
            exact Bool.false_ne_true h2
          simp only [find, if_neg hne, ih, if_pos hj]
        · simp only [find, ih, if_neg hj]
      · rw [if_neg h2]
        have hk : k = k' := LawfulLess.total k k' (by simpa using h1) (by simpa using h2)
        by_cases hj : j = k
        · simp [find, hj, hk]
        · have hne : k' ≠ j := by rw [← hk]; exact Ne.symm hj
          simp only [find, if_neg hne, if_neg hj]

theorem erase_sublist [DecidableEq K] (k : K) (m : StdMap K V) :
    List.Sublist (erase k m) m := by
  induction m with
  | nil => exact List.Sublist.slnil
  | cons e m ih =>
    obtain ⟨k', v'⟩ := e
    simp only [erase]
    split_ifs
    · exact List.sublist_cons_self _ _
    · exact ih.cons₂ _

theorem mem_erase [DecidableEq K] {k : K} {m : StdMap K V} {e : K × V}
    (h : e ∈ erase k m) : e ∈ m :=
  (erase_sublist k m).subset h

theorem mem_values_erase [DecidableEq K] {k : K} {m : StdMap K V} {w : V}
    (h : w ∈ values (erase k m)) : w ∈ values m :=
  ((erase_sublist k m).map Prod.snd).subset h

theorem erase_of_find_none [DecidableEq K] {k : K} {m : StdMap K V}
    (h : find k m = none) : erase k m = m := by
  induction m with
  | nil => rfl
  | cons e m ih =>
    obtain ⟨k', v'⟩ := e
    simp only [find] at h
    split_ifs at h with hk
    simp [erase, hk, ih h]

theorem length_erase [DecidableEq K] {k : K} {v : V} {m : StdMap K V}
    (h : find k m = some v) : (erase k m).length + 1 = m.length := by
  induction m with
  | nil => simp [find] at h
  | cons e m ih =>
    obtain ⟨k', v'⟩ := e
    simp only [find] at h
    split_ifs at h with hk
    · simp [erase, hk]
    · simp [erase, hk, ih h]

/-! ### The ordering invariant -/

theorem ordered_nil [Less K] : Ordered ([] : StdMap K V) := List.Pairwise.nil

theorem Ordered.tail [Less K] {e : K × V} {m : StdMap K V} (h : Ordered (e :: m)) :
    Ordered m :=
  (List.pairwise_cons.mp h).2

theorem Ordered.head_lt [Less K] {e : K × V} {m : StdMap K V} (h : Ordered (e :: m)) :
    ∀ j ∈ keys m, Less.less e.1 j = true :=
  (List.pairwise_cons.mp h).1

theorem Ordered.nodup_keys [Less K] [LawfulLess K] {m : StdMap K V} (h : Ordered m) :
    (keys m).Nodup := by
  refine List.Pairwise.imp ?_ h
  intro a b hab heq
  subst heq
  rw [LawfulLess.irrefl] at hab
  exact Bool.false_ne_true hab

theorem ordered_assign [Less K] [LawfulLess K] (k : K) (v : V) {m : StdMap K V}
    (h : Ordered m) : Ordered (assign k v m) := by
  induction m with
  | nil => simp [assign, Ordered, keys]
  | cons e m ih =>
    obtain ⟨k', v'⟩ := e
    have hlt := h.head_lt
    have ht := h.tail
    simp only [assign]
    split_ifs with h1 h2
    · refine List.pairwise_cons.mpr ⟨?_, h⟩
      intro j hj
      rcases List.mem_cons.mp hj with hj | hj
      · rw [hj]; exact h1
      · exact LawfulLess.trans _ _ _ h1 (hlt j hj)
    · refine List.pairwise_cons.mpr ⟨?_, ih ht⟩
      intro j hj
      rcases mem_keys_assign hj with hj | hj
      · rw [hj]; exact h2
      · exact hlt j hj
    · exact h

theorem ordered_erase [DecidableEq K] [Less K] (k : K) {m : StdMap K V}
    (h : Ordered m) : Ordered (erase k m) :=
  List.Pairwise.sublist ((erase_sublist k m).map Prod.fst) h

theorem find_erase [DecidableEq K] [Less K] [LawfulLess K] (k j : K) {m : StdMap K V}
    (h : Ordered m) :
    find j (erase k m) = if j = k then none else find j m := by
  induction m with
  | nil => simp [erase, find]
  | cons e m ih =>
    obtain ⟨k', v'⟩ := e
    have hnd := List.nodup_cons.mp h.nodup_keys
    simp only [erase]
    by_cases h1 : k' = k
    · rw [if_pos h1]
      by_cases hj : j = k
      · rw [if_pos hj, hj, ← h1]
        exact find_eq_none_iff.mpr hnd.1
      · have hne : k' ≠ j := by rw [h1]; exact Ne.symm hj
        simp only [find, if_neg hne, if_neg hj]
    · rw [if_neg h1]
      by_cases hj : j = k
      · have hne : k' ≠ j := by rw [hj]; exact h1
        simp only [find, if_neg hne, ih h.tail, if_pos hj]
      · simp only [find, ih h.tail, if_neg hj]

/-- In an ordered map, the first entry whose value satisfies `p` has a key
below the key of every other entry whose value satisfies `p`. -/
theorem find?_lowest [Less K] {p : K × V → Bool} {m : StdMap K V} {e : K × V}
    (h : Ordered m) (hf : m.find? p = some e) :
    ∀ e' ∈ m, p e' = true → e' = e ∨ Less.less e.1 e'.1 = true := by
  induction m with
  | nil => simp at hf
  | cons a m ih =>
    intro e' he' hp
    rw [List.find?_cons] at hf
    cases hpa : p a with
    | true =>
      rw [hpa] at hf
      simp only [Option.some.injEq] at hf
      subst hf
      rcases List.mem_cons.mp he' with he' | he'
      · exact Or.inl he'
      · exact Or.inr (h.head_lt _ (mem_keys_of_mem he'))
    | false =>
      rw [hpa] at hf
      rcases List.mem_cons.mp he' with he' | he'
      · subst he'; rw [hpa] at hp; exact absurd hp Bool.false_ne_true
      · exact ih h.tail hf e' he' hp

theorem find_of_mem [DecidableEq K] [Less K] [LawfulLess K] {m : StdMap K V} {e : K × V}
    (h : Ordered m) (he : e ∈ m) : find e.1 m = some e.2 := by
  induction m with
  | nil => simp at he
  | cons a m ih =>
    obtain ⟨k', v'⟩ := a
    have hnd := List.nodup_cons.mp h.nodup_keys
    rcases List.mem_cons.mp he with he | he
    · subst he; simp
    · have hmem : e.1 ∈ keys m := mem_keys_of_mem he
      have : k' ≠ e.1 := by
        intro hk
        exact hnd.1 (by rw [hk]; exact hmem)
      simp [find, this, ih h.tail he]

end StdMap

/-! ## Closed forms of the operations -/

theorem update_detach (frames : FramePtr → ExoFrame) (f : FramePtr) :
    Function.update
      (Function.update
        (Function.update frames f { frames f with type_ := FRAME_TYPE.NOTYPE_FRAME })
        f { (Function.update frames f
              { frames f with type_ := FRAME_TYPE.NOTYPE_FRAME }) f with parent_ := none })
      f { (Function.update
            (Function.update frames f { frames f with type_ := FRAME_TYPE.NOTYPE_FRAME })
            f { (Function.update frames f
                  { frames f with type_ := FRAME_TYPE.NOTYPE_FRAME }) f with parent_ := none })
            f with
          web_contents_ :=
            { ((Function.update
                (Function.update frames f { frames f with type_ := FRAME_TYPE.NOTYPE_FRAME })
                f { (Function.update frames f
                      { frames f with type_ := FRAME_TYPE.NOTYPE_FRAME }) f with
                    parent_ := none }) f).web_contents_ with shown := false } }
    = Function.update frames f (frames f).detach := by
  funext q
  by_cases h : q = f
  · subst h; simp [ExoFrame.detach]
  · simp [Function.update_noteq h]

theorem UnsetControl_none {s : State} {type : CONTROL_TYPE}
    (h : StdMap.find type s.controls_ = none) : UnsetControl s type = s := by
  simp [UnsetControl, h]

theorem UnsetControl_some {s : State} {type : CONTROL_TYPE} {f : FramePtr}
    (h : StdMap.find type s.controls_ = some f) :
    UnsetControl s type =
      { s with
        controls_ := StdMap.erase type s.controls_
        frames := Function.update s.frames f (s.frames f).detach
        trace := s.trace ++ [Event.platform (PlatformCall.UnsetControl type f)] } := by
  simp only [UnsetControl, h, State.SetType, State.SetParent, State.WasHidden,
    State.updFrame, State.platform]
  rw [update_detach]

theorem RemovePage_none {s : State} {name : String}
    (h : StdMap.find name s.pages_ = none) : RemovePage s name = s := by
  simp [RemovePage, h]

theorem RemovePage_some {s : State} {name : String} {f : FramePtr}
    (h : StdMap.find name s.pages_ = some f) :
    RemovePage s name =
      { s with
        pages_ := StdMap.erase name s.pages_
        frames := Function.update s.frames f (s.frames f).detach
        trace := s.trace ++ [Event.platform (PlatformCall.RemovePage f)] } := by
  simp only [RemovePage, h, State.SetType, State.SetParent, State.WasHidden,
    State.updFrame, State.platform]
  rw [update_detach]

theorem HideFloating_none {s : State} (h : s.floating_ = none) : HideFloating s = s := by
  cases s
  simp only at h
  subst h
  rfl

theorem HideFloating_some {s : State} {f : FramePtr} (h : s.floating_ = some f) :
    HideFloating s =
      { s with
        floating_ := none
        frames := Function.update s.frames f (s.frames f).detach
        trace := s.trace ++ [Event.platform PlatformCall.HideFloating] } := by
  simp only [HideFloating, h, State.SetType, State.SetParent, State.WasHidden,
    State.updFrame, State.platform]
  rw [update_detach]

theorem SetControl_eq (s : State) (type : CONTROL_TYPE) (f : FramePtr) :
    SetControl s type f =
      { s with
        controls_ := StdMap.assign type f s.controls_
        frames := Function.update s.frames f
          ((s.frames f).attach FRAME_TYPE.CONTROL_FRAME s.this_)
        trace := s.trace ++ [Event.platform (PlatformCall.SetControl type f)] } := by
  have hu : (if StdMap.find type s.controls_ = none then UnsetControl s type else s) = s := by
    split_ifs with h
    · exact UnsetControl_none h
    · rfl
  simp only [SetControl, hu, State.SetType, State.SetParent, State.WasShown,
    State.updFrame, State.platform]
  congr 1
  funext q
  by_cases h : q = f
  · subst h; simp [ExoFrame.attach]
  · simp [Function.update_noteq h]

theorem AddPage_eq (s : State) (f : FramePtr) :
    AddPage s f =
      { s with
        pages_ := StdMap.assign (s.frames f).name f s.pages_
        frames := Function.update s.frames f
          { s.frames f with type_ := FRAME_TYPE.PAGE_FRAME, parent_ := some s.this_ }
        trace := s.trace ++ [Event.platform (PlatformCall.AddPage f)] } := by
  simp only [AddPage, State.SetType, State.SetParent, State.updFrame, State.platform]
  congr 1
  · simp
  · funext q
    by_cases h : q = f
    · subst h; simp
    · simp [Function.update_noteq h]

theorem ShowFloating_eq (s : State) (f : FramePtr) (x y w h : Int) :
    ShowFloating s f x y w h =
      { HideFloating s with
        floating_ := some f
        frames := Function.update (HideFloating s).frames f
          (((HideFloating s).frames f).attach FRAME_TYPE.FLOATING_FRAME s.this_)
        trace := (HideFloating s).trace ++
          [Event.platform (PlatformCall.ShowFloating f x y w h)] } := by
  have hu : (if s.floating_ ≠ none then HideFloating s else s) = HideFloating s := by
    split_ifs with hf
    · rfl
    · exact (HideFloating_none (not_not.mp hf)).symm
  have ht : (HideFloating s).this_ = s.this_ := by
    simp only [HideFloating]
    cases s.floating_ <;> rfl
  simp only [ShowFloating, hu, State.SetType, State.SetParent, State.WasShown,
    State.updFrame, State.platform, ht]
  congr 1
  funext q
  by_cases hq : q = f
  · subst hq; simp [ExoFrame.attach]
  · simp [Function.update_noteq hq]

theorem hideOthers_none (m : StdMap String FramePtr) (s : State) :
    ShowPage.hideOthers none m s = s := by
  induction m generalizing s with
  | nil => rfl
  | cons e m ih =>
    obtain ⟨k, f⟩ := e
    simp [ShowPage.hideOthers, ih]

theorem hideOthers_some (p : FramePtr) (m : StdMap String FramePtr) (s : State) :
    ShowPage.hideOthers (some p) m s =
      { s with frames := fun q =>
          if q ∈ StdMap.values m ∧ q ≠ p then (s.frames q).hide else s.frames q } := by
  induction m generalizing s with
  | nil => simp [ShowPage.hideOthers, StdMap.values]
  | cons e m ih =>
    obtain ⟨k, f⟩ := e
    simp only [ShowPage.hideOthers, ih]
    by_cases hf : f = p
    · subst hf
      simp only [ne_eq, reduceCtorEq, not_false_eq_true, not_true_eq_false, and_false,
        if_false, StdMap.values, List.map_cons, List.mem_cons]
      congr 1
      funext q
      by_cases hq : q = f
      · simp [hq]
      · by_cases hm : q ∈ List.map Prod.snd m
        · simp [hq, hm]
        · simp [hq, hm]
    · have hne : some f ≠ some p := fun h => hf (Option.some.inj h)
      simp only [ne_eq, reduceCtorEq, not_false_eq_true, hne, and_self, if_true,
        State.WasHidden, State.updFrame, StdMap.values, List.map_cons, List.mem_cons]
      congr 1
      funext q
      by_cases hq : q = f
      · subst hq
        by_cases hm : q ∈ List.map Prod.snd m
        · simp [hm, hf, ExoFrame.hide]
        · simp [hm, hf, ExoFrame.hide]
      · rw [Function.update_noteq hq]
        by_cases hm : q ∈ List.map Prod.snd m
        · simp [hq, hm]
        · simp [hq, hm]

theorem ShowPage_none {s : State} {name : String}
    (h : StdMap.find name s.pages_ = none) : ShowPage s name = s := by
  simp only [ShowPage, h]
  exact hideOthers_none _ _

theorem ShowPage_some {s : State} {name : String} {p : FramePtr}
    (h : StdMap.find name s.pages_ = some p) :
    ShowPage s name =
      { s with
        frames := fun q =>
          if q = p then { s.frames p with
            web_contents_ := { (s.frames p).web_contents_ with shown := true } }
          else if q ∈ StdMap.values s.pages_ then (s.frames q).hide else s.frames q
        trace := s.trace ++ [Event.platform (PlatformCall.ShowPage p)] } := by
  simp only [ShowPage, h, hideOthers_some, State.WasShown, State.updFrame, State.platform]
  congr 1
  funext q
  by_cases hq : q = p
  · subst hq; simp
  · simp [hq, Function.update_noteq hq]

/-! ## C1: `SetControl` on an occupied role -/

/-- C1 (the code departs from the claim): with role 0 bound to frame 1,
`SetControl(0, frame 2)` does not unset frame 1. Frame 1 keeps role
`CONTROL_FRAME`, keeps the window as parent, stays shown, and no platform
`UnsetControl` is issued for it; only the map entry is overwritten. -/
theorem SetControl_occupied_leaves_old_bound :
    StdMap.find 0 (SetControl sampleWindow 0 1).controls_ = some 1 ∧
    StdMap.find 0 (SetControl (SetControl sampleWindow 0 1) 0 2).controls_ = some 2 ∧
    ((SetControl (SetControl sampleWindow 0 1) 0 2).frames 1).type_
      = FRAME_TYPE.CONTROL_FRAME ∧
    ((SetControl (SetControl sampleWindow 0 1) 0 2).frames 1).parent_ = some 7 ∧
    ((SetControl (SetControl sampleWindow 0 1) 0 2).frames 1).web_contents_.shown = true ∧
    (SetControl (SetControl sampleWindow 0 1) 0 2).platformCalls
      = [PlatformCall.SetControl 0 1, PlatformCall.SetControl 0 2] := by
  decide

/-! ## C4: `ShowFloating` twice -/

/-- C4: for distinct frames `f1`, `f2`, `ShowFloating(f1, ..)` followed by
`ShowFloating(f2, ..)` leaves `f1` with role `NOTYPE_FRAME`, no parent and a
hidden surface, and leaves the floating slot holding `f2` with role
`FLOATING_FRAME`, the window as parent and a shown surface; the second call
issues the platform calls `HideFloating` then `ShowFloating(f2, ..)`. -/
theorem ShowFloating_twice (s : State) (f1 f2 : FramePtr)
    (x1 y1 w1 h1 x2 y2 w2 h2 : Int) (hne : f1 ≠ f2) :
    let s1 := ShowFloating s f1 x1 y1 w1 h1
    let s2 := ShowFloating s1 f2 x2 y2 w2 h2
    (s2.frames f1).type_ = FRAME_TYPE.NOTYPE_FRAME ∧
    (s2.frames f1).parent_ = none ∧
    (s2.frames f1).web_contents_.shown = false ∧
    s2.floating_ = some f2 ∧
    (s2.frames f2).type_ = FRAME_TYPE.FLOATING_FRAME ∧
    (s2.frames f2).parent_ = some s.this_ ∧
    (s2.frames f2).web_contents_.shown = true ∧
    s2.trace = s1.trace ++ [Event.platform PlatformCall.HideFloating,
      Event.platform (PlatformCall.ShowFloating f2 x2 y2 w2 h2)] := by
  intro s1 s2
  have hf1 : s1.floating_ = some f1 := by
    simp only [s1, ShowFloating_eq]
  have ht1 : s1.this_ = s.this_ := by
    simp only [s1, ShowFloating_eq, HideFloating]
    cases s.floating_ <;> rfl
  have h2 : s2 = { HideFloating s1 with
        floating_ := some f2
        frames := Function.update (HideFloating s1).frames f2
          (((HideFloating s1).frames f2).attach FRAME_TYPE.FLOATING_FRAME s1.this_)
        trace := (HideFloating s1).trace ++
          [Event.platform (PlatformCall.ShowFloating f2 x2 y2 w2 h2)] } :=
    ShowFloating_eq s1 f2 x2 y2 w2 h2
  rw [h2, HideFloating_some hf1, ht1]
  simp [Function.update_noteq hne, ExoFrame.detach, ExoFrame.attach]

/-- C4 at a concrete input: frames 1 and 2 on the sample window. -/
theorem ShowFloating_twice_witness :
    (1 : FramePtr) ≠ 2 ∧
    ((ShowFloating (ShowFloating sampleWindow 1 0 0 10 10) 2 5 5 20 20).frames 1).type_
      = FRAME_TYPE.NOTYPE_FRAME ∧
    (ShowFloating (ShowFloating sampleWindow 1 0 0 10 10) 2 5 5 20 20).floating_ = some 2 :=
  have h := ShowFloating_twice sampleWindow 1 2 0 0 10 10 5 5 20 20 (by decide)
  ⟨by decide, h.1, h.2.2.2.1⟩

/-! ## C5, C6: `ShowPage` -/

/-- C5: when `name` resolves to the registered page `p`, `ShowPage(name)`
tells the platform to show `p`, leaves the surface of `p` shown and the
surface of every other registered page hidden, so that among the registered
pages exactly `p` is visible; the registry itself is unchanged. -/
theorem ShowPage_resolved (s : State) (name : String) (p : FramePtr)
    (h : StdMap.find name s.pages_ = some p) :
    let s' := ShowPage s name
    s'.trace = s.trace ++ [Event.platform (PlatformCall.ShowPage p)] ∧
    (s'.frames p).web_contents_.shown = true ∧
    (∀ q, IsPage s q → q ≠ p → (s'.frames q).web_contents_.shown = false) ∧
    (∀ q, IsPage s' q → ((s'.frames q).web_contents_.shown = true ↔ q = p)) ∧
    IsPage s' p ∧
    s'.pages_ = s.pages_ := by
  intro s'
  have hs : s' = _ := ShowPage_some h
  have hp : IsPage s p := StdMap.mem_values_of_find h
  have hq : ∀ q, IsPage s q → q ≠ p → (s'.frames q).web_contents_.shown = false := by
    intro q hq hne
    unfold IsPage at hq
    rw [hs]
    simp [hne, hq, ExoFrame.hide]
  have hpp : (s'.frames p).web_contents_.shown = true := by
    rw [hs]; simp
  have hpages : s'.pages_ = s.pages_ := by rw [hs]
  refine ⟨by rw [hs], hpp, hq, ?_, ?_, hpages⟩
  · intro q hq'
    have hq'' : IsPage s q := by unfold IsPage at hq' ⊢; rw [← hpages]; exact hq'
    constructor
    · intro hshown
      by_contra hne
      rw [hq q hq'' hne] at hshown
      exact Bool.false_ne_true hshown
    · intro he; rw [he]; exact hpp
  · unfold IsPage; rw [hpages]; exact hp

/-- C5 at a concrete input: `AddPage(a)`, `AddPage(b)`, `ShowPage("a")` leaves
page "a" (frame 1) shown and page "b" (frame 2) hidden. -/
theorem ShowPage_resolved_witness :
    StdMap.find "a" (AddPage (AddPage sampleWindow 1) 2).pages_ = some 1 ∧
    ((ShowPage (AddPage (AddPage sampleWindow 1) 2) "a").frames 1).web_contents_.shown
      = true ∧
    ((ShowPage (AddPage (AddPage sampleWindow 1) 2) "a").frames 2).web_contents_.shown
      = false :=
  have h := ShowPage_resolved (AddPage (AddPage sampleWindow 1) 2) "a" 1 (by decide)
  ⟨by decide, h.2.1, h.2.2.1 2 (by decide) (by decide)⟩

/-- C6 (the claim as stated fails): after `AddPage(a)`, `AddPage(b)`,
`ShowPage("a")`, the name "nonexistent" resolves to no page and
`ShowPage("nonexistent")` leaves page "a" (frame 1) shown. -/
theorem ShowPage_miss_keeps_visible_page :
    StdMap.find "nonexistent" (ShowPage (AddPage (AddPage sampleWindow 1) 2) "a").pages_
      = none ∧
    IsPage (ShowPage (ShowPage (AddPage (AddPage sampleWindow 1) 2) "a") "nonexistent") 1 ∧
    ((ShowPage (ShowPage (AddPage (AddPage sampleWindow 1) 2) "a") "nonexistent").frames
      1).web_contents_.shown = true := by
  decide

/-- C6 (amended): when `name` resolves to no registered page, `ShowPage(name)`
changes nothing: no surface is shown or hidden, no platform call is made and
the registry is as before. The loop hides a page only if `page != NULL`. -/
theorem ShowPage_miss_is_noop (s : State) (name : String)
    (h : StdMap.find name s.pages_ = none) : ShowPage s name = s :=
  ShowPage_none h

/-- C6 (amended) at a concrete input: after `AddPage(a)`, `AddPage(b)`,
`ShowPage("a")`, the call `ShowPage("nonexistent")` changes nothing. -/
theorem ShowPage_miss_is_noop_witness :
    StdMap.find "nonexistent" (ShowPage (AddPage (AddPage sampleWindow 1) 2) "a").pages_
      = none ∧
    ShowPage (ShowPage (AddPage (AddPage sampleWindow 1) 2) "a") "nonexistent"
      = ShowPage (AddPage (AddPage sampleWindow 1) 2) "a" :=
  ⟨by decide, ShowPage_miss_is_noop _ "nonexistent" (by decide)⟩

namespace StdMap

variable {K V : Type}

theorem assign_perm [DecidableEq K] [Less K] [LawfulLess K] {k : K} (v : V)
    {m : StdMap K V} (h : find k m = none) : List.Perm (assign k v m) ((k, v) :: m) := by
  induction m with
  | nil => exact List.Perm.refl _
  | cons e m ih =>
    obtain ⟨k', v'⟩ := e
    simp only [find] at h
    split_ifs at h with hk
    simp only [assign]
    split_ifs with h1 h2
    · exact List.Perm.refl _
    · exact ((ih h).cons (k', v')).trans (List.Perm.swap _ _ _)
    · exact absurd (LawfulLess.total k k' (by simpa using h1) (by simpa using h2)).symm hk

theorem erase_perm [DecidableEq K] {k : K} {v : V} {m : StdMap K V}
    (h : find k m = some v) : List.Perm m ((k, v) :: erase k m) := by
  induction m with
  | nil => simp [find] at h
  | cons e m ih =>
    obtain ⟨k', v'⟩ := e
    simp only [find] at h
    simp only [erase]
    split_ifs at h ⊢ with hk
    · simp only [Option.some.injEq] at h
      subst hk; subst h
      exact List.Perm.refl _
    · exact ((ih h).cons (k', v')).trans (List.Perm.swap _ _ _)

theorem mem_values_assign_iff [DecidableEq K] [Less K] [LawfulLess K] {k : K} {v w : V}
    {m : StdMap K V} (h : find k m = none) :
    w ∈ values (assign k v m) ↔ w = v ∨ w ∈ values m := by
  have hp := (assign_perm v h).map Prod.snd
  simp only [values]
  rw [hp.mem_iff]
  simp

theorem nodup_values_assign [DecidableEq K] [Less K] [LawfulLess K] {k : K} {v : V}
    {m : StdMap K V} (h : find k m = none) (hv : v ∉ values m) (hn : (values m).Nodup) :
    (values (assign k v m)).Nodup := by
  have hp := (assign_perm v h).map Prod.snd
  simp only [values]
  rw [hp.nodup_iff]
  exact List.nodup_cons.mpr ⟨hv, hn⟩

theorem mem_values_iff_of_find [DecidableEq K] {k : K} {v w : V} {m : StdMap K V}
    (h : find k m = some v) : w ∈ values m ↔ w = v ∨ w ∈ values (erase k m) := by
  have hp := (erase_perm h).map Prod.snd
  simp only [values]
  rw [hp.mem_iff]
  simp

theorem nodup_values_erase [DecidableEq K] {k : K} {v : V} {m : StdMap K V}
    (h : find k m = some v) (hn : (values m).Nodup) :
    v ∉ values (erase k m) ∧ (values (erase k m)).Nodup := by
  have hp := (erase_perm h).map Prod.snd
  simp only [values] at hn ⊢
  rw [hp.nodup_iff] at hn
  exact List.nodup_cons.mp hn

end StdMap

/-! ## C2: runs of `SetControl` / `UnsetControl` -/

theorem CtlInv.consistent {s : State} (h : CtlInv s) : ControlsConsistent s := by
  refine ⟨h.1.nodup_keys, fun f => ⟨⟨?_, (h.2.2 f).1⟩, (h.2.2 f).2⟩⟩
  intro hc
  by_contra hn
  have hd := (h.2.2 f).2 hn
  rw [hd.1] at hc
  exact absurd hc.1 (by decide)

theorem CtlInv_init {s0 : State} (h0 : Fresh s0) (hd : ∀ f, Detached (s0.frames f)) :
    CtlInv s0 := by
  have hc : s0.controls_ = [] := h0.1
  refine ⟨?_, ?_, fun f => ⟨?_, fun _ => hd f⟩⟩
  · rw [hc]; exact StdMap.ordered_nil
  · rw [hc]; exact List.nodup_nil
  · intro hf
    unfold IsControl at hf
    rw [hc] at hf
    simp [StdMap.values] at hf

theorem CtlInv_SetControl {s : State} {type : CONTROL_TYPE} {f : FramePtr}
    (h : CtlInv s) (hfree : StdMap.find type s.controls_ = none) (hf : ¬ IsControl s f) :
    CtlInv (SetControl s type f) := by
  obtain ⟨ho, hn, hc⟩ := h
  rw [SetControl_eq]
  refine ⟨StdMap.ordered_assign _ _ ho, StdMap.nodup_values_assign hfree hf hn, ?_⟩
  intro g
  simp only [IsControl, StdMap.mem_values_assign_iff hfree]
  by_cases hg : g = f
  · subst hg
    simp [ExoFrame.attach]
  · simp only [hg, false_or, Function.update_noteq hg]
    exact hc g

theorem CtlInv_UnsetControl {s : State} {type : CONTROL_TYPE} (h : CtlInv s) :
    CtlInv (UnsetControl s type) := by
  cases hfind : StdMap.find type s.controls_ with
  | none => rw [UnsetControl_none hfind]; exact h
  | some f =>
    obtain ⟨ho, hn, hc⟩ := h
    rw [UnsetControl_some hfind]
    have hne := StdMap.nodup_values_erase hfind hn
    refine ⟨StdMap.ordered_erase _ ho, hne.2, ?_⟩
    intro g
    simp only [IsControl]
    by_cases hg : g = f
    · subst hg
      simp [hne.1, ExoFrame.detach, Detached]
    · simp only [Function.update_noteq hg]
      have hiff : g ∈ StdMap.values s.controls_ ↔
          g ∈ StdMap.values (StdMap.erase type s.controls_) := by
        rw [StdMap.mem_values_iff_of_find hfind]
        simp [hg]
      rw [← hiff]
      exact hc g

/-- C2 (the claim as stated fails), at two runs on the fresh sample window
whose frames are all detached. Binding frame 1 to roles 0 and 1 and unsetting
role 0 leaves frame 1 bound to role 1 with role `NOTYPE_FRAME`; rebinding role
0 from frame 1 to frame 2 leaves frame 1 with role `CONTROL_FRAME` although it
is bound to no role. -/
theorem ControlsConsistent_fails :
    Fresh sampleWindow ∧ (∀ f, Detached (sampleWindow.frames f)) ∧
    ¬ ControlsConsistent (UnsetControl (SetControl (SetControl sampleWindow 0 1) 1 1) 0) ∧
    ¬ ControlsConsistent (SetControl (SetControl sampleWindow 0 1) 0 2) := by
  refine ⟨by decide, fun f => ⟨rfl, rfl⟩, ?_, ?_⟩
  · intro h
    have h1 := (h.2 1).1.mpr (by decide)
    revert h1
    decide
  · intro h
    have h1 := (h.2 1).1.mp (by decide)
    revert h1
    decide

/-- C2 (amended): on a fresh window whose frames are all detached, after every
call of a run of `SetControl` / `UnsetControl` in which each `SetControl(type,
f)` is issued while `type` is unoccupied and `f` is bound to no role, no role
occurs twice in `controls_`, a frame has role `CONTROL_FRAME` and the window
as parent exactly when it is bound to a role, and every other frame has role
`NOTYPE_FRAME` and no parent. -/
theorem ControlsConsistent_of_admissible_run (s0 s : State) (h0 : Fresh s0)
    (hd : ∀ f, Detached (s0.frames f)) (hr : ReachableBy ctlAdmissible s0 s) :
    ControlsConsistent s := by
  apply CtlInv.consistent
  induction hr with
  | init => exact CtlInv_init h0 hd
  | step op fuel _ hp hrun ih =>
    cases op <;> simp only [ctlAdmissible] at hp
    · simp only [Op.run, Option.some.injEq] at hrun
      subst hrun
      exact CtlInv_SetControl ih hp.1 hp.2
    · simp only [Op.run, Option.some.injEq] at hrun
      subst hrun
      exact CtlInv_UnsetControl ih

/-- C2 (amended) at a concrete run: `SetControl(0, 1)`, `SetControl(1, 2)`,
`UnsetControl(0)` on the sample window. -/
theorem ControlsConsistent_of_admissible_run_witness :
    Fresh sampleWindow ∧ (∀ f, Detached (sampleWindow.frames f)) ∧
    ReachableBy ctlAdmissible sampleWindow
      (UnsetControl (SetControl (SetControl sampleWindow 0 1) 1 2) 0) ∧
    ControlsConsistent (UnsetControl (SetControl (SetControl sampleWindow 0 1) 1 2) 0) :=
  have hr : ReachableBy ctlAdmissible sampleWindow
      (UnsetControl (SetControl (SetControl sampleWindow 0 1) 1 2) 0) :=
    ReachableBy.step (Op.UnsetControl 0) 0
      (ReachableBy.step (Op.SetControl 1 2) 0
        (ReachableBy.step (Op.SetControl 0 1) 0 ReachableBy.init (by decide) rfl)
        (by decide) rfl)
      trivial rfl
  ⟨by decide, fun _ => ⟨rfl, rfl⟩, hr,
    ControlsConsistent_of_admissible_run sampleWindow _ (by decide)
      (fun _ => ⟨rfl, rfl⟩) hr⟩

/-! ## Effect of the operations on the containers -/

theorem Shrinks.same (s : State) : Shrinks s s := fun _ => ⟨id, id, id⟩

theorem Shrinks.then {s s' s'' : State} (h1 : Shrinks s s') (h2 : Shrinks s' s'') :
    Shrinks s s'' :=
  fun g => ⟨fun h => (h1 g).1 ((h2 g).1 h), fun h => (h1 g).2.1 ((h2 g).2.1 h),
    fun h => (h1 g).2.2 ((h2 g).2.2 h)⟩

theorem Shrinks.of_fields {s s' : State}
    (hc : ∀ g, g ∈ StdMap.values s'.controls_ → g ∈ StdMap.values s.controls_)
    (hp : ∀ g, g ∈ StdMap.values s'.pages_ → g ∈ StdMap.values s.pages_)
    (hf : s'.floating_ = s.floating_ ∨ s'.floating_ = none) : Shrinks s s' := by
  intro g
  refine ⟨hc g, hp g, ?_⟩
  unfold IsFloating
  rcases hf with hf | hf
  · rw [hf]; exact id
  · rw [hf]; intro h; cases h

theorem UnsetControl_shrinks (s : State) (type : CONTROL_TYPE) :
    Shrinks s (UnsetControl s type) := by
  cases hfind : StdMap.find type s.controls_ with
  | none => rw [UnsetControl_none hfind]; exact Shrinks.same s
  | some f =>
    rw [UnsetControl_some hfind]
    exact Shrinks.of_fields (fun g hg => StdMap.mem_values_erase hg) (fun g hg => hg)
      (Or.inl rfl)

theorem RemovePage_shrinks (s : State) (name : String) :
    Shrinks s (RemovePage s name) := by
  cases hfind : StdMap.find name s.pages_ with
  | none => rw [RemovePage_none hfind]; exact Shrinks.same s
  | some f =>
    rw [RemovePage_some hfind]
    exact Shrinks.of_fields (fun g hg => hg) (fun g hg => StdMap.mem_values_erase hg)
      (Or.inl rfl)

theorem HideFloating_shrinks (s : State) : Shrinks s (HideFloating s) := by
  cases hf : s.floating_ with
  | none => rw [HideFloating_none hf]; exact Shrinks.same s
  | some f =>
    rw [HideFloating_some hf]
    exact Shrinks.of_fields (fun g hg => hg) (fun g hg => hg) (Or.inr rfl)

theorem ShowPage_shrinks (s : State) (name : String) : Shrinks s (ShowPage s name) := by
  cases hfind : StdMap.find name s.pages_ with
  | none => rw [ShowPage_none hfind]; exact Shrinks.same s
  | some p =>
    rw [ShowPage_some hfind]
    exact Shrinks.of_fields (fun g hg => hg) (fun g hg => hg) (Or.inl rfl)

theorem RemoveFrame_cases (s : State) (name : String) :
    (∃ n, RemoveFrame s name = RemovePage s n) ∨
    (∃ t, RemoveFrame s name = UnsetControl s t) ∨ RemoveFrame s name = s := by
  unfold RemoveFrame
  cases s.pages_.find? fun e => (s.frames e.2).name = name with
  | some e => exact Or.inl ⟨_, rfl⟩
  | none =>
    cases s.controls_.find? fun e => (s.frames e.2).name = name with
    | some e => exact Or.inr (Or.inl ⟨_, rfl⟩)
    | none => exact Or.inr (Or.inr rfl)

theorem RemoveFrame_shrinks (s : State) (name : String) :
    Shrinks s (RemoveFrame s name) := by
  rcases RemoveFrame_cases s name with ⟨n, h⟩ | ⟨t, h⟩ | h <;> rw [h]
  · exact RemovePage_shrinks s n
  · exact UnsetControl_shrinks s t
  · exact Shrinks.same s

theorem drainPages_shrinks {fuel : Nat} {s s' : State}
    (h : Kill.drainPages fuel s = some s') : Shrinks s s' := by
  induction fuel generalizing s with
  | zero =>
    unfold Kill.drainPages at h
    cases hp : s.pages_ with
    | nil => simp only [hp, Option.some.injEq] at h; subst h; exact Shrinks.same s
    | cons e m => simp [hp] at h
  | succ n ih =>
    unfold Kill.drainPages at h
    cases hp : s.pages_ with
    | nil => simp only [hp, Option.some.injEq] at h; subst h; exact Shrinks.same s
    | cons e m =>
      simp only [hp] at h
      exact (RemovePage_shrinks s _).then (ih h)

theorem drainControls_shrinks {fuel : Nat} {s s' : State}
    (h : Kill.drainControls fuel s = some s') : Shrinks s s' := by
  induction fuel generalizing s with
  | zero =>
    unfold Kill.drainControls at h
    cases hp : s.controls_ with
    | nil => simp only [hp, Option.some.injEq] at h; subst h; exact Shrinks.same s
    | cons e m => simp [hp] at h
  | succ n ih =>
    unfold Kill.drainControls at h
    cases hp : s.controls_ with
    | nil => simp only [hp, Option.some.injEq] at h; subst h; exact Shrinks.same s
    | cons e m =>
      simp only [hp] at h
      exact (UnsetControl_shrinks s _).then (ih h)

theorem Kill_shrinks {fuel : Nat} {s s' : State} (h : Kill fuel s = some s') :
    Shrinks s s' := by
  unfold Kill at h
  simp only at h
  cases h1 : Kill.drainPages fuel { s with is_killed_ := true } with
  | none => simp [h1] at h
  | some s1 =>
    cases h2 : Kill.drainControls fuel s1 with
    | none => simp [h1, h2] at h
    | some s2 =>
      simp only [h1, h2, Option.some.injEq] at h
      subst h
      have hk : Shrinks s { s with is_killed_ := true } := fun g => ⟨id, id, id⟩
      have hl : Shrinks s2 ((s2.platform PlatformCall.Kill).post
          (Message.Kill (s2.platform PlatformCall.Kill).this_)) := fun g => ⟨id, id, id⟩
      exact ((hk.then (drainPages_shrinks h1)).then (drainControls_shrinks h2)).then hl

/-! ## C3: a frame in at most one container -/

theorem containerCount_le_of_imp {s s' : State} {g : FramePtr}
    (hc : IsControl s' g → IsControl s g) (hp : IsPage s' g → IsPage s g)
    (hf : IsFloating s' g → IsFloating s g) : containerCount s' g ≤ containerCount s g := by
  unfold containerCount
  split_ifs <;> simp_all

theorem containerCount_eq_zero {s : State} {f : FramePtr} (h : containerCount s f = 0) :
    ¬ IsControl s f ∧ ¬ IsPage s f ∧ ¬ IsFloating s f := by
  unfold containerCount at h
  split_ifs at h <;> simp_all

theorem containerCount_le_one_of_not {s : State} {f : FramePtr}
    (h : (¬ IsControl s f ∧ ¬ IsPage s f) ∨ (¬ IsControl s f ∧ ¬ IsFloating s f) ∨
      (¬ IsPage s f ∧ ¬ IsFloating s f)) : containerCount s f ≤ 1 := by
  unfold containerCount
  split_ifs <;> simp_all

theorem Shrinks.containerCount_le {s s' : State} (h : Shrinks s s') (g : FramePtr) :
    containerCount s' g ≤ containerCount s g :=
  containerCount_le_of_imp (h g).1 (h g).2.1 (h g).2.2

theorem exclusive_SetControl {s : State} {type : CONTROL_TYPE} {f : FramePtr}
    (h : ∀ g, containerCount s g ≤ 1) (hf : containerCount s f = 0) (g : FramePtr) :
    containerCount (SetControl s type f) g ≤ 1 := by
  obtain ⟨_, hfp, hff⟩ := containerCount_eq_zero hf
  by_cases hg : g = f
  · subst hg
    apply containerCount_le_one_of_not
    right; right
    rw [SetControl_eq]
    exact ⟨hfp, hff⟩
  · refine le_trans (containerCount_le_of_imp ?_ ?_ ?_) (h g)
    · rw [SetControl_eq]
      intro hc
      rcases StdMap.mem_values_assign hc with hc | hc
      · exact absurd hc hg
      · exact hc
    · rw [SetControl_eq]; exact id
    · rw [SetControl_eq]; exact id

theorem exclusive_AddPage {s : State} {f : FramePtr}
    (h : ∀ g, containerCount s g ≤ 1) (hf : containerCount s f = 0) (g : FramePtr) :
    containerCount (AddPage s f) g ≤ 1 := by
  obtain ⟨hfc, _, hff⟩ := containerCount_eq_zero hf
  by_cases hg : g = f
  · subst hg
    apply containerCount_le_one_of_not
    right; left
    rw [AddPage_eq]
    exact ⟨hfc, hff⟩
  · refine le_trans (containerCount_le_of_imp ?_ ?_ ?_) (h g)
    · rw [AddPage_eq]; exact id
    · rw [AddPage_eq]
      intro hc
      rcases StdMap.mem_values_assign hc with hc | hc
      · exact absurd hc hg
      · exact hc
    · rw [AddPage_eq]; exact id

theorem exclusive_ShowFloating {s : State} {f : FramePtr} (x y w h' : Int)
    (h : ∀ g, containerCount s g ≤ 1) (hf : containerCount s f = 0) (g : FramePtr) :
    containerCount (ShowFloating s f x y w h') g ≤ 1 := by
  obtain ⟨hfc, hfp, _⟩ := containerCount_eq_zero hf
  have hs := HideFloating_shrinks s
  by_cases hg : g = f
  · subst hg
    apply containerCount_le_one_of_not
    left
    rw [ShowFloating_eq]
    exact ⟨fun hc => hfc ((hs g).1 hc), fun hc => hfp ((hs g).2.1 hc)⟩
  · refine le_trans (containerCount_le_of_imp ?_ ?_ ?_) (h g)
    · rw [ShowFloating_eq]; exact (hs g).1
    · rw [ShowFloating_eq]; exact (hs g).2.1
    · rw [ShowFloating_eq]
      intro hc
      exact absurd (Option.some.inj hc).symm hg

/-- C3 (the claim as stated fails): on the fresh sample window, `AddPage(frame
1)` followed by `SetControl(0, frame 1)` leaves frame 1 registered both as a
page and as a control. -/
theorem page_and_control_at_once :
    Fresh sampleWindow ∧
    IsPage (SetControl (AddPage sampleWindow 1) 0 1) 1 ∧
    IsControl (SetControl (AddPage sampleWindow 1) 0 1) 1 ∧
    containerCount (SetControl (AddPage sampleWindow 1) 0 1) 1 = 2 := by
  decide

/-! ## `Kill` on a registry whose pages are keyed by name -/

@[simp] theorem detach_name (fr : ExoFrame) : fr.detach.name = fr.name := rfl

@[simp] theorem detach_detach (fr : ExoFrame) : fr.detach.detach = fr.detach := rfl

theorem detach_detached (fr : ExoFrame) : Detached fr.detach := ⟨rfl, rfl⟩

theorem drainPages_keyed (fuel : Nat) (s : State) (hk : PagesKeyed s)
    (hfuel : s.pages_.length ≤ fuel) :
    Kill.drainPages fuel s = some
      { s with
        pages_ := []
        frames := fun q =>
          if q ∈ StdMap.values s.pages_ then (s.frames q).detach else s.frames q
        trace := s.trace ++
          s.pages_.map fun e => Event.platform (PlatformCall.RemovePage e.2) } := by
  induction fuel generalizing s with
  | zero =>
    have hp : s.pages_ = [] := List.length_eq_zero.mp (Nat.le_zero.mp hfuel)
    unfold Kill.drainPages
    cases s
    simp only at hp
    subst hp
    simp [StdMap.values]
  | succ n ih =>
    unfold Kill.drainPages
    cases hp : s.pages_ with
    | nil =>
      cases s
      simp only at hp
      subst hp
      simp [StdMap.values]
    | cons e m =>
      obtain ⟨k, f⟩ := e
      have hname : (s.frames f).name = k := hk (k, f) (by rw [hp]; exact List.mem_cons_self _ _)
      have hfind : StdMap.find k s.pages_ = some f := by rw [hp]; simp
      simp only [hname]
      rw [RemovePage_some hfind]
      have herase : StdMap.erase k s.pages_ = m := by rw [hp]; simp [StdMap.erase]
      rw [herase]
      rw [ih]
      · simp only [Option.some.injEq, List.map_cons, List.append_assoc, List.singleton_append,
          StdMap.values, List.mem_cons]
        congr 1
        funext q
        by_cases hq : q = f
        · subst hq
          by_cases hm : q ∈ List.map Prod.snd m
          · simp [hm]
          · simp [hm]
        · by_cases hm : q ∈ List.map Prod.snd m
          · simp [hm, hq, Function.update_noteq hq]
          · simp [hm, hq, Function.update_noteq hq]
      · intro e he
        simp only at he ⊢
        have := hk e (by rw [hp]; exact List.mem_cons_of_mem _ he)
        by_cases hq : e.2 = f
        · rw [hq, Function.update_same, detach_name, ← hq]; exact this
        · rw [Function.update_noteq hq]; exact this
      · rw [hp] at hfuel
        simp only [List.length_cons] at hfuel
        exact Nat.le_of_succ_le_succ hfuel

theorem drainControls_closed (fuel : Nat) (s : State)
    (hfuel : s.controls_.length ≤ fuel) :
    Kill.drainControls fuel s = some
      { s with
        controls_ := []
        frames := fun q =>
          if q ∈ StdMap.values s.controls_ then (s.frames q).detach else s.frames q
        trace := s.trace ++
          s.controls_.map fun e => Event.platform (PlatformCall.UnsetControl e.1 e.2) } := by
  induction fuel generalizing s with
  | zero =>
    have hp : s.controls_ = [] := List.length_eq_zero.mp (Nat.le_zero.mp hfuel)
    unfold Kill.drainControls
    cases s
    simp only at hp
    subst hp
    simp [StdMap.values]
  | succ n ih =>
    unfold Kill.drainControls
    cases hp : s.controls_ with
    | nil =>
      cases s
      simp only at hp
      subst hp
      simp [StdMap.values]
    | cons e m =>
      obtain ⟨k, f⟩ := e
      have hfind : StdMap.find k s.controls_ = some f := by rw [hp]; simp
      simp only
      rw [UnsetControl_some hfind]
      have herase : StdMap.erase k s.controls_ = m := by rw [hp]; simp [StdMap.erase]
      rw [herase]
      rw [ih]
      · simp only [Option.some.injEq, List.map_cons, List.append_assoc, List.singleton_append,
          StdMap.values, List.mem_cons]
        congr 1
        funext q
        by_cases hq : q = f
        · subst hq
          by_cases hm : q ∈ List.map Prod.snd m
          · simp [hm]
          · simp [hm]
        · by_cases hm : q ∈ List.map Prod.snd m
          · simp [hm, hq, Function.update_noteq hq]
          · simp [hm, hq, Function.update_noteq hq]
      · rw [hp] at hfuel
        simp only [List.length_cons] at hfuel
        exact Nat.le_of_succ_le_succ hfuel

theorem Kill_keyed (fuel : Nat) (s : State) (hk : PagesKeyed s)
    (hp : s.pages_.length ≤ fuel) (hc : s.controls_.length ≤ fuel) :
    Kill fuel s = some
      { s with
        is_killed_ := true
        pages_ := []
        controls_ := []
        frames := fun q =>
          if IsPage s q ∨ IsControl s q then (s.frames q).detach else s.frames q
        trace := s.trace ++ drainEvents s ++
          [Event.platform PlatformCall.Kill, Event.post (Message.Kill s.this_)] } := by
  unfold Kill
  simp only
  rw [drainPages_keyed fuel { s with is_killed_ := true } hk hp]
  simp only
  rw [drainControls_closed fuel _ (by exact hc)]
  simp only [State.platform, State.post, drainEvents, IsPage, IsControl, Option.some.injEq,
    List.append_assoc]
  congr 1
  funext q
  by_cases h1 : q ∈ StdMap.values s.pages_
  · by_cases h2 : q ∈ StdMap.values s.controls_
    · simp [h1, h2]
    · simp [h1, h2]
  · by_cases h2 : q ∈ StdMap.values s.controls_
    · simp [h1, h2]
    · simp [h1, h2]

theorem queue_append (s : State) (es : List Event) :
    State.queue { s with trace := s.trace ++ es } = s.queue ++ es.filterMap Event.message? := by
  simp [State.queue, List.filterMap_append]

theorem queue_drainEvents (s : State) : (drainEvents s).filterMap Event.message? = [] := by
  simp [drainEvents, List.filterMap_append, List.filterMap_map, Function.comp_def,
    Event.message?]

/-! ## The representation invariant along a run -/

theorem ReachableBy.mono {P Q : State → Op → Prop} {s0 s : State}
    (hPQ : ∀ s op, P s op → Q s op) (h : ReachableBy P s0 s) : ReachableBy Q s0 s := by
  induction h with
  | init => exact ReachableBy.init
  | step op fuel _ hp hrun ih => exact ReachableBy.step op fuel ih (hPQ _ _ hp) hrun

theorem ReachableBy.any {P : State → Op → Prop} {s0 s : State} (h : ReachableBy P s0 s) :
    ReachableBy anyOp s0 s :=
  h.mono fun _ _ _ => trivial

theorem RegistryInv_init {s0 : State} (h0 : Fresh s0) : RegistryInv s0 := by
  refine ⟨?_, ?_, ?_⟩
  · rw [h0.2.1]; exact StdMap.ordered_nil
  · rw [h0.1]; exact StdMap.ordered_nil
  · intro e he
    rw [h0.2.1] at he
    cases he

theorem RegistryInv_UnsetControl {s : State} (h : RegistryInv s) (type : CONTROL_TYPE) :
    RegistryInv (UnsetControl s type) := by
  cases hfind : StdMap.find type s.controls_ with
  | none => rw [UnsetControl_none hfind]; exact h
  | some f =>
    rw [UnsetControl_some hfind]
    refine ⟨h.1, StdMap.ordered_erase _ h.2.1, ?_⟩
    intro e he
    have := h.2.2 e he
    simp only
    by_cases hq : e.2 = f
    · rw [hq, Function.update_same, detach_name, ← hq]; exact this
    · rw [Function.update_noteq hq]; exact this

theorem RegistryInv_RemovePage {s : State} (h : RegistryInv s) (name : String) :
    RegistryInv (RemovePage s name) := by
  cases hfind : StdMap.find name s.pages_ with
  | none => rw [RemovePage_none hfind]; exact h
  | some f =>
    rw [RemovePage_some hfind]
    refine ⟨StdMap.ordered_erase _ h.1, h.2.1, ?_⟩
    intro e he
    have := h.2.2 e (StdMap.mem_erase he)
    simp only
    by_cases hq : e.2 = f
    · rw [hq, Function.update_same, detach_name, ← hq]; exact this
    · rw [Function.update_noteq hq]; exact this

theorem RegistryInv_HideFloating {s : State} (h : RegistryInv s) :
    RegistryInv (HideFloating s) := by
  cases hf : s.floating_ with
  | none => rw [HideFloating_none hf]; exact h
  | some f =>
    rw [HideFloating_some hf]
    refine ⟨h.1, h.2.1, ?_⟩
    intro e he
    have := h.2.2 e he
    simp only
    by_cases hq : e.2 = f
    · rw [hq, Function.update_same, detach_name, ← hq]; exact this
    · rw [Function.update_noteq hq]; exact this

theorem RegistryInv_SetControl {s : State} (h : RegistryInv s) (type : CONTROL_TYPE)
    (f : FramePtr) : RegistryInv (SetControl s type f) := by
  rw [SetControl_eq]
  refine ⟨h.1, StdMap.ordered_assign _ _ h.2.1, ?_⟩
  intro e he
  have := h.2.2 e he
  simp only
  by_cases hq : e.2 = f
  · rw [hq, Function.update_same, ← hq]; exact this
  · rw [Function.update_noteq hq]; exact this

theorem RegistryInv_ShowFloating {s : State} (h : RegistryInv s) (f : FramePtr)
    (x y w h' : Int) : RegistryInv (ShowFloating s f x y w h') := by
  have hh := RegistryInv_HideFloating h
  rw [ShowFloating_eq]
  refine ⟨hh.1, hh.2.1, ?_⟩
  intro e he
  have := hh.2.2 e he
  simp only
  by_cases hq : e.2 = f
  · rw [hq, Function.update_same, ← hq]; exact this
  · rw [Function.update_noteq hq]; exact this

theorem RegistryInv_AddPage {s : State} (h : RegistryInv s) (f : FramePtr) :
    RegistryInv (AddPage s f) := by
  rw [AddPage_eq]
  refine ⟨StdMap.ordered_assign _ _ h.1, h.2.1, ?_⟩
  intro e he
  simp only at he ⊢
  rcases StdMap.mem_assign he with he | he
  · rw [he]; simp
  · have := h.2.2 e he
    by_cases hq : e.2 = f
    · rw [hq, Function.update_same, ← hq]; exact this
    · rw [Function.update_noteq hq]; exact this

theorem RegistryInv_ShowPage {s : State} (h : RegistryInv s) (name : String) :
    RegistryInv (ShowPage s name) := by
  cases hfind : StdMap.find name s.pages_ with
  | none => rw [ShowPage_none hfind]; exact h
  | some p =>
    rw [ShowPage_some hfind]
    refine ⟨h.1, h.2.1, ?_⟩
    intro e he
    have := h.2.2 e he
    simp only
    split_ifs with h1 h2
    · rw [← h1]; exact this
    · exact this
    · exact this

theorem RegistryInv_RemoveFrame {s : State} (h : RegistryInv s) (name : String) :
    RegistryInv (RemoveFrame s name) := by
  rcases RemoveFrame_cases s name with ⟨n, hn⟩ | ⟨t, ht⟩ | hs
  · rw [hn]; exact RegistryInv_RemovePage h n
  · rw [ht]; exact RegistryInv_UnsetControl h t
  · rw [hs]; exact h

theorem drainPages_inv {fuel : Nat} {s s' : State} (h : RegistryInv s)
    (hd : Kill.drainPages fuel s = some s') : RegistryInv s' := by
  induction fuel generalizing s with
  | zero =>
    unfold Kill.drainPages at hd
    cases hp : s.pages_ with
    | nil => simp only [hp, Option.some.injEq] at hd; subst hd; exact h
    | cons e m => simp [hp] at hd
  | succ n ih =>
    unfold Kill.drainPages at hd
    cases hp : s.pages_ with
    | nil => simp only [hp, Option.some.injEq] at hd; subst hd; exact h
    | cons e m =>
      simp only [hp] at hd
      exact ih (RegistryInv_RemovePage h _) hd

theorem drainControls_inv {fuel : Nat} {s s' : State} (h : RegistryInv s)
    (hd : Kill.drainControls fuel s = some s') : RegistryInv s' := by
  induction fuel generalizing s with
  | zero =>
    unfold Kill.drainControls at hd
    cases hp : s.controls_ with
    | nil => simp only [hp, Option.some.injEq] at hd; subst hd; exact h
    | cons e m => simp [hp] at hd
  | succ n ih =>
    unfold Kill.drainControls at hd
    cases hp : s.controls_ with
    | nil => simp only [hp, Option.some.injEq] at hd; subst hd; exact h
    | cons e m =>
      simp only [hp] at hd
      exact ih (RegistryInv_UnsetControl h _) hd

theorem RegistryInv_Kill {fuel : Nat} {s s' : State} (h : RegistryInv s)
    (hk : Kill fuel s = some s') : RegistryInv s' := by
  unfold Kill at hk
  simp only at hk
  cases h1 : Kill.drainPages fuel { s with is_killed_ := true } with
  | none => simp [h1] at hk
  | some s1 =>
    cases h2 : Kill.drainControls fuel s1 with
    | none => simp [h1, h2] at hk
    | some s2 =>
      simp only [h1, h2, Option.some.injEq] at hk
      subst hk
      have hs : RegistryInv { s with is_killed_ := true } := h
      have h3 : RegistryInv s2 := drainControls_inv (drainPages_inv hs h1) h2
      exact h3

theorem RegistryInv_of_reachable {P : State → Op → Prop} {s0 s : State} (h0 : Fresh s0)
    (hr : ReachableBy P s0 s) : RegistryInv s := by
  induction hr with
  | init => exact RegistryInv_init h0
  | step op fuel _ _ hrun ih =>
    cases op with
    | Kill => exact RegistryInv_Kill ih hrun
    | SetControl type f =>
      simp only [Op.run, Option.some.injEq] at hrun
      subst hrun; exact RegistryInv_SetControl ih _ _
    | UnsetControl type =>
      simp only [Op.run, Option.some.injEq] at hrun
      subst hrun; exact RegistryInv_UnsetControl ih _
    | SetControlDimension type size =>
      simp only [Op.run, Option.some.injEq] at hrun
      subst hrun; exact ih
    | ShowFloating f x y w h =>
      simp only [Op.run, Option.some.injEq] at hrun
      subst hrun; exact RegistryInv_ShowFloating ih _ _ _ _ _
    | HideFloating =>
      simp only [Op.run, Option.some.injEq] at hrun
      subst hrun; exact RegistryInv_HideFloating ih
    | AddPage f =>
      simp only [Op.run, Option.some.injEq] at hrun
      subst hrun; exact RegistryInv_AddPage ih _
    | RemovePage name =>
      simp only [Op.run, Option.some.injEq] at hrun
      subst hrun; exact RegistryInv_RemovePage ih _
    | ShowPage name =>
      simp only [Op.run, Option.some.injEq] at hrun
      subst hrun; exact RegistryInv_ShowPage ih _
    | RemoveFrame name =>
      simp only [Op.run, Option.some.injEq] at hrun
      subst hrun; exact RegistryInv_RemoveFrame ih _

/-! ## C3: the run theorem -/

/-- C3 (amended): on a fresh window, after every operation of a run of
`SetControl`, `UnsetControl`, `SetControlDimension`, `ShowFloating`,
`HideFloating`, `AddPage`, `RemovePage`, `ShowPage`, `RemoveFrame` and `Kill`
in which `SetControl`, `ShowFloating` and `AddPage` are only issued for a
frame that is then in none of the containers, each frame appears in at most
one of `controls_`, `pages_`, `floating_`. Every operation returns in such a
state: `Kill` does as soon as each loop may run as many iterations as its map
has entries, the others always. -/
theorem exclusive_of_admissible_run (s0 s : State) (h0 : Fresh s0)
    (hr : ReachableBy exclAdmissible s0 s) :
    (∀ f, containerCount s f ≤ 1) ∧
    ∀ (op : Op) (fuel : Nat), s.pages_.length ≤ fuel → s.controls_.length ≤ fuel →
      (op.run fuel s).isSome = true := by
  refine ⟨?_, ?_⟩
  swap
  · intro op fuel hp hc
    cases op with
    | Kill =>
      simp only [Op.run]
      rw [Kill_keyed fuel s (RegistryInv_of_reachable h0 hr).2.2 hp hc]
      rfl
    | _ => rfl
  induction hr with
  | init =>
    intro f
    apply containerCount_le_one_of_not
    left
    unfold IsControl IsPage
    rw [h0.1, h0.2.1]
    simp [StdMap.values]
  | step op fuel _ hp hrun ih =>
    intro g
    cases op with
    | SetControl type f =>
      simp only [Op.run, Option.some.injEq] at hrun
      subst hrun
      exact exclusive_SetControl ih hp g
    | ShowFloating f x y w h =>
      simp only [Op.run, Option.some.injEq] at hrun
      subst hrun
      exact exclusive_ShowFloating x y w h ih hp g
    | AddPage f =>
      simp only [Op.run, Option.some.injEq] at hrun
      subst hrun
      exact exclusive_AddPage ih hp g
    | UnsetControl type =>
      simp only [Op.run, Option.some.injEq] at hrun
      subst hrun
      exact le_trans ((UnsetControl_shrinks _ _).containerCount_le g) (ih g)
    | SetControlDimension type size =>
      simp only [Op.run, Option.some.injEq] at hrun
      subst hrun
      exact ih g
    | HideFloating =>
      simp only [Op.run, Option.some.injEq] at hrun
      subst hrun
      exact le_trans ((HideFloating_shrinks _).containerCount_le g) (ih g)
    | RemovePage name =>
      simp only [Op.run, Option.some.injEq] at hrun
      subst hrun
      exact le_trans ((RemovePage_shrinks _ _).containerCount_le g) (ih g)
    | ShowPage name =>
      simp only [Op.run, Option.some.injEq] at hrun
      subst hrun
      exact le_trans ((ShowPage_shrinks _ _).containerCount_le g) (ih g)
    | RemoveFrame name =>
      simp only [Op.run, Option.some.injEq] at hrun
      subst hrun
      exact le_trans ((RemoveFrame_shrinks _ _).containerCount_le g) (ih g)
    | Kill =>
      simp only [Op.run] at hrun
      exact le_trans ((Kill_shrinks hrun).containerCount_le g) (ih g)

/-- C3 (amended) at a concrete run: `AddPage(1)`, `SetControl(0, 3)`,
`ShowFloating(2, ..)`, `RemoveFrame("a")` on the sample window. -/
theorem exclusive_of_admissible_run_witness :
    Fresh sampleWindow ∧
    ReachableBy exclAdmissible sampleWindow
      (RemoveFrame (ShowFloating (SetControl (AddPage sampleWindow 1) 0 3) 2 0 0 10 10) "a") ∧
    ∀ f, containerCount
      (RemoveFrame (ShowFloating (SetControl (AddPage sampleWindow 1) 0 3) 2 0 0 10 10) "a") f
        ≤ 1 :=
  have hr : ReachableBy exclAdmissible sampleWindow
      (RemoveFrame (ShowFloating (SetControl (AddPage sampleWindow 1) 0 3) 2 0 0 10 10) "a") :=
    ReachableBy.step (Op.RemoveFrame "a") 0
      (ReachableBy.step (Op.ShowFloating 2 0 0 10 10) 0
        (ReachableBy.step (Op.SetControl 0 3) 0
          (ReachableBy.step (Op.AddPage 1) 0 ReachableBy.init (by decide) rfl)
          (by decide) rfl)
        (by decide) rfl)
      trivial rfl
  ⟨by decide, hr, (exclusive_of_admissible_run sampleWindow _ (by decide) hr).1⟩

/-! ## C7, C8: `Kill` -/

/-- C7: in every state built from a fresh window by `AddPage` and `SetControl`
calls, `Kill()` returns as soon as each loop may run as many iterations as its
map has entries. It leaves `pages_` and `controls_` empty and every frame that
was registered as a page or a control with role `NOTYPE_FRAME` and no parent.
It appends to the trace one platform `RemovePage` per page, then one platform
`UnsetControl` per control, then the platform `Kill`, and last the `Kill`
task, which is the only task it adds to the queue. -/
theorem Kill_after_build (s0 s : State) (h0 : Fresh s0) (hr : ReachableBy buildOp s0 s)
    (fuel : Nat) (hp : s.pages_.length ≤ fuel) (hc : s.controls_.length ≤ fuel) :
    ∃ s', Kill fuel s = some s' ∧ s'.pages_ = [] ∧ s'.controls_ = [] ∧
      (∀ f, IsPage s f ∨ IsControl s f → Detached (s'.frames f)) ∧
      s'.queue = s.queue ++ [Message.Kill s.this_] ∧
      s'.trace = s.trace ++ drainEvents s ++
        [Event.platform PlatformCall.Kill, Event.post (Message.Kill s.this_)] := by
  have hinv := RegistryInv_of_reachable h0 hr
  refine ⟨_, Kill_keyed fuel s hinv.2.2 hp hc, rfl, rfl, ?_, ?_, rfl⟩
  · intro f hf
    simp only [hf, if_true]
    exact detach_detached _
  · have h := queue_append s (drainEvents s ++
      [Event.platform PlatformCall.Kill, Event.post (Message.Kill s.this_)])
    simp only [List.filterMap_append, queue_drainEvents, List.nil_append] at h
    simp only [State.queue, List.append_assoc] at h ⊢
    rw [h]
    rfl

/-- C7 at a window with two pages and one control: frames 1 and 2 added as
pages "a" and "b", frame 3 set as control 0. -/
theorem Kill_after_build_witness :
    Fresh sampleWindow ∧
    ReachableBy buildOp sampleWindow (SetControl (AddPage (AddPage sampleWindow 1) 2) 0 3) ∧
    ∃ s', Kill 2 (SetControl (AddPage (AddPage sampleWindow 1) 2) 0 3) = some s' ∧
      s'.pages_ = [] ∧ s'.controls_ = [] ∧
      (∀ f, IsPage (SetControl (AddPage (AddPage sampleWindow 1) 2) 0 3) f ∨
          IsControl (SetControl (AddPage (AddPage sampleWindow 1) 2) 0 3) f →
        Detached (s'.frames f)) ∧
      s'.queue = (SetControl (AddPage (AddPage sampleWindow 1) 2) 0 3).queue ++
        [Message.Kill 7] ∧
      s'.trace = (SetControl (AddPage (AddPage sampleWindow 1) 2) 0 3).trace ++
        drainEvents (SetControl (AddPage (AddPage sampleWindow 1) 2) 0 3) ++
        [Event.platform PlatformCall.Kill, Event.post (Message.Kill 7)] :=
  have hr : ReachableBy buildOp sampleWindow
      (SetControl (AddPage (AddPage sampleWindow 1) 2) 0 3) :=
    ReachableBy.step (Op.SetControl 0 3) 0
      (ReachableBy.step (Op.AddPage 2) 0
        (ReachableBy.step (Op.AddPage 1) 0 ReachableBy.init trivial rfl) trivial rfl)
      trivial rfl
  ⟨by decide, hr, Kill_after_build sampleWindow _ (by decide) hr 2 (by decide) (by decide)⟩

/-- C8 (the claim as stated fails): with frame 1 floating on the sample
window, `Kill()` returns with frame 1 still in the floating slot, still with
role `FLOATING_FRAME` and the window as parent. -/
theorem Kill_leaves_floating_set :
    (ShowFloating sampleWindow 1 0 0 10 10).floating_ = some 1 ∧
    (Kill 0 (ShowFloating sampleWindow 1 0 0 10 10)).map
        (fun s' => (s'.floating_, (s'.frames 1).type_, (s'.frames 1).parent_))
      = some (some 1, FRAME_TYPE.FLOATING_FRAME, some 7) := by
  decide

/-- C8 (amended): in every state whose pages are keyed by the name of their
frame and in which a floating frame `f` is set, `Kill()` returns with `f`
still in the floating slot. The only platform calls it makes are the
`RemovePage` and `UnsetControl` calls of the two drains and `Kill`, so no
`HideFloating`; and when `f` is not also a page or a control, the frame `f`
is exactly as before (role, parent and visibility). -/
theorem Kill_keeps_floating (s : State) (f : FramePtr) (fuel : Nat) (hk : PagesKeyed s)
    (hf : s.floating_ = some f) (hp : s.pages_.length ≤ fuel)
    (hc : s.controls_.length ≤ fuel) :
    ∃ s', Kill fuel s = some s' ∧ s'.floating_ = some f ∧
      (¬ IsPage s f → ¬ IsControl s f → s'.frames f = s.frames f) ∧
      s'.trace = s.trace ++ drainEvents s ++
        [Event.platform PlatformCall.Kill, Event.post (Message.Kill s.this_)] := by
  refine ⟨_, Kill_keyed fuel s hk hp hc, hf, ?_, rfl⟩
  intro h1 h2
  simp [h1, h2]

/-- C8 (amended) at a concrete input: frame 1 added as a page, frame 2
floating, on the sample window. -/
theorem Kill_keeps_floating_witness :
    PagesKeyed (ShowFloating (AddPage sampleWindow 1) 2 0 0 10 10) ∧
    (ShowFloating (AddPage sampleWindow 1) 2 0 0 10 10).floating_ = some 2 ∧
    ∃ s', Kill 1 (ShowFloating (AddPage sampleWindow 1) 2 0 0 10 10) = some s' ∧
      s'.floating_ = some 2 :=
  have hk : PagesKeyed (ShowFloating (AddPage sampleWindow 1) 2 0 0 10 10) := by
    intro e he
    have he' : e = ("a", 1) := by
      have : e ∈ [(("a", 1) : String × FramePtr)] := he
      simpa using this
    subst he'
    decide
  have h := Kill_keeps_floating (ShowFloating (AddPage sampleWindow 1) 2 0 0 10 10) 2 1 hk
    (by decide) (by decide) (by decide)
  ⟨hk, by decide, h.elim fun s' hs => ⟨s', hs.1, hs.2.1⟩⟩

/-! ## C9: `RemoveFrame` -/

theorem RemoveFrame_page {s : State} {name : String} {p : FramePtr} (h : RegistryInv s)
    (hfind : StdMap.find name s.pages_ = some p) : RemoveFrame s name = RemovePage s name := by
  have hmem := StdMap.mem_of_find hfind
  have hname : (s.frames p).name = name := h.2.2 _ hmem
  unfold RemoveFrame
  cases hfp : s.pages_.find? fun e => (s.frames e.2).name = name with
  | none =>
    have := List.find?_eq_none.mp hfp _ hmem
    simp [hname] at this
  | some e =>
    have he := List.find?_some hfp
    simp only [decide_eq_true_eq] at he
    simp only [he]

theorem pages_find?_none {s : State} {name : String} (h : RegistryInv s)
    (hfind : StdMap.find name s.pages_ = none) :
    (s.pages_.find? fun e => (s.frames e.2).name = name) = none := by
  rw [List.find?_eq_none]
  intro e he hp
  simp only [decide_eq_true_eq] at hp
  have hk : e.1 = name := by rw [← h.2.2 e he]; exact hp
  exact StdMap.find_eq_none_iff.mp hfind (hk ▸ StdMap.mem_keys_of_mem he)

theorem RemoveFrame_control {s : State} {name : String} {e : CONTROL_TYPE × FramePtr}
    (h : RegistryInv s) (hfind : StdMap.find name s.pages_ = none)
    (hc : (s.controls_.find? fun e => (s.frames e.2).name = name) = some e) :
    RemoveFrame s name = UnsetControl s e.1 := by
  unfold RemoveFrame
  rw [pages_find?_none h hfind]
  simp only [hc]

theorem RemoveFrame_miss {s : State} {name : String} (h : RegistryInv s)
    (hfind : StdMap.find name s.pages_ = none)
    (hc : ∀ t c, StdMap.find t s.controls_ = some c → (s.frames c).name ≠ name) :
    RemoveFrame s name = s := by
  unfold RemoveFrame
  rw [pages_find?_none h hfind]
  have : (s.controls_.find? fun e => (s.frames e.2).name = name) = none := by
    rw [List.find?_eq_none]
    intro e he hp
    simp only [decide_eq_true_eq] at hp
    exact hc e.1 e.2 (StdMap.find_of_mem h.2.1 he) hp
  simp only [this]

/-- C9: in every state reached from a fresh window by the public registry
operations, `RemoveFrame(name)` does the following. If a page `p` is
registered under `name`, it removes exactly that page: `p` is detached and
hidden, one platform `RemovePage(p)` is issued, the entry `name` leaves
`pages_`, and every other page, `controls_`, the floating slot and every other
frame are as before. Otherwise, if some control holds a frame named `name`,
it unsets the lowest such role `t`, holding `c`: `c` is detached and hidden,
one platform `UnsetControl(t, c)` is issued, the entry `t` leaves `controls_`,
and every other control, `pages_`, the floating slot and every other frame
are as before. Otherwise the state is unchanged, so no platform call is
made. -/
theorem RemoveFrame_dispatch (s0 s : State) (h0 : Fresh s0) (hr : ReachableBy anyOp s0 s)
    (name : String) :
    (∀ p, StdMap.find name s.pages_ = some p →
      (RemoveFrame s name).controls_ = s.controls_ ∧
      (RemoveFrame s name).floating_ = s.floating_ ∧
      (∀ k, StdMap.find k (RemoveFrame s name).pages_
        = if k = name then none else StdMap.find k s.pages_) ∧
      (RemoveFrame s name).frames = Function.update s.frames p (s.frames p).detach ∧
      (RemoveFrame s name).trace
        = s.trace ++ [Event.platform (PlatformCall.RemovePage p)]) ∧
    (StdMap.find name s.pages_ = none →
      (∃ t c, StdMap.find t s.controls_ = some c ∧ (s.frames c).name = name) →
      ∃ t c, StdMap.find t s.controls_ = some c ∧ (s.frames c).name = name ∧
        (∀ t' c', StdMap.find t' s.controls_ = some c' → (s.frames c').name = name →
          t ≤ t') ∧
        (RemoveFrame s name).pages_ = s.pages_ ∧
        (RemoveFrame s name).floating_ = s.floating_ ∧
        (∀ k, StdMap.find k (RemoveFrame s name).controls_
          = if k = t then none else StdMap.find k s.controls_) ∧
        (RemoveFrame s name).frames = Function.update s.frames c (s.frames c).detach ∧
        (RemoveFrame s name).trace
          = s.trace ++ [Event.platform (PlatformCall.UnsetControl t c)]) ∧
    (StdMap.find name s.pages_ = none →
      (∀ t c, StdMap.find t s.controls_ = some c → (s.frames c).name ≠ name) →
      RemoveFrame s name = s) := by
  have hinv := RegistryInv_of_reachable h0 hr
  refine ⟨?_, ?_, fun hfind hc => RemoveFrame_miss hinv hfind hc⟩
  · intro p hfind
    rw [RemoveFrame_page hinv hfind, RemovePage_some hfind]
    exact ⟨rfl, rfl, fun k => StdMap.find_erase name k hinv.1, rfl, rfl⟩
  · intro hfind ⟨t1, c1, hf1, hn1⟩
    cases hc : s.controls_.find? fun e => (s.frames e.2).name = name with
    | none =>
      have := List.find?_eq_none.mp hc _ (StdMap.mem_of_find hf1)
      simp [hn1] at this
    | some e =>
      have hp := List.find?_some hc
      simp only [decide_eq_true_eq] at hp
      have hmem := List.mem_of_find?_eq_some hc
      have hfe : StdMap.find e.1 s.controls_ = some e.2 := StdMap.find_of_mem hinv.2.1 hmem
      refine ⟨e.1, e.2, hfe, hp, ?_, ?_⟩
      · intro t' c' hf' hn'
        have hlow := StdMap.find?_lowest hinv.2.1 hc (t', c') (StdMap.mem_of_find hf')
          (by simpa using hn')
        rcases hlow with hlow | hlow
        · rw [← hlow]
        · have : e.1 < t' := by simpa [Less.less] using hlow
          exact Nat.le_of_lt this
      · rw [RemoveFrame_control hinv hfind hc, UnsetControl_some hfe]
        exact ⟨rfl, rfl, fun k => StdMap.find_erase e.1 k hinv.2.1, rfl, rfl⟩

/-- C9 at a concrete state: pages "a" (frame 1) and "b" (frame 2) and control
0 (frame 3, named "p") on the sample window; `RemoveFrame("a")` removes page
"a" only. -/
theorem RemoveFrame_dispatch_witness :
    Fresh sampleWindow ∧
    ReachableBy anyOp sampleWindow (SetControl (AddPage (AddPage sampleWindow 1) 2) 0 3) ∧
    StdMap.find "a" (SetControl (AddPage (AddPage sampleWindow 1) 2) 0 3).pages_ = some 1 ∧
    (RemoveFrame (SetControl (AddPage (AddPage sampleWindow 1) 2) 0 3) "a").controls_
      = (SetControl (AddPage (AddPage sampleWindow 1) 2) 0 3).controls_ ∧
    (RemoveFrame (SetControl (AddPage (AddPage sampleWindow 1) 2) 0 3) "a").trace
      = (SetControl (AddPage (AddPage sampleWindow 1) 2) 0 3).trace ++
        [Event.platform (PlatformCall.RemovePage 1)] :=
  have hr : ReachableBy anyOp sampleWindow
      (SetControl (AddPage (AddPage sampleWindow 1) 2) 0 3) :=
    ReachableBy.step (Op.SetControl 0 3) 0
      (ReachableBy.step (Op.AddPage 2) 0
        (ReachableBy.step (Op.AddPage 1) 0 ReachableBy.init trivial rfl) trivial rfl)
      trivial rfl
  have h := (RemoveFrame_dispatch sampleWindow _ (by decide) hr "a").1 1 (by decide)
  ⟨by decide, hr, by decide, h.1, h.2.2.2.2⟩

/-! ## Decimal output -/

theorem digitChar_spec : ∀ d < 10, Nat.digitChar d ≠ '-' ∧ (Nat.digitChar d).toNat - 48 = d := by
  decide

theorem digitsValue_toDigitsCore (fuel n : Nat) (ds : List Char) (h : n < fuel) :
    digitsValue 0 (Nat.toDigitsCore 10 fuel n ds) = digitsValue n ds := by
  induction fuel generalizing n ds with
  | zero => omega
  | succ fuel ih =>
    have hd := (digitChar_spec (n % 10) (Nat.mod_lt _ (by decide))).2
    simp only [Nat.toDigitsCore]
    split_ifs with h0
    · simp only [digitsValue, List.foldl_cons, hd]
      congr 1
      omega
    · rw [ih (n / 10) _ (by omega)]
      simp only [digitsValue, List.foldl_cons, hd]
      congr 1
      omega

theorem toDigitsCore_no_dash (fuel n : Nat) (ds : List Char) (h : '-' ∉ ds) :
    '-' ∉ Nat.toDigitsCore 10 fuel n ds := by
  induction fuel generalizing n ds with
  | zero => simpa [Nat.toDigitsCore] using h
  | succ fuel ih =>
    have hd := (digitChar_spec (n % 10) (Nat.mod_lt _ (by decide))).1
    have hcons : '-' ∉ Nat.digitChar (n % 10) :: ds := by
      intro hm
      rcases List.mem_cons.mp hm with hm | hm
      · exact hd hm.symm
      · exact h hm
    simp only [Nat.toDigitsCore]
    split_ifs with h0
    · exact hcons
    · exact ih _ _ hcons

theorem repr_no_dash (n : Nat) : '-' ∉ (Nat.repr n).data := by
  simp only [Nat.repr, Nat.toDigits, List.asString]
  exact toDigitsCore_no_dash _ _ _ (List.not_mem_nil _)

theorem repr_injective {n m : Nat} (h : Nat.repr n = Nat.repr m) : n = m := by
  have h1 : digitsValue 0 (Nat.repr n).data = n := by
    simp only [Nat.repr, Nat.toDigits, List.asString]
    rw [digitsValue_toDigitsCore _ _ _ (Nat.lt_succ_self n)]
    rfl
  have h2 : digitsValue 0 (Nat.repr m).data = m := by
    simp only [Nat.repr, Nat.toDigits, List.asString]
    rw [digitsValue_toDigitsCore _ _ _ (Nat.lt_succ_self m)]
    rfl
  rw [← h1, ← h2, h]

theorem decimal_of_nonneg {k : Int} (h : 0 ≤ k) : decimal k = Nat.repr k.natAbs := by
  unfold decimal
  rw [if_neg (not_lt.mpr h)]

theorem append_cons_inj {c : Char} {u v a b : List Char} (hu : c ∉ u) (hv : c ∉ v)
    (h : u ++ c :: a = v ++ c :: b) : u = v ∧ a = b := by
  induction u generalizing v with
  | nil =>
    cases v with
    | nil => simpa using h
    | cons x v =>
      simp only [List.nil_append, List.cons_append, List.cons.injEq] at h
      exact absurd (List.mem_cons_self _ _) (h.1 ▸ hv)
  | cons y u ih =>
    cases v with
    | nil =>
      simp only [List.nil_append, List.cons_append, List.cons.injEq] at h
      exact absurd (List.mem_cons_self _ _) (h.1 ▸ hu)
    | cons x v =>
      simp only [List.cons_append, List.cons.injEq] at h
      have := ih (fun hm => hu (List.mem_cons_of_mem _ hm))
        (fun hm => hv (List.mem_cons_of_mem _ hm)) h.2
      exact ⟨by rw [h.1, this.1], this.2⟩

/-- Two generated names with different non-negative counter values differ,
whatever the names of the originating frames. -/
theorem generated_name_ne (p q : String) {j k : Int} (hj : 0 ≤ j) (hk : 0 ≤ k)
    (hne : j ≠ k) : p ++ "-" ++ decimal j ≠ q ++ "-" ++ decimal k := by
  intro h
  rw [decimal_of_nonneg hj, decimal_of_nonneg hk] at h
  have hd := congrArg String.data h
  simp only [String.data_append] at hd
  rw [List.append_assoc, List.append_assoc] at hd
  have hr := congrArg List.reverse hd
  simp only [List.reverse_append, List.reverse_cons, List.reverse_nil, List.nil_append,
    List.singleton_append, List.append_assoc] at hr
  have hinj := append_cons_inj (by simpa using repr_no_dash j.natAbs)
    (by simpa using repr_no_dash k.natAbs) hr
  have hrepr : Nat.repr j.natAbs = Nat.repr k.natAbs :=
    String.ext (List.reverse_injective hinj.1)
  have := repr_injective hrepr
  omega

/-! ## Registry operations leave the popup counter and the `FrameCreated` tasks alone -/

theorem Quiet.unchanged (s : State) : Quiet s s := ⟨rfl, rfl⟩

theorem Quiet.andThen {s s' s'' : State} (h1 : Quiet s s') (h2 : Quiet s' s'') : Quiet s s'' :=
  ⟨h2.1.trans h1.1, h2.2.trans h1.2⟩

theorem Quiet.of_platform {s s' : State} {c : PlatformCall} (hp : s'.pop_cnt = s.pop_cnt)
    (ht : s'.trace = s.trace ++ [Event.platform c]) : Quiet s s' := by
  refine ⟨hp, ?_⟩
  simp [State.frameCreated, State.queue, ht, List.filterMap_append, Event.message?]

theorem Quiet.of_trace {s s' : State} (hp : s'.pop_cnt = s.pop_cnt)
    (ht : s'.trace = s.trace) : Quiet s s' := by
  refine ⟨hp, ?_⟩
  simp [State.frameCreated, State.queue, ht]

theorem UnsetControl_quiet (s : State) (type : CONTROL_TYPE) :
    Quiet s (UnsetControl s type) := by
  cases hfind : StdMap.find type s.controls_ with
  | none => rw [UnsetControl_none hfind]; exact Quiet.unchanged s
  | some f => rw [UnsetControl_some hfind]; exact Quiet.of_platform rfl rfl

theorem RemovePage_quiet (s : State) (name : String) : Quiet s (RemovePage s name) := by
  cases hfind : StdMap.find name s.pages_ with
  | none => rw [RemovePage_none hfind]; exact Quiet.unchanged s
  | some f => rw [RemovePage_some hfind]; exact Quiet.of_platform rfl rfl

theorem HideFloating_quiet (s : State) : Quiet s (HideFloating s) := by
  cases hf : s.floating_ with
  | none => rw [HideFloating_none hf]; exact Quiet.unchanged s
  | some f => rw [HideFloating_some hf]; exact Quiet.of_platform rfl rfl

theorem ShowPage_quiet (s : State) (name : String) : Quiet s (ShowPage s name) := by
  cases hfind : StdMap.find name s.pages_ with
  | none => rw [ShowPage_none hfind]; exact Quiet.unchanged s
  | some p => rw [ShowPage_some hfind]; exact Quiet.of_platform rfl rfl

theorem SetControl_quiet (s : State) (type : CONTROL_TYPE) (f : FramePtr) :
    Quiet s (SetControl s type f) := by
  rw [SetControl_eq]; exact Quiet.of_platform rfl rfl

theorem AddPage_quiet (s : State) (f : FramePtr) : Quiet s (AddPage s f) := by
  rw [AddPage_eq]; exact Quiet.of_platform rfl rfl

theorem ShowFloating_quiet (s : State) (f : FramePtr) (x y w h : Int) :
    Quiet s (ShowFloating s f x y w h) := by
  refine (HideFloating_quiet s).andThen ?_
  rw [ShowFloating_eq]
  exact Quiet.of_platform rfl rfl

theorem RemoveFrame_quiet (s : State) (name : String) : Quiet s (RemoveFrame s name) := by
  rcases RemoveFrame_cases s name with ⟨n, h⟩ | ⟨t, h⟩ | h <;> rw [h]
  · exact RemovePage_quiet s n
  · exact UnsetControl_quiet s t
  · exact Quiet.unchanged s

theorem drainPages_quiet {fuel : Nat} {s s' : State}
    (h : Kill.drainPages fuel s = some s') : Quiet s s' := by
  induction fuel generalizing s with
  | zero =>
    unfold Kill.drainPages at h
    cases hp : s.pages_ with
    | nil => simp only [hp, Option.some.injEq] at h; subst h; exact Quiet.unchanged s
    | cons e m => simp [hp] at h
  | succ n ih =>
    unfold Kill.drainPages at h
    cases hp : s.pages_ with
    | nil => simp only [hp, Option.some.injEq] at h; subst h; exact Quiet.unchanged s
    | cons e m =>
      simp only [hp] at h
      exact (RemovePage_quiet s _).andThen (ih h)

theorem drainControls_quiet {fuel : Nat} {s s' : State}
    (h : Kill.drainControls fuel s = some s') : Quiet s s' := by
  induction fuel generalizing s with
  | zero =>
    unfold Kill.drainControls at h
    cases hp : s.controls_ with
    | nil => simp only [hp, Option.some.injEq] at h; subst h; exact Quiet.unchanged s
    | cons e m => simp [hp] at h
  | succ n ih =>
    unfold Kill.drainControls at h
    cases hp : s.controls_ with
    | nil => simp only [hp, Option.some.injEq] at h; subst h; exact Quiet.unchanged s
    | cons e m =>
      simp only [hp] at h
      exact (UnsetControl_quiet s _).andThen (ih h)

theorem Kill_quiet {fuel : Nat} {s s' : State} (h : Kill fuel s = some s') : Quiet s s' := by
  unfold Kill at h
  simp only at h
  cases h1 : Kill.drainPages fuel { s with is_killed_ := true } with
  | none => simp [h1] at h
  | some s1 =>
    cases h2 : Kill.drainControls fuel s1 with
    | none => simp [h1, h2] at h
    | some s2 =>
      simp only [h1, h2, Option.some.injEq] at h
      subst h
      have hk : Quiet s { s with is_killed_ := true } := Quiet.of_trace rfl rfl
      have hl : Quiet s2 ((s2.platform PlatformCall.Kill).post
          (Message.Kill (s2.platform PlatformCall.Kill).this_)) := by
        refine ⟨rfl, ?_⟩
        simp [State.frameCreated, State.queue, State.platform, State.post,
          List.filterMap_append, Event.message?, Message.isFrameCreated]
      exact ((hk.andThen (drainPages_quiet h1)).andThen (drainControls_quiet h2)).andThen hl

theorem Op_run_quiet {fuel : Nat} {op : Op} {s s' : State} (h : op.run fuel s = some s') :
    Quiet s s' := by
  cases op with
  | Kill => exact Kill_quiet h
  | SetControl type f =>
    simp only [Op.run, Option.some.injEq] at h
    subst h; exact SetControl_quiet _ _ _
  | UnsetControl type =>
    simp only [Op.run, Option.some.injEq] at h
    subst h; exact UnsetControl_quiet _ _
  | SetControlDimension type size =>
    simp only [Op.run, Option.some.injEq] at h
    subst h; exact Quiet.of_platform rfl rfl
  | ShowFloating f x y w h' =>
    simp only [Op.run, Option.some.injEq] at h
    subst h; exact ShowFloating_quiet _ _ _ _ _ _
  | HideFloating =>
    simp only [Op.run, Option.some.injEq] at h
    subst h; exact HideFloating_quiet _
  | AddPage f =>
    simp only [Op.run, Option.some.injEq] at h
    subst h; exact AddPage_quiet _ _
  | RemovePage name =>
    simp only [Op.run, Option.some.injEq] at h
    subst h; exact RemovePage_quiet _ _
  | ShowPage name =>
    simp only [Op.run, Option.some.injEq] at h
    subst h; exact ShowPage_quiet _ _
  | RemoveFrame name =>
    simp only [Op.run, Option.some.injEq] at h
    subst h; exact RemoveFrame_quiet _ _

/-! ## C10: `AddNewContents` -/

theorem wrapInt32_id {x : Int} (h0 : 0 ≤ x) (h1 : x < 2 ^ 31) : wrapInt32 x = x := by
  unfold wrapInt32
  norm_num at h1 ⊢
  omega

theorem call_none {s : State} {c : NewContentsCall}
    (h : FrameForWebContents s c.source = none) : AddNewContents.call s c = s := by
  simp [AddNewContents.call, AddNewContents, h]

theorem call_some {s : State} {c : NewContentsCall} {f : FramePtr}
    (h : FrameForWebContents s c.source = some f) :
    AddNewContents.call s c =
      { s with
        pop_cnt := wrapInt32 (s.pop_cnt + 1)
        frames := Function.update s.frames s.next_frame
          (ExoFrame.new ((s.frames f).name ++ "-" ++ decimal (wrapInt32 (s.pop_cnt + 1)))
            c.new_contents)
        next_frame := s.next_frame + 1
        trace := s.trace ++ [Event.post (Message.FrameCreated s.this_ (s.frames f).name
          c.disposition c.initial_pos s.next_frame)] } := by
  simp [AddNewContents.call, AddNewContents, h, State.post]

theorem call_effect {s : State} {c : NewContentsCall} {f : FramePtr}
    (h : FrameForWebContents s c.source = some f) (h0 : 0 ≤ s.pop_cnt)
    (h1 : s.pop_cnt + 1 < 2 ^ 31) : AddNewContents.Effect s c f := by
  have hw : wrapInt32 (s.pop_cnt + 1) = s.pop_cnt + 1 := wrapInt32_id (by omega) h1
  unfold AddNewContents.Effect
  rw [call_some h, hw]
  exact ⟨rfl, by simp [ExoFrame.new], rfl⟩

/-- The popup counter after one action: unchanged by a registry operation and
by a call whose source does not resolve, one more after a call whose source
resolves. -/
theorem run_pop_cnt {fuel : Nat} {a : Action} {as : List Action} {s s' : State}
    (h : a.run fuel s = some s') (h0 : 0 ≤ s.pop_cnt)
    (h1 : s.pop_cnt + popupCount (a :: as) < 2 ^ 31) :
    s.pop_cnt ≤ s'.pop_cnt ∧ s'.pop_cnt + popupCount as ≤ s.pop_cnt + popupCount (a :: as) := by
  cases a with
  | registry op =>
    have hq := (Op_run_quiet (show op.run fuel s = some s' from h)).1
    simp only [popupCount] at h1 ⊢
    omega
  | popup c =>
    simp only [Action.run, Option.some.injEq] at h
    subst h
    simp only [popupCount, Nat.cast_add, Nat.cast_one] at h1 ⊢
    cases hf : FrameForWebContents s c.source with
    | none => rw [call_none hf]; omega
    | some f =>
      rw [call_some hf]
      simp only
      rw [wrapInt32_id (by omega) (by omega)]
      omega

theorem eachCall_of_no_overflow (fuel : Nat) (as : List Action) (s : State)
    (h0 : 0 ≤ s.pop_cnt) (h1 : s.pop_cnt + popupCount as < 2 ^ 31) : EachCall fuel as s := by
  induction as generalizing s with
  | nil => trivial
  | cons a as ih =>
    refine ⟨?_, ?_⟩
    · cases a with
      | registry op => trivial
      | popup c =>
        intro f hf
        simp only [popupCount, Nat.cast_add, Nat.cast_one] at h1
        exact call_effect hf h0 (by omega)
    · cases hr : a.run fuel s with
      | none => trivial
      | some s' =>
        have hc := run_pop_cnt hr h0 h1
        exact ih s' (by omega) (by omega)

theorem createdNames_shape (fuel : Nat) (as : List Action) (s : State) (h0 : 0 ≤ s.pop_cnt)
    (h1 : s.pop_cnt + popupCount as < 2 ^ 31) :
    ∀ name ∈ createdNames fuel as s, ∃ p k, name = p ++ "-" ++ decimal k ∧ s.pop_cnt < k := by
  induction as generalizing s with
  | nil => intro name h; cases h
  | cons a as ih =>
    intro name hn
    simp only [createdNames] at hn
    cases hr : a.run fuel s with
    | none => rw [hr] at hn; cases hn
    | some s' =>
      rw [hr] at hn
      have hc := run_pop_cnt hr h0 h1
      rcases List.mem_append.mp hn with hn | hn
      · cases a with
        | registry op => simp [Action.createdName] at hn
        | popup c =>
          simp only [Action.run, Option.some.injEq] at hr
          subst hr
          simp only [popupCount, Nat.cast_add, Nat.cast_one] at h1
          cases hf : FrameForWebContents s c.source with
          | none => simp [Action.createdName, hf] at hn
          | some f =>
            simp only [Action.createdName, hf, Option.toList, List.mem_singleton] at hn
            rw [(call_effect (c := c) hf h0 (by omega)).2.1] at hn
            exact ⟨_, _, hn, by omega⟩
      · obtain ⟨p, k, hk1, hk2⟩ := ih s' (by omega) (by omega) name hn
        exact ⟨p, k, hk1, by omega⟩

theorem createdNames_nodup (fuel : Nat) (as : List Action) (s : State) (h0 : 0 ≤ s.pop_cnt)
    (h1 : s.pop_cnt + popupCount as < 2 ^ 31) : (createdNames fuel as s).Nodup := by
  induction as generalizing s with
  | nil => exact List.nodup_nil
  | cons a as ih =>
    simp only [createdNames]
    cases hr : a.run fuel s with
    | none => exact List.nodup_nil
    | some s' =>
      have hc := run_pop_cnt hr h0 h1
      have htail := ih s' (by omega) (by omega)
      cases a with
      | registry op => simpa [Action.createdName] using htail
      | popup c =>
        simp only [Action.run, Option.some.injEq] at hr
        subst hr
        simp only [popupCount, Nat.cast_add, Nat.cast_one] at h1 hc
        cases hf : FrameForWebContents s c.source with
        | none => simpa [Action.createdName, hf] using htail
        | some f =>
          simp only [Action.createdName, hf, Option.toList, List.singleton_append]
          refine List.nodup_cons.mpr ⟨?_, htail⟩
          intro hmem
          have heff := call_effect (c := c) hf h0 (by omega)
          obtain ⟨p, k, hk1, hk2⟩ :=
            createdNames_shape fuel as (AddNewContents.call s c) (by omega) (by omega) _ hmem
          rw [heff.2.1] at hk1
          rw [heff.1] at hk2
          exact generated_name_ne _ _ (by omega) (by omega) (by omega) hk1

theorem run_frameCreated {fuel : Nat} {a : Action} {s s' : State}
    (h : a.run fuel s = some s') :
    s'.frameCreated = s.frameCreated ++ (a.createdMessage s).toList := by
  cases a with
  | registry op =>
    simpa [Action.createdMessage] using (Op_run_quiet (show op.run fuel s = some s' from h)).2
  | popup c =>
    simp only [Action.run, Option.some.injEq] at h
    subst h
    cases hf : FrameForWebContents s c.source with
    | none => rw [call_none hf]; simp [Action.createdMessage, hf]
    | some f =>
      rw [call_some hf]
      simp [Action.createdMessage, hf, State.frameCreated, State.queue,
        List.filterMap_append, Event.message?, Message.isFrameCreated]

theorem runActions_frameCreated (fuel : Nat) (as : List Action) (s s' : State)
    (h : runActions fuel as s = some s') :
    s'.frameCreated = s.frameCreated ++ createdMessages fuel as s := by
  induction as generalizing s with
  | nil =>
    simp only [runActions, Option.some.injEq] at h
    subst h
    simp [createdMessages]
  | cons a as ih =>
    simp only [runActions] at h
    simp only [createdMessages]
    cases hr : a.run fuel s with
    | none => rw [hr] at h; cases h
    | some s1 =>
      rw [hr] at h
      simp only
      rw [ih s1 h, run_frameCreated hr, List.append_assoc]

/-- C10: take any run of registry operations and `AddNewContents` calls during
which the 32-bit popup counter, starting non-negative, does not overflow.
Every call whose source surface resolves to a frame named `p` increments the
counter to `n`, creates at the next address a frame named
`p ++ "-" ++ decimal n` with role `NOTYPE_FRAME` and no parent around the new
surface, and posts one `FrameCreated(p, disposition, initial_pos, new frame)`
task at the end of the trace. The names created during the run are pairwise
distinct, whatever the originating frames, and when the run returns, the
`FrameCreated` tasks in the queue are the earlier ones followed by those of
the resolving calls in call order. -/
theorem AddNewContents_names (fuel : Nat) (s : State) (as : List Action)
    (h0 : 0 ≤ s.pop_cnt) (h1 : s.pop_cnt + popupCount as < 2 ^ 31) :
    EachCall fuel as s ∧
    (createdNames fuel as s).Nodup ∧
    (∀ s', runActions fuel as s = some s' →
      s'.frameCreated = s.frameCreated ++ createdMessages fuel as s) :=
  ⟨eachCall_of_no_overflow fuel as s h0 h1, createdNames_nodup fuel as s h0 h1,
    fun s' h => runActions_frameCreated fuel as s s' h⟩

/-- C10 at a concrete run on a process that has opened no popup: two calls
from the frame named "p" (frame 3, a page), with a `SetControl` in between,
create the frames "p-1" and "p-2" and post two `FrameCreated` tasks in call
order. -/
theorem AddNewContents_names_witness :
    (0 ≤ sampleWindow.pop_cnt ∧ sampleWindow.pop_cnt + popupCount samplePopups < 2 ^ 31) ∧
    createdNames 0 samplePopups sampleWindow = ["p-1", "p-2"] ∧
    createdMessages 0 samplePopups sampleWindow =
      [Message.FrameCreated 7 "p" 3 { x := 0, y := 0, width := 640, height := 480 } 100,
       Message.FrameCreated 7 "p" 4 { x := 10, y := 10, width := 320, height := 240 } 101] ∧
    (runActions 0 samplePopups sampleWindow).isSome = true ∧
    (EachCall 0 samplePopups sampleWindow ∧
      (createdNames 0 samplePopups sampleWindow).Nodup ∧
      (∀ s', runActions 0 samplePopups sampleWindow = some s' →
        s'.frameCreated = sampleWindow.frameCreated ++
          createdMessages 0 samplePopups sampleWindow)) :=
  ⟨⟨by decide, by decide⟩, by decide, by decide, by decide,
    AddNewContents_names 0 sampleWindow samplePopups (by decide) (by decide)⟩

/-! ## C11: `NavigationStateChanged` -/

/-- C11: when `source` resolves to a frame, `NavigationStateChanged` posts one
`NavigationState` task, which is the only event it appends. The task carries
the name of the frame, the two availability flags of the controller and one
record per history entry, in history order: record `i` has type "error" when
entry `i` has page type `PAGE_TYPE_ERROR`, "interstitial" when it has
`PAGE_TYPE_INTERSTITIAL` and "normal" for every other page type, and is marked
visible exactly when entry `i` is the visible entry of the controller. -/
theorem NavigationStateChanged_snapshot (engine : Engine) (s : State)
    (source : WebContentsPtr) (changed_flags : Nat) (frame : FramePtr)
    (h : FrameForWebContents s source = some frame) :
    ∃ records : List WrapNavigationEntry,
      (NavigationStateChanged engine s source changed_flags).trace = s.trace ++
        [Event.post (Message.NavigationState s.this_ (s.frames frame).name records
          (engine.controller (s.frames frame).web_contents_.addr).can_go_back
          (engine.controller (s.frames frame).web_contents_.addr).can_go_forward)] ∧
      (NavigationStateChanged engine s source changed_flags).queue = s.queue ++
        [Message.NavigationState s.this_ (s.frames frame).name records
          (engine.controller (s.frames frame).web_contents_.addr).can_go_back
          (engine.controller (s.frames frame).web_contents_.addr).can_go_forward] ∧
      records.length = (engine.controller (s.frames frame).web_contents_.addr).entries.length ∧
      ∀ (i : Nat) (entry : NavigationEntry),
        (engine.controller (s.frames frame).web_contents_.addr).entries[i]? = some entry →
        ∃ r, records[i]? = some r ∧
          r.type_ = (if entry.page_type = PageType.PAGE_TYPE_ERROR then "error"
            else if entry.page_type = PageType.PAGE_TYPE_INTERSTITIAL then "interstitial"
            else "normal") ∧
          (r.visible_ = true ↔
            (engine.controller (s.frames frame).web_contents_.addr).visible_entry
              = some entry.addr) := by
  refine ⟨(engine.controller (s.frames frame).web_contents_.addr).entries.map
    (NavigationStateChanged.record (engine.controller (s.frames frame).web_contents_.addr)),
    ?_, ?_, ?_, ?_⟩
  · simp [NavigationStateChanged, h, State.post]
  · simp [NavigationStateChanged, h, State.post, State.queue, List.filterMap_append,
      Event.message?]
  · simp
  · intro i entry hi
    refine ⟨NavigationStateChanged.record
      (engine.controller (s.frames frame).web_contents_.addr) entry, ?_, ?_, ?_⟩
    · simp [List.getElem?_map, hi]
    · cases hpt : entry.page_type <;>
        simp [NavigationStateChanged.record, NavigationStateChanged.pageType, hpt]
    · simp only [NavigationStateChanged.record, decide_eq_true_eq]
      exact eq_comm

/-- C11 at the history [error, interstitial, normal (visible)]: with frame 3
registered as a page, the surface at address 13 resolves to it and the task
posted carries three records of types "error", "interstitial", "normal", of
which only the third is visible. -/
theorem NavigationStateChanged_snapshot_witness :
    FrameForWebContents (AddPage sampleWindow 3) 13 = some 3 ∧
    (NavigationStateChanged sampleEngine (AddPage sampleWindow 3) 13 0).queue.map
        (fun m => match m with
          | Message.NavigationState _ frame entries _ _ =>
            (frame, entries.map fun r => (r.type_, r.visible_))
          | _ => ("", []))
      = [("p", [("error", false), ("interstitial", false), ("normal", true)])] ∧
    ∃ records : List WrapNavigationEntry,
      (NavigationStateChanged sampleEngine (AddPage sampleWindow 3) 13 0).queue =
        (AddPage sampleWindow 3).queue ++
          [Message.NavigationState 7 "p" records true false] ∧
      records.length = 3 :=
  have h := NavigationStateChanged_snapshot sampleEngine (AddPage sampleWindow 3) 13 0 3
    (by decide)
  ⟨by decide, by decide, h.elim fun records hr => ⟨records, hr.2.1, hr.2.2.1⟩⟩

/-! ## C12: `OpenURLFromTab` -/

/-- C12: `OpenURLFromTab` leaves the registry (the three containers, the kill
flag and every frame) as it is. When the source surface resolves to a frame,
the only event is one `OpenURL(url, disposition, frame name)` task and no
engine call is made; when it resolves to no frame, the only event is the call
`LoadURL(url, referrer, transition, "")` on the source surface and no task is
posted. -/
theorem OpenURLFromTab_dispatch (s : State) (source : WebContentsPtr)
    (params : OpenURLParams) :
    (∀ frame, FrameForWebContents s source = some frame →
      (OpenURLFromTab s source params).trace = s.trace ++
        [Event.post
          (Message.OpenURL s.this_ params.url params.disposition (s.frames frame).name)] ∧
      (OpenURLFromTab s source params).queue = s.queue ++
        [Message.OpenURL s.this_ params.url params.disposition (s.frames frame).name] ∧
      (OpenURLFromTab s source params).engineCalls = s.engineCalls) ∧
    (FrameForWebContents s source = none →
      (OpenURLFromTab s source params).trace = s.trace ++
        [Event.engine
          (EngineCall.LoadURL source params.url params.referrer params.transition "")] ∧
      (OpenURLFromTab s source params).engineCalls = s.engineCalls ++
        [EngineCall.LoadURL source params.url params.referrer params.transition ""] ∧
      (OpenURLFromTab s source params).queue = s.queue) ∧
    ((OpenURLFromTab s source params).controls_ = s.controls_ ∧
      (OpenURLFromTab s source params).pages_ = s.pages_ ∧
      (OpenURLFromTab s source params).floating_ = s.floating_ ∧
      (OpenURLFromTab s source params).is_killed_ = s.is_killed_ ∧
      (OpenURLFromTab s source params).frames = s.frames) := by
  refine ⟨?_, ?_, ?_⟩
  · intro frame h
    simp [OpenURLFromTab, h, State.post, State.queue, State.engineCalls,
      List.filterMap_append, Event.message?, Event.engineCall?]
  · intro h
    simp [OpenURLFromTab, h, State.engine, State.queue, State.engineCalls,
      List.filterMap_append, Event.message?, Event.engineCall?]
  · unfold OpenURLFromTab
    cases FrameForWebContents s source <;> exact ⟨rfl, rfl, rfl, rfl, rfl⟩

/-- C12 at two concrete calls on the sample window with frame 3 registered as
a page: from the surface of frame 3 (address 13) one `OpenURL` task is posted;
from the unregistered surface at address 99 the surface is navigated. -/
theorem OpenURLFromTab_dispatch_witness :
    FrameForWebContents (AddPage sampleWindow 3) 13 = some 3 ∧
    (OpenURLFromTab (AddPage sampleWindow 3) 13 sampleParams).queue =
      (AddPage sampleWindow 3).queue ++ [Message.OpenURL 7 "https://z/next" 3 "p"] ∧
    FrameForWebContents (AddPage sampleWindow 3) 99 = none ∧
    (OpenURLFromTab (AddPage sampleWindow 3) 99 sampleParams).engineCalls =
      (AddPage sampleWindow 3).engineCalls ++
        [EngineCall.LoadURL 99 "https://z/next" { url := "https://z/", policy := 0 } 0 ""] :=
  ⟨by decide,
    ((OpenURLFromTab_dispatch (AddPage sampleWindow 3) 13 sampleParams).1 3 (by decide)).2.1,
    by decide,
    ((OpenURLFromTab_dispatch (AddPage sampleWindow 3) 99 sampleParams).2.1 (by decide)).2.1⟩

/-! ## C13: lookup misses -/

/-- C13: `UnsetControl(role)` with `role` unoccupied, `RemovePage(name)` with no
page named `name` and `HideFloating()` with no floating frame each return the
state they were called in: the containers, every frame and the trace are
unchanged, so no platform call is made and no task is posted. -/
theorem lookup_miss_is_noop (s : State) :
    (∀ role, StdMap.find role s.controls_ = none → UnsetControl s role = s) ∧
    (∀ name, StdMap.find name s.pages_ = none → RemovePage s name = s) ∧
    (s.floating_ = none → HideFloating s = s) :=
  ⟨fun _ h => UnsetControl_none h, fun _ h => RemovePage_none h, fun h => HideFloating_none h⟩

/-- C13 at the sample window with frame 1 as page "a": role 5 is unoccupied,
no page is named "zz" and no frame is floating. -/
theorem lookup_miss_is_noop_witness :
    (StdMap.find 5 (AddPage sampleWindow 1).controls_ = none ∧
      UnsetControl (AddPage sampleWindow 1) 5 = AddPage sampleWindow 1) ∧
    (StdMap.find "zz" (AddPage sampleWindow 1).pages_ = none ∧
      RemovePage (AddPage sampleWindow 1) "zz" = AddPage sampleWindow 1) ∧
    ((AddPage sampleWindow 1).floating_ = none ∧
      HideFloating (AddPage sampleWindow 1) = AddPage sampleWindow 1) :=
  ⟨⟨by decide, (lookup_miss_is_noop (AddPage sampleWindow 1)).1 5 (by decide)⟩,
    ⟨by decide, (lookup_miss_is_noop (AddPage sampleWindow 1)).2.1 "zz" (by decide)⟩,
    ⟨by decide, (lookup_miss_is_noop (AddPage sampleWindow 1)).2.2 (by decide)⟩⟩

/-! ## C14: `FrameForWebContents` -/

theorem find?_first {α : Type} {p : α → Bool} {pre post : List α} {a : α}
    (ha : p a = true) (hpre : ∀ e ∈ pre, p e = false) :
    (pre ++ a :: post).find? p = some a := by
  induction pre with
  | nil => simp [List.find?_cons, ha]
  | cons x pre ih =>
    have hx : p x = false := hpre x (List.mem_cons_self _ _)
    simp only [List.cons_append, List.find?_cons, hx]
    exact ih fun e he => hpre e (List.mem_cons_of_mem _ he)

theorem find?_none_of_forall {α : Type} {p : α → Bool} {l : List α}
    (h : ∀ e ∈ l, p e = false) : l.find? p = none := by
  rw [List.find?_eq_none]
  intro e he hp
  rw [h e he] at hp
  exact Bool.false_ne_true hp

/-- C14: `FrameForWebContents(surface)` returns the first page, in map order,
whose surface is `surface`; when no page has it, the first control, in role
order, whose surface is `surface`; when no page and no control has it, none,
whatever the floating slot holds. In that last case `CloseContents` and
`FindReply` called with that surface return the state unchanged, so they post
no task. -/
theorem FrameForWebContents_lookup (s : State) (surface : WebContentsPtr) :
    (∀ pre k p post, s.pages_ = pre ++ (k, p) :: post →
      (s.frames p).web_contents_.addr = surface →
      (∀ e ∈ pre, (s.frames e.2).web_contents_.addr ≠ surface) →
      FrameForWebContents s surface = some p) ∧
    ((∀ e ∈ s.pages_, (s.frames e.2).web_contents_.addr ≠ surface) →
      ∀ pre t c post, s.controls_ = pre ++ (t, c) :: post →
        (s.frames c).web_contents_.addr = surface →
        (∀ e ∈ pre, (s.frames e.2).web_contents_.addr ≠ surface) →
        FrameForWebContents s surface = some c) ∧
    ((∀ e ∈ s.pages_, (s.frames e.2).web_contents_.addr ≠ surface) →
      (∀ e ∈ s.controls_, (s.frames e.2).web_contents_.addr ≠ surface) →
      FrameForWebContents s surface = none ∧
      CloseContents s surface = s ∧
      ∀ request_id number_of_matches selection_rect active_match_ordinal final_update,
        FindReply s surface request_id number_of_matches selection_rect
          active_match_ordinal final_update = s) := by
  refine ⟨?_, ?_, ?_⟩
  · intro pre k p post hp ha hpre
    unfold FrameForWebContents
    rw [hp, find?_first (a := (k, p)) (by simpa using ha)
      (fun e he => by simpa using hpre e he)]
  · intro hpages pre t c post hc ha hpre
    unfold FrameForWebContents
    rw [find?_none_of_forall (fun e he => by simpa using hpages e he), hc,
      find?_first (a := (t, c)) (by simpa using ha) (fun e he => by simpa using hpre e he)]
  · intro hpages hcontrols
    have hnone : FrameForWebContents s surface = none := by
      unfold FrameForWebContents
      rw [find?_none_of_forall (fun e he => by simpa using hpages e he),
        find?_none_of_forall (fun e he => by simpa using hcontrols e he)]
    refine ⟨hnone, ?_, ?_⟩
    · simp [CloseContents, hnone]
    · intro _ _ _ _ _
      simp [FindReply, hnone]

/-- C14 at the sample window with frame 1 as page "a", frame 3 as control 0
and frame 2 floating: the surface of frame 2 (address 12) resolves to no
frame although the floating frame holds it, and `CloseContents` on it posts
nothing; the surface of frame 1 resolves to frame 1. -/
theorem FrameForWebContents_lookup_witness :
    (ShowFloating (SetControl (AddPage sampleWindow 1) 0 3) 2 0 0 10 10).floating_ = some 2 ∧
    ((ShowFloating (SetControl (AddPage sampleWindow 1) 0 3) 2 0 0 10 10).frames
      2).web_contents_.addr = 12 ∧
    FrameForWebContents (ShowFloating (SetControl (AddPage sampleWindow 1) 0 3) 2 0 0 10 10) 12
      = none ∧
    CloseContents (ShowFloating (SetControl (AddPage sampleWindow 1) 0 3) 2 0 0 10 10) 12
      = ShowFloating (SetControl (AddPage sampleWindow 1) 0 3) 2 0 0 10 10 ∧
    FrameForWebContents (ShowFloating (SetControl (AddPage sampleWindow 1) 0 3) 2 0 0 10 10) 11
      = some 1 :=
  have h := (FrameForWebContents_lookup
    (ShowFloating (SetControl (AddPage sampleWindow 1) 0 3) 2 0 0 10 10) 12).2.2
    (by decide) (by decide)
  ⟨by decide, by decide, h.1, h.2.1,
    (FrameForWebContents_lookup
      (ShowFloating (SetControl (AddPage sampleWindow 1) 0 3) 2 0 0 10 10) 11).1
      [] "a" 1 [] (by decide) (by decide) (by decide)⟩

/-! ## C17: `ShowPage` only changes visibility -/

/-- C17: whatever `name` is, `ShowPage(name)` leaves `pages_`, `controls_` and
the floating slot as they are, leaves the name, the role, the parent and the
surface address of every frame as they are, and leaves every frame that is not
registered as a page (so every control or floating frame that is not also a
page) entirely as it is, visibility included. -/
theorem ShowPage_only_visibility (s : State) (name : String) :
    (ShowPage s name).pages_ = s.pages_ ∧
    (ShowPage s name).controls_ = s.controls_ ∧
    (ShowPage s name).floating_ = s.floating_ ∧
    (∀ q, ((ShowPage s name).frames q).type_ = (s.frames q).type_ ∧
      ((ShowPage s name).frames q).parent_ = (s.frames q).parent_ ∧
      ((ShowPage s name).frames q).name = (s.frames q).name ∧
      ((ShowPage s name).frames q).web_contents_.addr = (s.frames q).web_contents_.addr) ∧
    (∀ q, ¬ IsPage s q → (ShowPage s name).frames q = s.frames q) := by
  cases hfind : StdMap.find name s.pages_ with
  | none =>
    rw [ShowPage_none hfind]
    exact ⟨rfl, rfl, rfl, fun _ => ⟨rfl, rfl, rfl, rfl⟩, fun _ _ => rfl⟩
  | some p =>
    have hp : IsPage s p := StdMap.mem_values_of_find hfind
    rw [ShowPage_some hfind]
    refine ⟨rfl, rfl, rfl, ?_, ?_⟩
    · intro q
      simp only
      split_ifs with h1 h2
      · subst h1; exact ⟨rfl, rfl, rfl, rfl⟩
      · exact ⟨rfl, rfl, rfl, rfl⟩
      · exact ⟨rfl, rfl, rfl, rfl⟩
    · intro q hq
      have hne : q ≠ p := fun h => hq (h ▸ hp)
      have hq' : q ∉ StdMap.values s.pages_ := hq
      simp only [if_neg hne, if_neg hq']

/-- C17 at a concrete state: pages "a" and "b", frame 3 shown as control 0;
`ShowPage("b")` leaves the control frame as it is. -/
theorem ShowPage_only_visibility_witness :
    ¬ IsPage (SetControl (AddPage (AddPage sampleWindow 1) 2) 0 3) 3 ∧
    (ShowPage (SetControl (AddPage (AddPage sampleWindow 1) 2) 0 3) "b").frames 3
      = (SetControl (AddPage (AddPage sampleWindow 1) 2) 0 3).frames 3 ∧
    (ShowPage (SetControl (AddPage (AddPage sampleWindow 1) 2) 0 3) "b").pages_
      = (SetControl (AddPage (AddPage sampleWindow 1) 2) 0 3).pages_ :=
  have h := ShowPage_only_visibility (SetControl (AddPage (AddPage sampleWindow 1) 2) 0 3) "b"
  ⟨by decide, h.2.2.2.2 3 (by decide), h.1⟩

/-! ## C20: round trips -/

theorem StdMap.erase_assign {K V : Type} [DecidableEq K] [Less K] [LawfulLess K] {k : K}
    (v : V) {m : StdMap K V} (h : StdMap.find k m = none) :
    StdMap.erase k (StdMap.assign k v m) = m := by
  induction m with
  | nil => simp [StdMap.assign, StdMap.erase]
  | cons e m ih =>
    obtain ⟨k', v'⟩ := e
    simp only [StdMap.find] at h
    split_ifs at h with hk
    simp only [StdMap.assign]
    split_ifs with h1 h2
    · simp [StdMap.erase]
    · simp only [StdMap.erase, if_neg hk, ih h]
    · exact absurd (LawfulLess.total k k' (by simpa using h1) (by simpa using h2)).symm hk

theorem detach_eq_of_detached (fr' : ExoFrame) {fr : ExoFrame} (hd : Detached fr)
    (hh : fr.web_contents_.shown = false) (hn : fr'.name = fr.name)
    (ha : fr'.web_contents_.addr = fr.web_contents_.addr) : fr'.detach = fr := by
  obtain ⟨name, type_, parent_, ⟨addr, shown⟩⟩ := fr
  obtain ⟨name', type', parent', ⟨addr', shown'⟩⟩ := fr'
  obtain ⟨h1, h2⟩ := hd
  simp only at h1 h2 hh hn ha
  subst h1; subst h2; subst hh; subst hn; subst ha
  rfl

theorem update_update_same (frames : FramePtr → ExoFrame) (f : FramePtr) (a : ExoFrame) :
    Function.update (Function.update frames f a) f (frames f) = frames := by
  funext q
  by_cases h : q = f
  · subst h; simp
  · simp [Function.update_noteq h]

/-- C20: let `f` be a frame with role `NOTYPE_FRAME`, no parent and a hidden
surface. If role `t` is unoccupied, `SetControl(t, f)` then `UnsetControl(t)`
restores the three containers and the whole heap of frames, so `f` is again
detached and hidden. If no page is named as `f` is, `AddPage(f)` then
`RemovePage` of that name does the same. If no frame is floating,
`ShowFloating(f, ..)` then `HideFloating()` does the same, the floating slot
being empty again. -/
theorem round_trips (s : State) (f : FramePtr) (hd : Detached (s.frames f))
    (hh : (s.frames f).web_contents_.shown = false) :
    (∀ t, StdMap.find t s.controls_ = none →
      (UnsetControl (SetControl s t f) t).controls_ = s.controls_ ∧
      (UnsetControl (SetControl s t f) t).pages_ = s.pages_ ∧
      (UnsetControl (SetControl s t f) t).floating_ = s.floating_ ∧
      (UnsetControl (SetControl s t f) t).frames = s.frames ∧
      Detached ((UnsetControl (SetControl s t f) t).frames f) ∧
      ((UnsetControl (SetControl s t f) t).frames f).web_contents_.shown = false) ∧
    (StdMap.find (s.frames f).name s.pages_ = none →
      (RemovePage (AddPage s f) (s.frames f).name).controls_ = s.controls_ ∧
      (RemovePage (AddPage s f) (s.frames f).name).pages_ = s.pages_ ∧
      (RemovePage (AddPage s f) (s.frames f).name).floating_ = s.floating_ ∧
      (RemovePage (AddPage s f) (s.frames f).name).frames = s.frames ∧
      Detached ((RemovePage (AddPage s f) (s.frames f).name).frames f) ∧
      ((RemovePage (AddPage s f) (s.frames f).name).frames f).web_contents_.shown = false) ∧
    (s.floating_ = none → ∀ x y w h,
      (HideFloating (ShowFloating s f x y w h)).controls_ = s.controls_ ∧
      (HideFloating (ShowFloating s f x y w h)).pages_ = s.pages_ ∧
      (HideFloating (ShowFloating s f x y w h)).floating_ = none ∧
      (HideFloating (ShowFloating s f x y w h)).frames = s.frames ∧
      Detached ((HideFloating (ShowFloating s f x y w h)).frames f) ∧
      ((HideFloating (ShowFloating s f x y w h)).frames f).web_contents_.shown = false) := by
  refine ⟨?_, ?_, ?_⟩
  · intro t ht
    have hfind : StdMap.find t (SetControl s t f).controls_ = some f := by
      rw [SetControl_eq]; simp [StdMap.find_assign]
    have hframes : (UnsetControl (SetControl s t f) t).frames = s.frames := by
      rw [UnsetControl_some hfind, SetControl_eq]
      simp only [Function.update_same]
      rw [detach_eq_of_detached ((s.frames f).attach FRAME_TYPE.CONTROL_FRAME s.this_) hd hh rfl rfl, update_update_same]
    refine ⟨?_, ?_, ?_, hframes, ?_, ?_⟩
    · rw [UnsetControl_some hfind, SetControl_eq]
      exact StdMap.erase_assign f ht
    · rw [UnsetControl_some hfind, SetControl_eq]
    · rw [UnsetControl_some hfind, SetControl_eq]
    · rw [hframes]; exact hd
    · rw [hframes]; exact hh
  · intro hn
    have hname : ((AddPage s f).frames f).name = (s.frames f).name := by
      rw [AddPage_eq]; simp
    have hfind : StdMap.find (s.frames f).name (AddPage s f).pages_ = some f := by
      rw [AddPage_eq]; simp [StdMap.find_assign]
    have hframes : (RemovePage (AddPage s f) (s.frames f).name).frames = s.frames := by
      rw [RemovePage_some hfind, AddPage_eq]
      simp only [Function.update_same]
      rw [detach_eq_of_detached (ExoFrame.mk (s.frames f).name FRAME_TYPE.PAGE_FRAME (some s.this_)
        (s.frames f).web_contents_) hd hh rfl rfl, update_update_same]
    refine ⟨?_, ?_, ?_, hframes, ?_, ?_⟩
    · rw [RemovePage_some hfind, AddPage_eq]
    · rw [RemovePage_some hfind, AddPage_eq]
      exact StdMap.erase_assign f hn
    · rw [RemovePage_some hfind, AddPage_eq]
    · rw [hframes]; exact hd
    · rw [hframes]; exact hh
  · intro hf x y w h
    have hshow : ShowFloating s f x y w h =
        { s with
          floating_ := some f
          frames := Function.update s.frames f
            ((s.frames f).attach FRAME_TYPE.FLOATING_FRAME s.this_)
          trace := s.trace ++ [Event.platform (PlatformCall.ShowFloating f x y w h)] } := by
      rw [ShowFloating_eq, HideFloating_none hf]
    have hfl : (ShowFloating s f x y w h).floating_ = some f := by rw [hshow]
    have hframes : (HideFloating (ShowFloating s f x y w h)).frames = s.frames := by
      rw [HideFloating_some hfl, hshow]
      simp only [Function.update_same]
      rw [detach_eq_of_detached ((s.frames f).attach FRAME_TYPE.FLOATING_FRAME s.this_) hd hh rfl rfl, update_update_same]
    refine ⟨?_, ?_, ?_, hframes, ?_, ?_⟩
    · rw [HideFloating_some hfl, hshow]
    · rw [HideFloating_some hfl, hshow]
    · rw [HideFloating_some hfl]
    · rw [hframes]; exact hd
    · rw [hframes]; exact hh

/-- C20 at the sample window with frame 1 as page "a": frame 2 is detached and
hidden, role 0 is unoccupied, no page is named "b" and no frame is floating. -/
theorem round_trips_witness :
    (Detached ((AddPage sampleWindow 1).frames 2) ∧
      ((AddPage sampleWindow 1).frames 2).web_contents_.shown = false) ∧
    (StdMap.find 0 (AddPage sampleWindow 1).controls_ = none ∧
      (UnsetControl (SetControl (AddPage sampleWindow 1) 0 2) 0).controls_
        = (AddPage sampleWindow 1).controls_) ∧
    (StdMap.find ((AddPage sampleWindow 1).frames 2).name (AddPage sampleWindow 1).pages_
        = none ∧
      (RemovePage (AddPage (AddPage sampleWindow 1) 2)
        ((AddPage sampleWindow 1).frames 2).name).pages_ = (AddPage sampleWindow 1).pages_) ∧
    ((AddPage sampleWindow 1).floating_ = none ∧
      (HideFloating (ShowFloating (AddPage sampleWindow 1) 2 0 0 10 10)).floating_ = none) :=
  have h := round_trips (AddPage sampleWindow 1) 2 ⟨rfl, rfl⟩ rfl
  ⟨⟨⟨rfl, rfl⟩, rfl⟩, ⟨by decide, (h.1 0 (by decide)).1⟩, ⟨by decide, (h.2.1 (by decide)).2.1⟩,
    ⟨by decide, (h.2.2 (by decide) 0 0 10 10).2.2.1⟩⟩

/-! ## C16: `AddPage` on a name already registered -/

theorem StdMap.length_assign_of_find {K V : Type} [DecidableEq K] [Less K] [LawfulLess K]
    {k : K} {v : V} (w : V) {m : StdMap K V} (ho : StdMap.Ordered m)
    (h : StdMap.find k m = some v) : (StdMap.assign k w m).length = m.length := by
  induction m with
  | nil => simp [StdMap.find] at h
  | cons e m ih =>
    obtain ⟨k', v'⟩ := e
    simp only [StdMap.assign]
    by_cases h1 : Less.less k k' = true
    · exfalso
      have hmem := StdMap.mem_keys_of_mem (StdMap.mem_of_find h)
      rcases List.mem_cons.mp hmem with hk | hk
      · simp only at hk
        rw [hk, LawfulLess.irrefl] at h1
        exact Bool.false_ne_true h1
      · have h2 : Less.less k' k = true := ho.head_lt k hk
        have h3 := LawfulLess.trans k k' k h1 h2
        rw [LawfulLess.irrefl] at h3
        exact Bool.false_ne_true h3
    · rw [if_neg h1]
      by_cases h2 : Less.less k' k = true
      · rw [if_pos h2]
        have hne : k' ≠ k := by
          intro hk
          rw [hk, LawfulLess.irrefl] at h2
          exact Bool.false_ne_true h2
        simp only [StdMap.find, if_neg hne] at h
        simp only [List.length_cons, ih ho.tail h]
      · rw [if_neg h2]
        simp

/-- C16: take a state in which both maps are ordered by key and pages are
keyed by the name of their frame (as in every reachable state), a page `old`
registered under the name `n` of a frame `f` different from `old`, with `old`
having role `PAGE_FRAME` and the window as parent. `AddPage(f)` makes `n` map
to `f`, keeps the number of pages, and does not detach `old`: the frame `old`
is exactly as before, so still with role `PAGE_FRAME` and the window as
parent, although it is no longer in `pages_`; the only platform call is
`AddPage(f)`, so no `RemovePage` is issued for `old`. -/
theorem AddPage_collision (s : State) (old f : FramePtr) (hinv : RegistryInv s)
    (hold : StdMap.find (s.frames f).name s.pages_ = some old) (hne : f ≠ old)
    (hrole : (s.frames old).type_ = FRAME_TYPE.PAGE_FRAME ∧
      (s.frames old).parent_ = some s.this_) :
    StdMap.find (s.frames f).name (AddPage s f).pages_ = some f ∧
    (AddPage s f).pages_.length = s.pages_.length ∧
    ¬ IsPage (AddPage s f) old ∧
    (AddPage s f).frames old = s.frames old ∧
    ((AddPage s f).frames old).type_ = FRAME_TYPE.PAGE_FRAME ∧
    ((AddPage s f).frames old).parent_ = some (AddPage s f).this_ ∧
    (AddPage s f).trace = s.trace ++ [Event.platform (PlatformCall.AddPage f)] := by
  have hfr : (AddPage s f).frames old = s.frames old := by
    rw [AddPage_eq]
    exact Function.update_noteq (Ne.symm hne) _ _
  have hfind : StdMap.find (s.frames f).name (AddPage s f).pages_ = some f := by
    rw [AddPage_eq]; simp [StdMap.find_assign]
  refine ⟨hfind, ?_, ?_, hfr, ?_, ?_, ?_⟩
  · rw [AddPage_eq]
    exact StdMap.length_assign_of_find f hinv.1 hold
  · intro hp
    have hinv' := RegistryInv_AddPage hinv f
    obtain ⟨e, he, he2⟩ := List.mem_map.mp hp
    have hkey : e.1 = (s.frames f).name := by
      have h1 := hinv'.2.2 e he
      have h2 := hinv.2.2 _ (StdMap.mem_of_find hold)
      simp only at h2
      rw [← h1, he2, hfr, h2]
    have h3 := StdMap.find_of_mem hinv'.1 he
    rw [hkey, hfind, he2] at h3
    exact hne (Option.some.inj h3)
  · rw [hfr]; exact hrole.1
  · rw [hfr, AddPage_eq]; exact hrole.2
  · rw [AddPage_eq]

/-- C16 at a concrete state: frame 5 is named "c", as is frame 4, which is
registered as page "c" on the sample window; `AddPage(frame 5)` replaces the
entry and leaves frame 4 with role `PAGE_FRAME`. -/
theorem AddPage_collision_witness :
    StdMap.find ((AddPage sampleWindow 4).frames 5).name (AddPage sampleWindow 4).pages_
      = some 4 ∧
    (5 : FramePtr) ≠ 4 ∧
    StdMap.find "c" (AddPage (AddPage sampleWindow 4) 5).pages_ = some 5 ∧
    (AddPage (AddPage sampleWindow 4) 5).pages_.length = (AddPage sampleWindow 4).pages_.length ∧
    ¬ IsPage (AddPage (AddPage sampleWindow 4) 5) 4 ∧
    ((AddPage (AddPage sampleWindow 4) 5).frames 4).type_ = FRAME_TYPE.PAGE_FRAME :=
  have hr : ReachableBy anyOp sampleWindow (AddPage sampleWindow 4) :=
    ReachableBy.step (Op.AddPage 4) 0 ReachableBy.init trivial rfl
  have h := AddPage_collision (AddPage sampleWindow 4) 4 5
    (RegistryInv_of_reachable (by decide) hr) (by decide) (by decide) (by decide)
  ⟨by decide, by decide, h.1, h.2.1, h.2.2.1, h.2.2.2.2.1⟩

/-! ## C18: `Kill` terminates after as many iterations as there are entries -/

theorem PagesKeyed_RemovePage_head {t : State} {k : String} {f : FramePtr}
    {rest : StdMap String FramePtr} (hk : PagesKeyed t) (hp : t.pages_ = (k, f) :: rest) :
    (RemovePage t (t.frames f).name).pages_ = rest ∧
    PagesKeyed (RemovePage t (t.frames f).name) := by
  have hname : (t.frames f).name = k := hk (k, f) (by rw [hp]; exact List.mem_cons_self _ _)
  have hfind : StdMap.find k t.pages_ = some f := by rw [hp]; simp
  rw [hname, RemovePage_some hfind]
  have herase : StdMap.erase k t.pages_ = rest := by rw [hp]; simp [StdMap.erase]
  refine ⟨herase, ?_⟩
  intro e he
  simp only at he ⊢
  rw [herase] at he
  have := hk e (by rw [hp]; exact List.mem_cons_of_mem _ he)
  by_cases hq : e.2 = f
  · rw [hq, Function.update_same, detach_name, ← hq]; exact this
  · rw [Function.update_noteq hq]; exact this

theorem UnsetControl_head {t : State} {k : CONTROL_TYPE} {c : FramePtr}
    {rest : StdMap CONTROL_TYPE FramePtr} (hp : t.controls_ = (k, c) :: rest) :
    (UnsetControl t k).controls_ = rest ∧ (UnsetControl t k).pages_ = t.pages_ := by
  have hfind : StdMap.find k t.controls_ = some c := by rw [hp]; simp
  rw [UnsetControl_some hfind]
  exact ⟨by rw [hp]; simp [StdMap.erase], rfl⟩

theorem drainPages_short (fuel : Nat) (s : State) (hk : PagesKeyed s)
    (hfuel : fuel < s.pages_.length) : Kill.drainPages fuel s = none := by
  induction fuel generalizing s with
  | zero =>
    unfold Kill.drainPages
    cases hp : s.pages_ with
    | nil => rw [hp] at hfuel; simp at hfuel
    | cons e m => rfl
  | succ n ih =>
    unfold Kill.drainPages
    cases hp : s.pages_ with
    | nil => rw [hp] at hfuel; simp at hfuel
    | cons e m =>
      obtain ⟨k, f⟩ := e
      have h := PagesKeyed_RemovePage_head hk hp
      simp only
      apply ih _ h.2
      rw [h.1]
      rw [hp] at hfuel
      simp only [List.length_cons] at hfuel
      omega

theorem drainControls_short (fuel : Nat) (s : State)
    (hfuel : fuel < s.controls_.length) : Kill.drainControls fuel s = none := by
  induction fuel generalizing s with
  | zero =>
    unfold Kill.drainControls
    cases hp : s.controls_ with
    | nil => rw [hp] at hfuel; simp at hfuel
    | cons e m => rfl
  | succ n ih =>
    unfold Kill.drainControls
    cases hp : s.controls_ with
    | nil => rw [hp] at hfuel; simp at hfuel
    | cons e m =>
      obtain ⟨k, c⟩ := e
      have h := UnsetControl_head hp
      simp only
      apply ih
      rw [h.1]
      rw [hp] at hfuel
      simp only [List.length_cons] at hfuel
      omega

theorem Kill_isSome_iff (fuel : Nat) (s : State) (hk : PagesKeyed s) :
    (Kill fuel s).isSome = true ↔ s.pages_.length ≤ fuel ∧ s.controls_.length ≤ fuel := by
  constructor
  · intro h
    by_contra hn
    have hnone : Kill fuel s = none := by
      unfold Kill
      simp only
      by_cases hp : s.pages_.length ≤ fuel
      · have hc : fuel < s.controls_.length := by omega
        rw [drainPages_keyed fuel { s with is_killed_ := true } hk hp]
        simp only
        rw [drainControls_short fuel _ (by exact hc)]
      · rw [drainPages_short fuel { s with is_killed_ := true } hk (by simpa using hp)]
    rw [hnone] at h
    exact Bool.false_ne_true h
  · intro h
    rw [Kill_keyed fuel s hk h.1 h.2]
    rfl

theorem filterMap_some_eq_map {α β : Type} (f : α → β) (l : List α) :
    l.filterMap (fun x => some (f x)) = l.map f := by
  induction l with
  | nil => rfl
  | cons a l ih => simp [List.filterMap_cons, ih]

theorem platformCalls_drainEvents (s : State) :
    (drainEvents s).filterMap Event.call? =
      (s.pages_.map fun e => PlatformCall.RemovePage e.2) ++
      (s.controls_.map fun e => PlatformCall.UnsetControl e.1 e.2) := by
  simp only [drainEvents, List.filterMap_append, List.filterMap_map, Function.comp_def,
    Event.call?, filterMap_some_eq_map]

/-- C18: in every state reached from a fresh window by the public registry
operations, each entry of `pages_` is keyed by the name of the frame it holds.
In any state with that property an iteration of the first loop of `Kill`
removes exactly the first entry of `pages_` and keeps the property, and in any
state an iteration of the second loop removes exactly the first entry of
`controls_`. So `Kill` returns exactly when the first loop may run
`|pages_|` iterations and the second `|controls_|`, and it then has issued
one platform `RemovePage` per page, then one platform `UnsetControl` per
control, then the platform `Kill`. -/
theorem Kill_terminates_exactly (s0 s : State) (h0 : Fresh s0)
    (hr : ReachableBy anyOp s0 s) :
    PagesKeyed s ∧
    (∀ t : State, PagesKeyed t → ∀ k f rest, t.pages_ = (k, f) :: rest →
      (RemovePage t (t.frames f).name).pages_ = rest ∧
      PagesKeyed (RemovePage t (t.frames f).name)) ∧
    (∀ (t : State) k c rest, t.controls_ = (k, c) :: rest →
      (UnsetControl t k).controls_ = rest) ∧
    (∀ fuel, (Kill fuel s).isSome = true ↔
      s.pages_.length ≤ fuel ∧ s.controls_.length ≤ fuel) ∧
    (∀ fuel s', Kill fuel s = some s' →
      s'.platformCalls = s.platformCalls ++
        (s.pages_.map fun e => PlatformCall.RemovePage e.2) ++
        (s.controls_.map fun e => PlatformCall.UnsetControl e.1 e.2) ++
        [PlatformCall.Kill]) := by
  have hk := (RegistryInv_of_reachable h0 hr).2.2
  refine ⟨hk, fun t ht k f rest hp => PagesKeyed_RemovePage_head ht hp,
    fun t k c rest hp => (UnsetControl_head hp).1, fun fuel => Kill_isSome_iff fuel s hk, ?_⟩
  intro fuel s' hs'
  have hsome : (Kill fuel s).isSome = true := by rw [hs']; rfl
  have hb := (Kill_isSome_iff fuel s hk).mp hsome
  rw [Kill_keyed fuel s hk hb.1 hb.2] at hs'
  simp only [Option.some.injEq] at hs'
  subst hs'
  simp only [State.platformCalls, List.filterMap_append, platformCalls_drainEvents,
    List.append_assoc]
  simp [Event.call?]

/-- C18 at the window with two pages and one control: `Kill` needs fuel 2
(two iterations of the first loop), and returns with it. -/
theorem Kill_terminates_exactly_witness :
    Fresh sampleWindow ∧
    ReachableBy anyOp sampleWindow (SetControl (AddPage (AddPage sampleWindow 1) 2) 0 3) ∧
    PagesKeyed (SetControl (AddPage (AddPage sampleWindow 1) 2) 0 3) ∧
    (Kill 1 (SetControl (AddPage (AddPage sampleWindow 1) 2) 0 3)).isSome = false ∧
    ((Kill 2 (SetControl (AddPage (AddPage sampleWindow 1) 2) 0 3)).isSome = true ↔
      (SetControl (AddPage (AddPage sampleWindow 1) 2) 0 3).pages_.length ≤ 2 ∧
      (SetControl (AddPage (AddPage sampleWindow 1) 2) 0 3).controls_.length ≤ 2) :=
  have hr : ReachableBy anyOp sampleWindow
      (SetControl (AddPage (AddPage sampleWindow 1) 2) 0 3) :=
    ReachableBy.step (Op.SetControl 0 3) 0
      (ReachableBy.step (Op.AddPage 2) 0
        (ReachableBy.step (Op.AddPage 1) 0 ReachableBy.init trivial rfl) trivial rfl)
      trivial rfl
  have h := Kill_terminates_exactly sampleWindow _ (by decide) hr
  ⟨by decide, hr, h.1, by decide, h.2.2.2.1 2⟩

/-! ## C19: `Kill` does not read `is_killed_` -/

theorem RegistryInv_of_reachable_from {P : State → Op → Prop} {s0 s : State}
    (h0 : RegistryInv s0) (hr : ReachableBy P s0 s) : RegistryInv s := by
  induction hr with
  | init => exact h0
  | step op fuel _ _ hrun ih =>
    cases op with
    | Kill => exact RegistryInv_Kill ih hrun
    | SetControl type f =>
      simp only [Op.run, Option.some.injEq] at hrun
      subst hrun; exact RegistryInv_SetControl ih _ _
    | UnsetControl type =>
      simp only [Op.run, Option.some.injEq] at hrun
      subst hrun; exact RegistryInv_UnsetControl ih _
    | SetControlDimension type size =>
      simp only [Op.run, Option.some.injEq] at hrun
      subst hrun; exact ih
    | ShowFloating f x y w h =>
      simp only [Op.run, Option.some.injEq] at hrun
      subst hrun; exact RegistryInv_ShowFloating ih _ _ _ _ _
    | HideFloating =>
      simp only [Op.run, Option.some.injEq] at hrun
      subst hrun; exact RegistryInv_HideFloating ih
    | AddPage f =>
      simp only [Op.run, Option.some.injEq] at hrun
      subst hrun; exact RegistryInv_AddPage ih _
    | RemovePage name =>
      simp only [Op.run, Option.some.injEq] at hrun
      subst hrun; exact RegistryInv_RemovePage ih _
    | ShowPage name =>
      simp only [Op.run, Option.some.injEq] at hrun
      subst hrun; exact RegistryInv_ShowPage ih _
    | RemoveFrame name =>
      simp only [Op.run, Option.some.injEq] at hrun
      subst hrun; exact RegistryInv_RemoveFrame ih _

theorem Kill_drained (fuel : Nat) (s : State) (hp : s.pages_ = []) (hc : s.controls_ = []) :
    Kill fuel s = some
      { s with
        is_killed_ := true
        trace := s.trace ++
          [Event.platform PlatformCall.Kill, Event.post (Message.Kill s.this_)] } := by
  have hk : PagesKeyed s := by
    intro e he
    rw [hp] at he
    cases he
  rw [Kill_keyed fuel s hk (by rw [hp]; exact Nat.zero_le _) (by rw [hc]; exact Nat.zero_le _)]
  simp only [Option.some.injEq, drainEvents, hp, hc, List.map_nil, List.append_nil, IsPage,
    IsControl, StdMap.values, List.not_mem_nil, or_self, if_false]

theorem KillTimes_drained (fuel k : Nat) (s : State) (hp : s.pages_ = [])
    (hc : s.controls_ = []) :
    ∃ s', KillTimes fuel k s = some s' ∧
      s'.queue = s.queue ++ List.replicate k (Message.Kill s.this_) ∧
      s'.platformCalls = s.platformCalls ++ List.replicate k PlatformCall.Kill := by
  induction k generalizing s with
  | zero => exact ⟨s, rfl, by simp, by simp⟩
  | succ k ih =>
    simp only [KillTimes, Kill_drained fuel s hp hc]
    obtain ⟨s', h1, h2, h3⟩ := ih
      { s with
        is_killed_ := true
        trace := s.trace ++
          [Event.platform PlatformCall.Kill, Event.post (Message.Kill s.this_)] } hp hc
    refine ⟨s', h1, ?_, ?_⟩
    · rw [h2]
      simp [State.queue, List.filterMap_append, Event.message?, List.replicate_succ]
    · rw [h3]
      simp [State.platformCalls, List.filterMap_append, Event.call?, List.replicate_succ]

/-- C19: `Kill()` does not read the kill flag: whatever value `is_killed_` has,
`Kill()` runs the same. In a state whose pages are keyed by the name of their
frame, calling `Kill()` `k` times in a row (`k ≥ 1`) returns, adds exactly `k`
`Kill` tasks to the queue and, after the platform calls of the two drains of
the first call (none of which is `Kill`), exactly `k` platform `Kill` calls.
And after a first `Kill()`, whatever registry operations follow, a later
`Kill()` returns, empties `pages_` and `controls_` again, detaches every frame
that had been added as a page or a control in between, and posts one more
`Kill` task. -/
theorem Kill_ignores_flag (s : State) (fuel : Nat) (hk : PagesKeyed s)
    (hp : s.pages_.length ≤ fuel) (hc : s.controls_.length ≤ fuel) :
    (∀ b, Kill fuel { s with is_killed_ := b } = Kill fuel s) ∧
    (∀ k, 1 ≤ k → ∃ s', KillTimes fuel k s = some s' ∧
      s'.queue = s.queue ++ List.replicate k (Message.Kill s.this_) ∧
      s'.platformCalls = s.platformCalls ++ (drainEvents s).filterMap Event.call? ++
        List.replicate k PlatformCall.Kill ∧
      PlatformCall.Kill ∉ (drainEvents s).filterMap Event.call?) ∧
    (∃ s1, Kill fuel s = some s1 ∧ s1.is_killed_ = true ∧
      ∀ s2, ReachableBy anyOp s1 s2 → ∀ fuel2, s2.pages_.length ≤ fuel2 →
        s2.controls_.length ≤ fuel2 →
        ∃ s3, Kill fuel2 s2 = some s3 ∧ s3.pages_ = [] ∧ s3.controls_ = [] ∧
          (∀ f, IsPage s2 f ∨ IsControl s2 f → Detached (s3.frames f)) ∧
          s3.queue = s2.queue ++ [Message.Kill s2.this_]) := by
  refine ⟨fun b => rfl, ?_, ?_⟩
  · intro k hk1
    obtain ⟨k, rfl⟩ : ∃ j, k = j + 1 := ⟨k - 1, by omega⟩
    simp only [KillTimes, Kill_keyed fuel s hk hp hc]
    obtain ⟨s', h1, h2, h3⟩ := KillTimes_drained fuel k
      { s with
        is_killed_ := true
        pages_ := []
        controls_ := []
        frames := fun q =>
          if IsPage s q ∨ IsControl s q then (s.frames q).detach else s.frames q
        trace := s.trace ++ drainEvents s ++
          [Event.platform PlatformCall.Kill, Event.post (Message.Kill s.this_)] } rfl rfl
    refine ⟨s', h1, ?_, ?_, ?_⟩
    · rw [h2]
      simp [State.queue, List.filterMap_append, Event.message?, List.replicate_succ,
        queue_drainEvents]
    · rw [h3]
      simp [State.platformCalls, List.filterMap_append, Event.call?, List.replicate_succ]
    · rw [platformCalls_drainEvents]
      simp
  · refine ⟨_, Kill_keyed fuel s hk hp hc, rfl, ?_⟩
    intro s2 hr fuel2 hp2 hc2
    have hinv1 : RegistryInv
        { s with
          is_killed_ := true
          pages_ := []
          controls_ := []
          frames := fun q =>
            if IsPage s q ∨ IsControl s q then (s.frames q).detach else s.frames q
          trace := s.trace ++ drainEvents s ++
            [Event.platform PlatformCall.Kill, Event.post (Message.Kill s.this_)] } :=
      ⟨StdMap.ordered_nil, StdMap.ordered_nil, fun e he => by cases he⟩
    have hinv2 := RegistryInv_of_reachable_from hinv1 hr
    refine ⟨_, Kill_keyed fuel2 s2 hinv2.2.2 hp2 hc2, rfl, rfl, ?_, ?_⟩
    · intro f hf
      simp only [hf, if_true]
      exact detach_detached _
    · simp [State.queue, List.filterMap_append, Event.message?, queue_drainEvents]

/-- C19 at a concrete run on the sample window with page "a": `Kill()` three
times adds three `Kill` tasks and three platform `Kill` calls; and after
`Kill()`, `AddPage(frame 2)`, a second `Kill()` drains frame 2. -/
theorem Kill_ignores_flag_witness :
    (PagesKeyed (AddPage sampleWindow 1) ∧ (AddPage sampleWindow 1).pages_.length ≤ 1 ∧
      (AddPage sampleWindow 1).controls_.length ≤ 1) ∧
    (∃ s', KillTimes 1 3 (AddPage sampleWindow 1) = some s' ∧
      s'.queue = (AddPage sampleWindow 1).queue ++ List.replicate 3 (Message.Kill 7)) ∧
    ((Kill 1 (AddPage sampleWindow 1)).bind fun s1 => Kill 1 (AddPage s1 2)).map
        (fun s3 => (s3.pages_, (s3.frames 2).type_, s3.queue))
      = some ([], FRAME_TYPE.NOTYPE_FRAME, [Message.Kill 7, Message.Kill 7]) :=
  have hr : ReachableBy anyOp sampleWindow (AddPage sampleWindow 1) :=
    ReachableBy.step (Op.AddPage 1) 0 ReachableBy.init trivial rfl
  have hk : PagesKeyed (AddPage sampleWindow 1) :=
    (RegistryInv_of_reachable (by decide) hr).2.2
  have h := Kill_ignores_flag (AddPage sampleWindow 1) 1 hk (by decide) (by decide)
  ⟨⟨hk, by decide, by decide⟩,
    (h.2.1 3 (by decide)).elim fun s' hs => ⟨s', hs.1, hs.2.1⟩, by decide⟩

/-! ## C15: `KillAll` -/

theorem count_Kill_drainEvents (s : State) :
    ((drainEvents s).filterMap Event.call?).count PlatformCall.Kill = 0 := by
  rw [platformCalls_drainEvents, List.count_eq_zero]
  simp

/-- One iteration of the loop of `KillAll`, on a window whose pages are keyed
by the name of their frame. -/
theorem KillAll_step (fuel : Nat) (w : World) (b : BrowserPtr)
    (hk : PagesKeyed (w.window b)) (hp : (w.window b).pages_.length ≤ fuel)
    (hc : (w.window b).controls_.length ≤ fuel) :
    ∃ s, Kill fuel (w.window b) = some s ∧
      (w.store s).s_instances = w.s_instances ∧
      (w.store s).browsers = Function.update w.browsers b
        { controls_ := [], pages_ := [], floating_ := (w.browsers b).floating_,
          is_killed_ := true } ∧
      (∀ q, ((w.store s).frames q).name = (w.frames q).name) ∧
      (w.store s).queue = w.queue ++ [Message.Kill b] ∧
      (w.store s).platformCalls.count PlatformCall.Kill
        = w.platformCalls.count PlatformCall.Kill + 1 := by
  refine ⟨_, Kill_keyed fuel (w.window b) hk hp hc, rfl, rfl, ?_, ?_, ?_⟩
  · intro q
    simp only [World.store, World.window]
    split_ifs <;> rfl
  · simp [World.store, World.window, World.queue, List.filterMap_append, Event.message?,
      queue_drainEvents]
  · have h0 := count_Kill_drainEvents (w.window b)
    simp only [World.store, World.window, World.platformCalls, List.filterMap_append,
      List.count_append] at h0 ⊢
    rw [h0]
    simp [Event.call?]

theorem KillAll_loop_spec (fuel : Nat) (l : List BrowserPtr) (w : World)
    (h : ∀ b ∈ l, PagesKeyed (w.window b) ∧ (w.window b).pages_.length ≤ fuel ∧
      (w.window b).controls_.length ≤ fuel) :
    ∃ w', KillAll.loop fuel l w = some w' ∧
      w'.s_instances = w.s_instances ∧
      (∀ b ∈ l, (w'.browsers b).pages_ = [] ∧ (w'.browsers b).controls_ = [] ∧
        (w'.browsers b).is_killed_ = true) ∧
      (∀ b, b ∉ l → w'.browsers b = w.browsers b) ∧
      (∀ q, (w'.frames q).name = (w.frames q).name) ∧
      w'.queue = w.queue ++ l.map Message.Kill ∧
      w'.platformCalls.count PlatformCall.Kill
        = w.platformCalls.count PlatformCall.Kill + l.length := by
  induction l generalizing w with
  | nil =>
    refine ⟨w, rfl, rfl, ?_, fun _ _ => rfl, fun _ => rfl, ?_, ?_⟩
    · intro b hb
      cases hb
    · simp
    · simp
  | cons b rest ih =>
    obtain ⟨hkb, hpb, hcb⟩ := h b (List.mem_cons_self _ _)
    obtain ⟨s, hs, hinst, hbr, hnames, hqueue, hcount⟩ := KillAll_step fuel w b hkb hpb hcb
    have hrest : ∀ b' ∈ rest, PagesKeyed ((w.store s).window b') ∧
        ((w.store s).window b').pages_.length ≤ fuel ∧
        ((w.store s).window b').controls_.length ≤ fuel := by
      intro b' hb'
      by_cases hbb : b' = b
      · subst hbb
        have hm : (w.store s).browsers b' =
            Members.mk [] [] (w.browsers b').floating_ true := by
          rw [hbr, Function.update_same]
        refine ⟨?_, ?_, ?_⟩
        · intro e he
          simp only [World.window, hm] at he
          cases he
        · simp [World.window, hm]
        · simp [World.window, hm]
      · have hm : (w.store s).browsers b' = w.browsers b' := by
          rw [hbr, Function.update_noteq hbb]
        obtain ⟨hk', hp', hc'⟩ := h b' (List.mem_cons_of_mem _ hb')
        refine ⟨?_, ?_, ?_⟩
        · intro e he
          simp only [World.window, hm] at he ⊢
          rw [hnames]
          exact hk' e he
        · simpa [World.window, hm] using hp'
        · simpa [World.window, hm] using hc'
    obtain ⟨w', hw', hinst', hempty, hother, hnames', hqueue', hcount'⟩ :=
      ih (w.store s) hrest
    refine ⟨w', ?_, hinst'.trans hinst, ?_, ?_, ?_, ?_, ?_⟩
    · simp only [KillAll.loop, hs]
      exact hw'
    · intro b' hb'
      by_cases hin : b' ∈ rest
      · exact hempty b' hin
      · have hbb : b' = b := by
          rcases List.mem_cons.mp hb' with h1 | h1
          · exact h1
          · exact absurd h1 hin
        rw [hother b' hin, hbr, hbb, Function.update_same]
        exact ⟨rfl, rfl, rfl⟩
    · intro b' hb'
      have h1 : b' ≠ b := fun h1 => hb' (h1 ▸ List.mem_cons_self _ _)
      have h2 : b' ∉ rest := fun h2 => hb' (List.mem_cons_of_mem _ h2)
      rw [hother b' h2, hbr, Function.update_noteq h1]
    · intro q
      rw [hnames', hnames]
    · rw [hqueue', hqueue]
      simp
    · rw [hcount', hcount]
      simp only [List.length_cons]
      omega

/-- C15: let every live window have its pages keyed by the name of their frame
and let the fuel cover each of its maps. `KillAll()` returns. It runs `Kill()`
on the windows of `s_instances` in list order, once per occurrence: the queue
grows by one `Kill` task per listed window, in list order, and one platform
`Kill` is issued per listed window; with the windows of the list distinct,
that is exactly one `Kill` task for each. Afterwards every listed window has
empty `pages_` and `controls_` and its kill flag set, the windows not listed
are as before, and `s_instances` is unchanged. -/
theorem KillAll_kills_each (w : World) (fuel : Nat)
    (h : ∀ b ∈ w.s_instances, PagesKeyed (w.window b) ∧
      (w.window b).pages_.length ≤ fuel ∧ (w.window b).controls_.length ≤ fuel) :
    ∃ w', KillAll fuel w = some w' ∧
      w'.s_instances = w.s_instances ∧
      (∀ b ∈ w.s_instances, (w'.browsers b).pages_ = [] ∧ (w'.browsers b).controls_ = [] ∧
        (w'.browsers b).is_killed_ = true) ∧
      (∀ b, b ∉ w.s_instances → w'.browsers b = w.browsers b) ∧
      w'.queue = w.queue ++ w.s_instances.map Message.Kill ∧
      w'.platformCalls.count PlatformCall.Kill
        = w.platformCalls.count PlatformCall.Kill + w.s_instances.length ∧
      (w.s_instances.Nodup → ∀ b ∈ w.s_instances,
        (w.s_instances.map Message.Kill).count (Message.Kill b) = 1) := by
  obtain ⟨w', h1, h2, h3, h4, _, h6, h7⟩ := KillAll_loop_spec fuel w.s_instances w h
  refine ⟨w', h1, h2, h3, h4, h6, h7, ?_⟩
  intro hnd b hb
  rw [List.count_map_of_injective _ _ (fun a c hac => by injection hac)]
  exact List.count_eq_one_of_mem hnd hb

/-- C15 at the sample process: windows 7 (pages "a", "b") and 8 (control 0).
`KillAll()` posts the `Kill` task of window 7, then that of window 8, and
leaves both windows empty. -/
theorem KillAll_kills_each_witness :
    (∀ b ∈ sampleWorld.s_instances, PagesKeyed (sampleWorld.window b) ∧
      (sampleWorld.window b).pages_.length ≤ 2 ∧
      (sampleWorld.window b).controls_.length ≤ 2) ∧
    (KillAll 2 sampleWorld).map (fun w' => w'.queue) = some [Message.Kill 7, Message.Kill 8] ∧
    ∃ w', KillAll 2 sampleWorld = some w' ∧
      w'.s_instances = [7, 8] ∧
      (∀ b ∈ sampleWorld.s_instances,
        (w'.browsers b).pages_ = [] ∧ (w'.browsers b).controls_ = [] ∧
        (w'.browsers b).is_killed_ = true) ∧
      w'.queue = sampleWorld.queue ++ [Message.Kill 7, Message.Kill 8] :=
  have hyp : ∀ b ∈ sampleWorld.s_instances, PagesKeyed (sampleWorld.window b) ∧
      (sampleWorld.window b).pages_.length ≤ 2 ∧
      (sampleWorld.window b).controls_.length ≤ 2 := by
    intro b hb
    have hb' : b = 7 ∨ b = 8 := by
      have : b ∈ [7, 8] := hb
      simpa using this
    rcases hb' with rfl | rfl
    · refine ⟨?_, by decide, by decide⟩
      intro e he
      have he' : e = ("a", 1) ∨ e = ("b", 2) := by
        have : e ∈ [(("a", 1) : String × FramePtr), ("b", 2)] := he
        simpa using this
      rcases he' with rfl | rfl <;> decide
    · refine ⟨?_, by decide, by decide⟩
      intro e he
      cases he
  have h := KillAll_kills_each sampleWorld 2 hyp
  ⟨hyp, by decide, h.elim fun w' hw => ⟨w', hw.1, hw.2.1, hw.2.2.1, hw.2.2.2.2.1⟩⟩

end ExoBrowser
